import Mathlib

/-!
# osdctl `hcp get-cp-autoscaling-status`: shallow embedding and checked properties

Sources: `cmd/hcp/get-cp-autoscaling-status/get_cp_autoscaling_status.go` and, for
`getCADClusterConfig`, `cmd/cluster/cad/run.go`.

Modelling conventions
* Go `string` is `String`; Go `[]T` is `List T`; `append(s, x)` is `s ++ [x]`.
* Go `map[string]string` is an association list read with `List.lookup`;
  `m[k]` is the value or the zero value `""`, and `v, ok := m[k]` also gives presence.
* Go `int` results of `len` are `Int`.
* `time.Time` is an abstract instant (`Int`), `time.Duration` is `Int` nanoseconds.
* Calls to the Kubernetes client are passed in as their outcomes
  (`Except String _`: the error text or the listed items).
* `for ... range` loops are left folds over the ranged list, with the loop body as
  the step function.
-/

namespace GetCpAutoscalingStatus

/-! ## Constants -/

def annotationResourceBasedAutoscaling : String :=
  "hypershift.openshift.io/resource-based-cp-auto-scaling"

def annotationClusterSizeOverride : String :=
  "hypershift.openshift.io/cluster-size-override"

def annotationRecommendedClusterSize : String :=
  "hypershift.openshift.io/recommended-cluster-size"

def labelHostedClusterSize : String :=
  "hypershift.openshift.io/hosted-cluster-size"

def labelClusterID : String :=
  "api.openshift.com/id"

/-! ## Data model -/

/-- Command options (`type options struct`). -/
structure options where
  mgmtClusterID : String
  output : String
  showOnly : String
  noHeaders : Bool
deriving DecidableEq, Repr

/-- One audited hosted cluster (`type clusterInfo struct`). -/
structure clusterInfo where
  ClusterID : String
  ClusterName : String
  Namespace : String
  AutoscalingEnabled : Bool
  HasOverrideAnnotation : Bool
  CurrentSize : String
  RecommendedSize : String
deriving DecidableEq, Repr

/-- The audit report (`type auditResults struct`). -/
structure auditResults where
  Timestamp : Int
  ManagementCluster : String
  TotalClusters : Int
  Clusters : List clusterInfo
deriving DecidableEq, Repr

deriving instance DecidableEq for Except

/-- A Go `map[string]string`. -/
abbrev StringMap := List (String × String)

/-- Go `m[k]`: the stored value, or the zero value `""` when the key is absent. -/
def StringMap.index (m : StringMap) (k : String) : String :=
  match m.lookup k with
  | some v => v
  | none => ""

/-- Go `v, ok := m[k]`. -/
def StringMap.commaOk (m : StringMap) (k : String) : String × Bool :=
  match m.lookup k with
  | some v => (v, true)
  | none => ("", false)

/-- The part of `hypershiftv1beta1.HostedCluster` that the audit reads
(`ObjectMeta.Name`, `ObjectMeta.Labels`, `ObjectMeta.Annotations`). -/
structure HostedCluster where
  Name : String
  Labels : StringMap
  Annotations : StringMap
deriving DecidableEq, Repr

/-- The part of `corev1.Namespace` that the audit reads (`ObjectMeta.Name`). -/
structure Namespace where
  Name : String
deriving DecidableEq, Repr

/-! ## applyFilter -/

/-- Body of the `for _, cluster := range results.Clusters` loop of `applyFilter`;
`acc` is `filtered.Clusters`. -/
def applyFilterStep (o : options) (acc : List clusterInfo) (cluster : clusterInfo) :
    List clusterInfo :=
  let isSafeToRemoveOverride : Bool :=
    cluster.AutoscalingEnabled &&
      cluster.HasOverrideAnnotation &&
      cluster.RecommendedSize != "" &&
      cluster.RecommendedSize != "N/A" &&
      cluster.CurrentSize == cluster.RecommendedSize
  if o.showOnly = "needs-removal" then
    if cluster.HasOverrideAnnotation then acc ++ [cluster] else acc
  else if o.showOnly = "ready-for-migration" then
    if !cluster.AutoscalingEnabled then acc ++ [cluster] else acc
  else if o.showOnly = "safe-to-remove-override" then
    if isSafeToRemoveOverride then acc ++ [cluster] else acc
  else acc

/-- Embedding of `func (o *options) applyFilter(results *auditResults) *auditResults`. -/
def applyFilter (o : options) (results : auditResults) : auditResults :=
  let filteredClusters := results.Clusters.foldl (applyFilterStep o) []
  { Timestamp := results.Timestamp
    ManagementCluster := results.ManagementCluster
    TotalClusters := (filteredClusters.length : Int)
    Clusters := filteredClusters }

/-- The `safe-to-remove-override` condition as the spec table writes it. -/
def safeToRemoveOverride (c : clusterInfo) : Bool :=
  c.AutoscalingEnabled && c.HasOverrideAnnotation && c.RecommendedSize != "" &&
    c.RecommendedSize != "N/A" && c.CurrentSize == c.RecommendedSize

/-- The membership predicate the spec table gives for a bucket name. -/
def bucketPredicate (bucket : String) (c : clusterInfo) : Bool :=
  if bucket = "needs-removal" then c.HasOverrideAnnotation
  else if bucket = "ready-for-migration" then !c.AutoscalingEnabled
  else if bucket = "safe-to-remove-override" then safeToRemoveOverride c
  else false

/-! ## The Kubernetes client, as seen by the audit -/

/-- What the audit observes of `client.Client`: the answer to each `List` call.
An answer is the returned error (its text) or the listed items. -/
structure Client where
  /-- Answer to the `n`-th `List` of a `NamespaceList` (`n` counted from 1). -/
  listNamespaces : Nat → Except String (List Namespace)
  /-- Answer to `List` of a `HostedClusterList` with `client.InNamespace(ns)`. -/
  listHostedClusters : String → Except String (List HostedCluster)

/-- Observable effects of the audit, in program order. -/
inductive Event where
  | listCall (attempt : Nat)
  | sleep (d : Int)
  | printf (s : String)
deriving DecidableEq, Repr

/-! ## Regular expressions (the fragment of Go `regexp` used by the pattern) -/

/-- Regular expression syntax. -/
inductive Regex where
  | empty : Regex
  | eps : Regex
  | lit : Char → Regex
  | range : Char → Char → Regex
  | alt : Regex → Regex → Regex
  | cat : Regex → Regex → Regex
  | star : Regex → Regex
deriving Repr

namespace Regex

/-- Concatenation of the literal characters of a string. -/
def str : List Char → Regex
  | [] => eps
  | c :: cs => cat (lit c) (str cs)

/-- One or more repetitions: `r+`. -/
def plus (r : Regex) : Regex := cat r (star r)

/-- Whether the expression accepts the empty text. -/
def nullable : Regex → Bool
  | empty => false
  | eps => true
  | lit _ => false
  | range _ _ => false
  | alt r s => nullable r || nullable s
  | cat r s => nullable r && nullable s
  | star _ => true

/-- Brzozowski derivative with respect to one character. -/
def deriv : Regex → Char → Regex
  | empty, _ => empty
  | eps, _ => empty
  | lit a, c => if a = c then eps else empty
  | range lo hi, c => if lo ≤ c ∧ c ≤ hi then eps else empty
  | alt r s, c => alt (deriv r c) (deriv s c)
  | cat r s, c =>
    if nullable r then alt (cat (deriv r c) s) (deriv s c) else cat (deriv r c) s
  | star r, c => cat (deriv r c) (star r)

/-- Whole-text match. -/
def matchesAll : Regex → List Char → Bool
  | r, [] => nullable r
  | r, c :: cs => matchesAll (deriv r c) cs

end Regex

/-- The character class `[a-zA-Z0-9]`. -/
def alnumClass : Regex :=
  Regex.alt (Regex.range 'a' 'z') (Regex.alt (Regex.range 'A' 'Z') (Regex.range '0' '9'))

/-- The body of the pattern of `listOcmNamespaces`, between `^` and `$`:
`ocm-(production|staging)-[a-zA-Z0-9]+`. -/
def ocmNamespacePatternBody : Regex :=
  Regex.cat (Regex.str "ocm-".data)
    (Regex.cat (Regex.alt (Regex.str "production".data) (Regex.str "staging".data))
      (Regex.cat (Regex.lit '-') (Regex.plus alnumClass)))

/-- `ocmNamespacePattern.MatchString(name)` for
`^ocm-(production|staging)-[a-zA-Z0-9]+$`. No flag is set, so `^` matches only at
the beginning of the text and `$` only at its end: the search succeeds exactly when
the whole text matches the body. -/
def ocmNamespacePatternMatchString (name : String) : Bool :=
  ocmNamespacePatternBody.matchesAll name.data

/-! ## listOcmNamespaces -/

/-- Embedding of `listOcmNamespaces`; `call` numbers the `List` call made. -/
def listOcmNamespaces (kubeClient : Client) (call : Nat) : Except String (List Namespace) :=
  match kubeClient.listNamespaces call with
  | .error err => .error err
  | .ok items =>
    .ok (items.foldl
      (fun filtered ns =>
        if ocmNamespacePatternMatchString ns.Name then filtered ++ [ns] else filtered)
      [])

/-! ## getHostedClusterInNamespace and auditNamespace -/

/-- Embedding of `getHostedClusterInNamespace`. The last branch is the index
expression `hcList.Items[0]`, which cannot fail after the two length checks. -/
def getHostedClusterInNamespace (kubeClient : Client) (nsName : String) :
    Except String HostedCluster :=
  match kubeClient.listHostedClusters nsName with
  | .error err => .error err
  | .ok items =>
    if items.length = 0 then
      .error "no HostedCluster found"
    else if items.length > 1 then
      .error ("found " ++ toString items.length ++ " HostedClusters, expected 1")
    else
      match items[0]? with
      | some hc => .ok hc
      | none => .error "index out of range [0] with length 0"

/-- Embedding of `auditNamespace`. -/
def auditNamespace (kubeClient : Client) (nsName : String) : Except String clusterInfo :=
  match getHostedClusterInNamespace kubeClient nsName with
  | .error err => .error err
  | .ok hc =>
    let clusterID := hc.Labels.index labelClusterID
    let currentSize := hc.Labels.index labelHostedClusterSize
    let currentSize := if currentSize = "" then "N/A" else currentSize
    let autoScaling := (hc.Annotations.commaOk annotationResourceBasedAutoscaling).1
    let hasAutoScaling := (hc.Annotations.commaOk annotationResourceBasedAutoscaling).2
    let autoscalingEnabled := hasAutoScaling && autoScaling == "true"
    let hasOverride := (hc.Annotations.commaOk annotationClusterSizeOverride).2
    let recommendedSize := hc.Annotations.index annotationRecommendedClusterSize
    let recommendedSize := if recommendedSize = "" then "N/A" else recommendedSize
    .ok
      { ClusterID := clusterID
        ClusterName := hc.Name
        Namespace := nsName
        AutoscalingEnabled := autoscalingEnabled
        HasOverrideAnnotation := hasOverride
        CurrentSize := currentSize
        RecommendedSize := recommendedSize }

/-! ## auditManagementCluster -/

/-- Local `maxRetries := 3`. -/
def maxRetries : Nat := 3

/-- Value of `time.Second` in nanoseconds. -/
def timeSecond : Int := 1000000000

/-- Local `retryDelay := 2 * time.Second`. -/
def retryDelay : Int := 2 * timeSecond

/-- How the retry loop is left: the variable `namespaces`, the error returned from
inside the loop (if any) and the effects so far. -/
structure RetryResult where
  namespaces : List Namespace
  err : Option String
  trace : List Event
deriving DecidableEq, Repr

/-- The loop `for attempt := 1; attempt <= maxRetries; attempt++` of
`auditManagementCluster`, started at `attempt` with the current value of
`namespaces` and the effects so far. `fuel` bounds the number of iterations;
`none` means the bound was too small. -/
def retryLoop (kubeClient : Client) :
    Nat → Nat → List Namespace → List Event → Option RetryResult
  | 0, _, _, _ => none
  | fuel + 1, attempt, namespaces, trace =>
    if attempt ≤ maxRetries then
      let trace := trace ++ [Event.listCall attempt]
      match listOcmNamespaces kubeClient attempt with
      | .ok listed => some { namespaces := listed, err := none, trace := trace }
      | .error err =>
        if attempt = maxRetries then
          some
            { namespaces := []
              err := some ("failed to list namespaces after " ++ toString maxRetries ++
                " attempts (cluster may be unreachable): " ++ err)
              trace := trace }
        else
          retryLoop kubeClient fuel (attempt + 1) [] (trace ++ [Event.sleep retryDelay])
    else
      some { namespaces := namespaces, err := none, trace := trace }

/-- Lines 162 to 177: the retry loop from `attempt := 1`, given `maxRetries + 1`
iterations (one more than the loop condition admits). -/
def listNamespacesWithRetry (kubeClient : Client) : Option RetryResult :=
  retryLoop kubeClient (maxRetries + 1) 1 [] []

/-- State of the loop over namespaces: `results.Clusters` and what was printed. -/
structure AuditLoopState where
  Clusters : List clusterInfo
  trace : List Event
deriving DecidableEq, Repr

/-- Body of `for _, ns := range namespaces` in `auditManagementCluster`. -/
def auditLoopStep (kubeClient : Client) (st : AuditLoopState) (ns : Namespace) :
    AuditLoopState :=
  match auditNamespace kubeClient ns.Name with
  | .error err =>
    { st with
      trace := st.trace ++
        [Event.printf ("Warning: failed to audit namespace " ++ ns.Name ++ ": " ++ err ++ "\n")] }
  | .ok info => { st with Clusters := st.Clusters ++ [info] }

/-- Lines 179 to 195 of `auditManagementCluster`: the report as it stands before the
optional filter, with the warnings printed on the way. `now` is `time.Now()`. -/
def buildResults (now : Int) (resolvedMgmtClusterName : String) (mgmtClient : Client)
    (namespaces : List Namespace) : auditResults × List Event :=
  let st := namespaces.foldl (auditLoopStep mgmtClient) { Clusters := [], trace := [] }
  ({ Timestamp := now
     ManagementCluster := resolvedMgmtClusterName
     TotalClusters := (st.Clusters.length : Int)
     Clusters := st.Clusters }, st.trace)

/-- What a run of `auditManagementCluster` gives: the returned error or the report
handed to `outputResults`, and the effects. -/
structure AuditRun where
  err : Option String
  results : Option auditResults
  trace : List Event
deriving DecidableEq, Repr

/-- Embedding of `auditManagementCluster` from the retry loop on (lines 162 to 201),
with the resolved cluster name, the client and `time.Now()` as inputs. The earlier
steps only call external packages. The result carries the report passed to
`outputResults`. -/
def auditManagementCluster (o : options) (now : Int) (resolvedMgmtClusterName : String)
    (mgmtClient : Client) : Option AuditRun :=
  match listNamespacesWithRetry mgmtClient with
  | none => none
  | some retry =>
    match retry.err with
    | some err => some { err := some err, results := none, trace := retry.trace }
    | none =>
      let built := buildResults now resolvedMgmtClusterName mgmtClient retry.namespaces
      let results := if o.showOnly ≠ "" then applyFilter o built.1 else built.1
      some { err := none, results := some results, trace := retry.trace ++ built.2 }

/-! ## Test fixtures and specification-side definitions -/

/-- A hosted cluster used to exercise the classifier: the end-to-end scenario of the
spec (size label `medium`, autoscaling `true`, an override, recommended `medium`). -/
def scenarioHostedCluster : HostedCluster :=
  { Name := "hc-001"
    Labels := [(labelClusterID, "cluster-001"), (labelHostedClusterSize, "medium")]
    Annotations :=
      [(annotationResourceBasedAutoscaling, "true"), (annotationClusterSizeOverride, ""),
        (annotationRecommendedClusterSize, "medium")] }

/-- A client whose every namespace holds exactly `scenarioHostedCluster`. -/
def scenarioClient : Client :=
  { listNamespaces := fun _ => .ok [{ Name := "ocm-production-001" }]
    listHostedClusters := fun _ => .ok [scenarioHostedCluster] }

/-- A client used to exercise the orchestrator: the namespace listing fails twice and
then succeeds; `ocm-production-001` holds one hosted cluster, `ocm-staging-2` none. -/
def flakyClient : Client :=
  { listNamespaces := fun n =>
      if n = 3 then
        .ok [{ Name := "ocm-staging-2" }, { Name := "kube-system" },
          { Name := "ocm-production-001" }]
      else .error "connection refused"
    listHostedClusters := fun nsName =>
      if nsName = "ocm-production-001" then .ok [scenarioHostedCluster] else .ok [] }

/-- The record of a namespace, if its audit succeeds. -/
def auditedRecord (k : Client) (ns : Namespace) : Option clusterInfo :=
  match auditNamespace k ns.Name with
  | .ok info => some info
  | .error _ => none

/-- Number of listing attempts recorded in a trace. -/
def attemptsMade (tr : List Event) : Nat :=
  (tr.filter (fun ev => match ev with
    | .listCall _ => true
    | _ => false)).length

/-- The error text returned when the third attempt fails with `err`. -/
def unreachableError (err : String) : String :=
  "failed to list namespaces after 3 attempts (cluster may be unreachable): " ++ err

/-- An ASCII letter or digit. -/
def isAsciiLetterOrDigit (c : Char) : Prop :=
  ('a' ≤ c ∧ c ≤ 'z') ∨ ('A' ≤ c ∧ c ≤ 'Z') ∨ ('0' ≤ c ∧ c ≤ '9')

/-! ## applyFilter as a call through a pointer -/

/-- The two reports `applyFilter` works on: the pointee of its argument `results` and
the pointee of its local `filtered`. -/
structure ApplyFilterFrame where
  results : auditResults
  filtered : auditResults
deriving DecidableEq, Repr

/-- One iteration of the loop of `applyFilter` on both reports. Its only assignment
is `filtered.Clusters = append(filtered.Clusters, cluster)`; `filtered.Clusters`
starts from the fresh literal `[]clusterInfo{}`, so the append never writes into the
array behind `results.Clusters`. -/
def applyFilterIter (o : options) (st : ApplyFilterFrame) (cluster : clusterInfo) :
    ApplyFilterFrame :=
  { st with
    filtered := { st.filtered with Clusters := applyFilterStep o st.filtered.Clusters cluster } }

/-- The call `o.applyFilter(results)` with `results` a pointer, statement by
statement on both reports: the returned report and the pointee of `results` after
the call. -/
def applyFilterCall (o : options) (results : auditResults) : auditResults × auditResults :=
  let st0 : ApplyFilterFrame :=
    { results := results
      filtered :=
        { Timestamp := results.Timestamp
          ManagementCluster := results.ManagementCluster
          TotalClusters := 0
          Clusters := [] } }
  let st1 := st0.results.Clusters.foldl (applyFilterIter o) st0
  let st2 : ApplyFilterFrame :=
    { st1 with
      filtered := { st1.filtered with TotalClusters := (st1.filtered.Clusters.length : Int) } }
  (st2.filtered, st2.results)

/-! ## options.run -/

/-- Go `m[k]` on a `map[string]bool`: the stored value, or `false` when absent. -/
def boolMapIndex (m : List (String × Bool)) (k : String) : Bool :=
  match m.lookup k with
  | some b => b
  | none => false

/-- What `run` does beyond validating, in program order. -/
inductive RunEvent where
  | createConnection
  | auditManagementCluster
  | closeConnection
deriving DecidableEq, Repr

/-- The error returned by `run` (if any) and the steps taken. -/
structure RunResult where
  err : Option String
  trace : List RunEvent
deriving DecidableEq, Repr

/-- Embedding of `func (o *options) run`. `createConnection` is the outcome of
`utils.CreateConnection()` and `audit` the error returned by
`o.auditManagementCluster(ctx, connection)`. -/
def run (o : options) (createConnection : Except String Unit) (audit : Option String) :
    RunResult :=
  let validOutputs := [("text", true), ("json", true), ("yaml", true), ("csv", true)]
  if !boolMapIndex validOutputs o.output then
    { err := some ("invalid output format '" ++ o.output ++
        "'. Valid options: text, json, yaml, csv")
      trace := [] }
  else
    let filterErr : Option String :=
      if o.showOnly ≠ "" then
        let validFilters :=
          [("needs-removal", true), ("ready-for-migration", true),
            ("safe-to-remove-override", true)]
        if !boolMapIndex validFilters o.showOnly then
          some ("invalid show-only filter '" ++ o.showOnly ++
            "'. Valid options: needs-removal, ready-for-migration, safe-to-remove-override")
        else none
      else none
    match filterErr with
    | some e => { err := some e, trace := [] }
    | none =>
      match createConnection with
      | .error err =>
        { err := some ("failed to create OCM connection: " ++ err)
          trace := [RunEvent.createConnection] }
      | .ok _ =>
        { err := audit
          trace := [RunEvent.createConnection, RunEvent.auditManagementCluster,
            RunEvent.closeConnection] }

/-! ## cmd/cluster/cad/run.go -/

def cadClusterIDProd : String := "2fbi9mjhqpobh20ot5d7e5eeq3a8gfhs"

def cadClusterIDStage : String := "2f9ghpikkv446iidcv7b92em2hgk13q9"

/-- Options of `osdctl cluster cad run` (`type cadRunOptions struct`). -/
structure cadRunOptions where
  clusterID : String
  investigation : String
  elevationReason : String
  environment : String
deriving DecidableEq, Repr

/-- Embedding of `func (o *cadRunOptions) getCADClusterConfig() (clusterID, namespace string)`. -/
def getCADClusterConfig (o : cadRunOptions) : String × String :=
  if o.environment = "stage" then
    (cadClusterIDStage, "configuration-anomaly-detection-stage")
  else
    (cadClusterIDProd, "configuration-anomaly-detection-production")

/-- A hosted cluster whose recommended-size annotation is the text `N/A`. -/
def literalNAHostedCluster : HostedCluster :=
  { Name := "hc-na"
    Labels := [(labelClusterID, "cluster-na"), (labelHostedClusterSize, "medium")]
    Annotations := [(annotationRecommendedClusterSize, "N/A")] }

/-- A client whose every namespace holds exactly `literalNAHostedCluster`. -/
def literalNAClient : Client :=
  { listNamespaces := fun _ => .ok [{ Name := "ocm-production-na" }]
    listHostedClusters := fun _ => .ok [literalNAHostedCluster] }

/-! ## Go standard library: `sort.Slice`

`printTable` sorts with `sort.Slice`, which is not part of the repository. Two views of
it are used. The renderers take the library calls they make as an environment
(`RenderEnv`), so that properties can be stated for every `sort.Slice` that sorts.
The definitions in `GoSort` transcribe the algorithm the Go runtime runs since Go 1.19
(pattern-defeating quicksort, `sort/zsortfunc.go`), on a list with indexed reads and
swaps, so that the order of equal elements can be computed on concrete inputs. -/

namespace GoSort

/-- `data.Less(i, j)` on the current contents of the slice. Every call below is made
with both indices inside the slice; outside it the model answers `false`. -/
def lessAt {α : Type} (less : α → α → Bool) (data : List α) (i j : Nat) : Bool :=
  match data[i]?, data[j]? with
  | some x, some y => less x y
  | _, _ => false

/-- `data.Swap(i, j)`. Every call below is made with both indices inside the slice;
outside it the model leaves the slice as it is. -/
def swapAt {α : Type} (data : List α) (i j : Nat) : List α :=
  match data[i]?, data[j]? with
  | some x, some y => (data.set i y).set j x
  | _, _ => data

/-- Inner loop of `insertionSort_func`:
`for j := i; j > a && data.Less(j, j-1); j-- { data.Swap(j, j-1) }`. -/
def insertionSortInner {α : Type} (less : α → α → Bool) (a : Nat) : Nat → List α → List α
  | 0, data => data
  | j + 1, data =>
    if j + 1 > a && lessAt less data (j + 1) j then
      insertionSortInner less a j (swapAt data (j + 1) j)
    else data

/-- `insertionSort_func(data, a, b)`: `for i := a + 1; i < b; i++ { inner loop }`. -/
def insertionSort_func {α : Type} (less : α → α → Bool) (data : List α) (a b : Nat) :
    List α :=
  (List.range' (a + 1) (b - (a + 1))).foldl (fun d i => insertionSortInner less a i d) data

/-- `siftDown_func(data, lo, hi, first)`, with `root` the loop variable started at
`lo`. The first argument bounds the iterations (the root at least doubles). -/
def siftDown_func {α : Type} (less : α → α → Bool) (hi first : Nat) :
    Nat → Nat → List α → List α
  | 0, _, data => data
  | fuel + 1, root, data =>
    let child := 2 * root + 1
    if child ≥ hi then data
    else
      let child :=
        if child + 1 < hi && lessAt less data (first + child) (first + child + 1) then child + 1
        else child
      if !lessAt less data (first + root) (first + child) then data
      else siftDown_func less hi first fuel child (swapAt data (first + root) (first + child))

/-- `heapSort_func(data, a, b)`. The two loops count `i` down to 0. -/
def heapSort_func {α : Type} (less : α → α → Bool) (data : List α) (a b : Nat) : List α :=
  let first := a
  let lo := 0
  let hi := b - a
  let data := (List.range ((hi - 1) / 2 + 1)).reverse.foldl
    (fun d i => siftDown_func less hi first (hi + 1) i d) data
  (List.range hi).reverse.foldl
    (fun d i => siftDown_func less i first (hi + 1) lo (swapAt d first (first + i))) data

/-- The loop `for i <= j && cond(i) { i++ }`; the first argument bounds the steps. -/
def scanUp (cond : Nat → Bool) (j : Nat) : Nat → Nat → Nat
  | 0, i => i
  | fuel + 1, i => if i ≤ j && cond i then scanUp cond j fuel (i + 1) else i

/-- The loop `for i <= j && cond(j) { j-- }`, by recursion on `j`. It is only entered
with `i ≥ 1`, so it stops before `j` would pass 0. -/
def scanDown (cond : Nat → Bool) (i : Nat) : Nat → Nat
  | 0 => 0
  | j + 1 => if i ≤ j + 1 && cond (j + 1) then scanDown cond i j else j + 1

/-- The `for { ... }` loop of `partition_func`, from its top, with pivot at `a`. -/
def partitionLoop {α : Type} (less : α → α → Bool) (a : Nat) :
    Nat → List α → Nat → Nat → List α × Nat
  | 0, data, _, j => (data, j)
  | fuel + 1, data, i, j =>
    let i := scanUp (fun i => lessAt less data i a) j (j + 1) i
    let j := scanDown (fun j => !lessAt less data j a) i j
    if i > j then (data, j)
    else partitionLoop less a fuel (swapAt data i j) (i + 1) (j - 1)

/-- `partition_func(data, a, b, pivot)`: the slice, `newpivot` and
`alreadyPartitioned`. -/
def partition_func {α : Type} (less : α → α → Bool) (data : List α) (a b pivot : Nat) :
    List α × Nat × Bool :=
  let data := swapAt data a pivot
  let i := a + 1
  let j := b - 1
  let i := scanUp (fun i => lessAt less data i a) j (j + 1) i
  let j := scanDown (fun j => !lessAt less data j a) i j
  if i > j then (swapAt data j a, j, true)
  else
    let data := swapAt data i j
    let i := i + 1
    let j := j - 1
    let r := partitionLoop less a (b + 1) data i j
    (swapAt r.1 r.2 a, r.2, false)

/-- The `for { ... }` loop of `partitionEqual_func`; returns the slice and `i`. -/
def partitionEqualLoop {α : Type} (less : α → α → Bool) (a : Nat) :
    Nat → List α → Nat → Nat → List α × Nat
  | 0, data, i, _ => (data, i)
  | fuel + 1, data, i, j =>
    let i := scanUp (fun i => !lessAt less data a i) j (j + 1) i
    let j := scanDown (fun j => lessAt less data a j) i j
    if i > j then (data, i)
    else partitionEqualLoop less a fuel (swapAt data i j) (i + 1) (j - 1)

/-- `partitionEqual_func(data, a, b, pivot)`: the slice and `newpivot`. -/
def partitionEqual_func {α : Type} (less : α → α → Bool) (data : List α) (a b pivot : Nat) :
    List α × Nat :=
  let data := swapAt data a pivot
  partitionEqualLoop less a (b + 1) data (a + 1) (b - 1)

/-- In `partialInsertionSort_func`: `for j := i - 1; j >= 1; j-- { if !data.Less(j, j-1)
{ break }; data.Swap(j, j-1) }`, by recursion on `j`. -/
def shiftSmaller {α : Type} (less : α → α → Bool) : Nat → List α → List α
  | 0, data => data
  | j + 1, data =>
    if !lessAt less data (j + 1) j then data
    else shiftSmaller less j (swapAt data (j + 1) j)

/-- In `partialInsertionSort_func`: `for j := i + 1; j < b; j++ { if !data.Less(j, j-1)
{ break }; data.Swap(j, j-1) }`; the first argument bounds the steps. -/
def shiftGreater {α : Type} (less : α → α → Bool) (b : Nat) : Nat → Nat → List α → List α
  | 0, _, data => data
  | fuel + 1, j, data =>
    if j < b then
      if !lessAt less data j (j - 1) then data
      else shiftGreater less b fuel (j + 1) (swapAt data j (j - 1))
    else data

/-- The loop `for j := 0; j < maxSteps; j++` of `partialInsertionSort_func`, with
`steps` iterations left and `i` carried over. -/
def partialInsertionSortLoop {α : Type} (less : α → α → Bool) (a b : Nat) :
    Nat → Nat → List α → List α × Bool
  | 0, _, data => (data, false)
  | steps + 1, i, data =>
    let i := scanUp (fun i => !lessAt less data i (i - 1)) (b - 1) b i
    if i = b then (data, true)
    else if b - a < 50 then (data, false)
    else
      let data := swapAt data i (i - 1)
      let data := if i - a ≥ 2 then shiftSmaller less (i - 1) data else data
      let data := if b - i ≥ 2 then shiftGreater less b b (i + 1) data else data
      partialInsertionSortLoop less a b steps i data

/-- `partialInsertionSort_func(data, a, b)` with `maxSteps = 5` and
`shortestShifting = 50`. -/
def partialInsertionSort_func {α : Type} (less : α → α → Bool) (data : List α) (a b : Nat) :
    List α × Bool :=
  partialInsertionSortLoop less a b 5 (a + 1) data

/-- `bits.Len(x)` for a 64-bit `x`: the number of bits needed to write `x`. -/
def bitsLen (x : Nat) : Nat :=
  ((List.range 64).filter (fun k => 2 ^ k ≤ x)).length

/-- `nextPowerOfTwo(length)`: `1 << bits.Len(uint(length))`. -/
def nextPowerOfTwo (length : Nat) : Nat :=
  2 ^ bitsLen length

/-- `(*xorshift).Next` on 64-bit words. -/
def xorshiftNext (r : Nat) : Nat :=
  let r := r ^^^ ((r <<< 13) % 2 ^ 64)
  let r := r ^^^ (r >>> 7)
  let r := r ^^^ ((r <<< 17) % 2 ^ 64)
  r

/-- The loop `for i := 0; i < 3; i++` of `breakPatterns_func`: the positions `idx`,
`idx + 1` and `idx + 2` are swapped with pseudo-random positions of the range. -/
def breakPatternsLoop {α : Type} (a length modulus idx : Nat) :
    Nat → Nat → Nat → List α → List α
  | 0, _, _, data => data
  | steps + 1, i, random, data =>
    let random := xorshiftNext random
    let other := random &&& (modulus - 1)
    let other := if other ≥ length then other - length else other
    breakPatternsLoop a length modulus idx steps (i + 1) random
      (swapAt data (idx + i) (a + other))

/-- `breakPatterns_func(data, a, b)`; `idx` is the first of the three positions around
the middle of the range that get swapped, `a + (length/4)*2 - 1`. -/
def breakPatterns_func {α : Type} (data : List α) (a b : Nat) : List α :=
  let length := b - a
  if length ≥ 8 then
    let random := length
    let modulus := nextPowerOfTwo length
    let idx := a + (length / 4) * 2 - 1
    breakPatternsLoop a length modulus idx 3 0 random data
  else data

/-- The hints of `choosePivot_func` (`sortedHint`). -/
inductive sortedHint where
  | unknownHint
  | increasingHint
  | decreasingHint
deriving DecidableEq, Repr

/-- `order2_func(data, a, b, swaps)`: the two indices in order and the new `*swaps`. -/
def order2_func {α : Type} (less : α → α → Bool) (data : List α) (a b swaps : Nat) :
    Nat × Nat × Nat :=
  if lessAt less data b a then (b, a, swaps + 1) else (a, b, swaps)

/-- `median_func(data, a, b, c, swaps)`: the index of the median and the new `*swaps`. -/
def median_func {α : Type} (less : α → α → Bool) (data : List α) (a b c swaps : Nat) :
    Nat × Nat :=
  let r1 := order2_func less data a b swaps
  let a := r1.1
  let b := r1.2.1
  let r2 := order2_func less data b c r1.2.2
  let b := r2.1
  let r3 := order2_func less data a b r2.2.2
  (r3.2.1, r3.2.2)

/-- `medianAdjacent_func(data, a, swaps)`. -/
def medianAdjacent_func {α : Type} (less : α → α → Bool) (data : List α) (a swaps : Nat) :
    Nat × Nat :=
  median_func less data (a - 1) a (a + 1) swaps

/-- `choosePivot_func(data, a, b)` with `shortestNinther = 50`, `maxSwaps = 4 * 3`. -/
def choosePivot_func {α : Type} (less : α → α → Bool) (data : List α) (a b : Nat) :
    Nat × sortedHint :=
  let l := b - a
  let swaps := 0
  let i := a + l / 4 * 1
  let j := a + l / 4 * 2
  let k := a + l / 4 * 3
  let r :=
    if l ≥ 8 then
      if l ≥ 50 then
        let ri := medianAdjacent_func less data i swaps
        let rj := medianAdjacent_func less data j ri.2
        let rk := medianAdjacent_func less data k rj.2
        median_func less data ri.1 rj.1 rk.1 rk.2
      else median_func less data i j k swaps
    else (j, swaps)
  if r.2 = 0 then (r.1, sortedHint.increasingHint)
  else if r.2 = 4 * 3 then (r.1, sortedHint.decreasingHint)
  else (r.1, sortedHint.unknownHint)

/-- `reverseRange_func(data, a, b)`: `for i < j { Swap(i, j); i++; j-- }`. -/
def reverseRangeLoop {α : Type} : Nat → Nat → Nat → List α → List α
  | 0, _, _, data => data
  | fuel + 1, i, j, data =>
    if i < j then reverseRangeLoop fuel (i + 1) (j - 1) (swapAt data i j) else data

def reverseRange_func {α : Type} (data : List α) (a b : Nat) : List α :=
  reverseRangeLoop b a (b - 1) data

/-- `pdqsort_func(data, a, b, limit)` from the top of its `for` loop, with the locals
`wasBalanced` and `wasPartitioned`. The first argument bounds the nesting of loop
iterations and recursive calls; `none` means the bound was too small. -/
def pdqsortLoop {α : Type} (less : α → α → Bool) :
    Nat → List α → Nat → Nat → Nat → Bool → Bool → Option (List α)
  | 0, _, _, _, _, _, _ => none
  | fuel + 1, data, a, b, limit, wasBalanced, wasPartitioned =>
    let length := b - a
    if length ≤ 12 then some (insertionSort_func less data a b)
    else if limit = 0 then some (heapSort_func less data a b)
    else
      let data := if !wasBalanced then breakPatterns_func data a b else data
      let limit := if !wasBalanced then limit - 1 else limit
      let cp := choosePivot_func less data a b
      let reversed := cp.2 = sortedHint.decreasingHint
      let data := if reversed then reverseRange_func data a b else data
      let pivot := if reversed then (b - 1) - (cp.1 - a) else cp.1
      let hint := if reversed then sortedHint.increasingHint else cp.2
      let pis :=
        if wasBalanced && wasPartitioned && hint = sortedHint.increasingHint then
          partialInsertionSort_func less data a b
        else (data, false)
      if pis.2 then some pis.1
      else
        let data := pis.1
        if a > 0 && !lessAt less data (a - 1) pivot then
          let pe := partitionEqual_func less data a b pivot
          pdqsortLoop less fuel pe.1 pe.2 b limit wasBalanced wasPartitioned
        else
          let pt := partition_func less data a b pivot
          let mid := pt.2.1
          let wasPartitioned := pt.2.2
          let leftLen := mid - a
          let rightLen := b - mid
          let balanceThreshold := length / 8
          if leftLen < rightLen then
            let wasBalanced := decide (leftLen ≥ balanceThreshold)
            match pdqsortLoop less fuel pt.1 a mid limit true true with
            | none => none
            | some data =>
              pdqsortLoop less fuel data (mid + 1) b limit wasBalanced wasPartitioned
          else
            let wasBalanced := decide (rightLen ≥ balanceThreshold)
            match pdqsortLoop less fuel pt.1 (mid + 1) b limit true true with
            | none => none
            | some data => pdqsortLoop less fuel data a mid limit wasBalanced wasPartitioned

/-- `sort.Slice(x, less)`: `limit := bits.Len(uint(length))`, then
`pdqsort_func(data, 0, length, limit)`, given `length + 1` levels of nesting, which
`Slice_sorts` shows to be enough for every slice. -/
def Slice {α : Type} (less : α → α → Bool) (x : List α) : Option (List α) :=
  pdqsortLoop less (x.length + 1) x 0 x.length (bitsLen x.length) true true

/-- The position that `p` is moved to by exchanging positions `i` and `j`. -/
def tr (i j p : Nat) : Nat :=
  if p = i then j else if p = j then i else p

/-- `SwapsIn a b d e`: the slice `e` arises from `d` by exchanging positions that all
lie in the range from `a` up to, not including, `b`. -/
inductive SwapsIn {α : Type} (a b : Nat) : List α → List α → Prop where
  | refl (d : List α) : SwapsIn a b d d
  | step (d e : List α) (i j : Nat) (hai : a ≤ i) (hib : i < b) (haj : a ≤ j) (hjb : j < b)
      (hb : b ≤ d.length) (h : SwapsIn a b (swapAt d i j) e) : SwapsIn a b d e

/-- The positions from `a` up to, not including, `b` hold a non-decreasing sequence:
no later element is less than an earlier one. -/
def SortedOn {α : Type} (less : α → α → Bool) (a b : Nat) (d : List α) : Prop :=
  ∀ i j, a ≤ i → i < j → j < b → lessAt less d j i = false

/-- What `sort.Slice` asks of `less`: a strict weak ordering. -/
structure StrictWeakOrder {α : Type} (less : α → α → Bool) : Prop where
  irrefl : ∀ x, less x x = false
  trans : ∀ x y z, less x y = true → less y z = true → less x z = true
  ntrans : ∀ x y z, less y x = false → less z y = false → less z x = false

end GoSort

/-! ## Result Renderer -/

/-- Go's `a < b` on strings: lexicographic order on the bytes, which for UTF-8 text
is the lexicographic order on the code points. -/
def stringLess : List Char → List Char → Bool
  | _, [] => false
  | [], _ :: _ => true
  | x :: xs, y :: ys =>
    if x.toNat < y.toNat then true
    else if y.toNat < x.toNat then false
    else stringLess xs ys

/-- The closure passed to `sort.Slice` in `printTable`, on the elements at the two
indices: `results.Clusters[i].ClusterName < results.Clusters[j].ClusterName`. -/
def lessByClusterName (a b : clusterInfo) : Bool :=
  stringLess a.ClusterName.data b.ClusterName.data

/-- What the renderers hand to their writers, in program order. -/
inductive Output where
  /-- Text written to standard output by `fmt.Printf`, `fmt.Println` or `fmt.Print`. -/
  | print (s : String)
  /-- `fmt.Printf("Timestamp: %s\n", results.Timestamp.Format(time.RFC3339))`. -/
  | timestampLine (t : Int)
  /-- `p.AddRow(row)` on the table printer. -/
  | addRow (row : List String)
  /-- `p.Flush()` on the table printer. -/
  | flush
  /-- `encoder.Encode(results)` on the JSON encoder. -/
  | jsonEncode (v : auditResults)
  /-- `w.Write(record)` on the CSV writer. -/
  | csvWrite (record : List String)
  /-- The deferred `w.Flush()` on the CSV writer. -/
  | csvFlush
deriving DecidableEq, Repr

/-- Outcome of a renderer called with the pointer `results`: the returned error, what
was handed to the writers, and the pointee after the call. -/
structure PrintResult where
  err : Option String
  out : List Output
  results : auditResults
deriving DecidableEq, Repr

/-- The library calls made by the renderers. -/
structure RenderEnv where
  /-- `sort.Slice(x, less)`: the contents of `x` after the call, `none` if it does not
  return. -/
  sortSlice : (clusterInfo → clusterInfo → Bool) → List clusterInfo → Option (List clusterInfo)
  /-- The error returned by `encoder.Encode(results)`, if any. -/
  jsonEncode : auditResults → Option String
  /-- The outcome of `yaml.Marshal(results)`. -/
  yamlMarshal : auditResults → Except String String
  /-- The error returned by the `n`-th `w.Write` on the CSV writer (from 0), if any. -/
  csvWrite : Nat → Option String

/-- The header row of `printTable`. -/
def tableHeader : List String :=
  ["CLUSTER ID", "CLUSTER NAME", "NAMESPACE", "AUTOSCALING", "HAS OVERRIDE", "CURRENT SIZE",
    "RECOMMENDED SIZE"]

/-- Body of `for _, c := range results.Clusters` in `printTable`: the row given to
`p.AddRow`. -/
def tableRow (c : clusterInfo) : List String :=
  let autoscalingStr := if c.AutoscalingEnabled then "✅" else "❌"
  let overrideStr := if c.HasOverrideAnnotation then "✅" else "❌"
  [c.ClusterID, c.ClusterName, c.Namespace, autoscalingStr, overrideStr, c.CurrentSize,
    c.RecommendedSize]

/-- Embedding of `func (o *options) printTable(results *auditResults) error`.
`sort.Slice` permutes the array behind `results.Clusters` in place, so the pointee
holds the sorted clusters afterwards. -/
def printTable (env : RenderEnv) (o : options) (results : auditResults) :
    Option PrintResult :=
  let banner :=
    [Output.print ("\n=== Management Cluster: " ++ results.ManagementCluster ++ " ===\n"),
      Output.timestampLine results.Timestamp,
      Output.print ("Total Hosted Clusters: " ++ toString results.TotalClusters ++ "\n\n")]
  if results.Clusters.length = 0 then
    some
      { err := none
        out := banner ++ [Output.print "No hosted clusters found\n"]
        results := results }
  else
    match env.sortSlice lessByClusterName results.Clusters with
    | none => none
    | some sorted =>
      let results := { results with Clusters := sorted }
      let header := if !o.noHeaders then [Output.addRow tableHeader] else []
      let rows := results.Clusters.foldl (fun out c => out ++ [Output.addRow (tableRow c)]) []
      some
        { err := none
          out := banner ++ header ++ rows ++ [Output.flush, Output.print "\n"]
          results := results }

/-- Embedding of `func (o *options) printJSON(results *auditResults) error`. -/
def printJSON (env : RenderEnv) (_o : options) (results : auditResults) : PrintResult :=
  { err := env.jsonEncode results
    out := [Output.jsonEncode results]
    results := results }

/-- Embedding of `func (o *options) printYAML(results *auditResults) error`. -/
def printYAML (env : RenderEnv) (_o : options) (results : auditResults) : PrintResult :=
  match env.yamlMarshal results with
  | .error err =>
    { err := some ("failed to marshal to YAML: " ++ err), out := [], results := results }
  | .ok data => { err := none, out := [Output.print data], results := results }

/-- The header record of `printCSV`. -/
def csvHeader : List String :=
  ["cluster_id", "cluster_name", "namespace", "autoscaling_enabled", "has_override",
    "current_size", "recommended_size"]

/-- The record written by the body of `for _, c := range results.Clusters` in
`printCSV`. -/
def csvRecord (c : clusterInfo) : List String :=
  let autoscalingStr := if c.AutoscalingEnabled then "true" else "false"
  let overrideStr := if c.HasOverrideAnnotation then "true" else "false"
  [c.ClusterID, c.ClusterName, c.Namespace, autoscalingStr, overrideStr, c.CurrentSize,
    c.RecommendedSize]

/-- The loop `for _, c := range results.Clusters` of `printCSV` over the clusters
still to be written; `n` counts the `Write` calls made so far and `out` is what was
handed to the writer. Returns the error of the `return` inside the loop, if taken. -/
def printCSVLoop (env : RenderEnv) : List clusterInfo → Nat → List Output →
    Option String × List Output
  | [], _, out => (none, out)
  | c :: rest, n, out =>
    match env.csvWrite n with
    | some err => (some ("failed to write CSV row: " ++ err), out ++ [Output.csvWrite (csvRecord c)])
    | none => printCSVLoop env rest (n + 1) (out ++ [Output.csvWrite (csvRecord c)])

/-- Embedding of `func (o *options) printCSV(results *auditResults) error`; the
deferred `w.Flush()` runs on every return. -/
def printCSV (env : RenderEnv) (o : options) (results : auditResults) : PrintResult :=
  if !o.noHeaders then
    match env.csvWrite 0 with
    | some err =>
      { err := some ("failed to write CSV header: " ++ err)
        out := [Output.csvWrite csvHeader, Output.csvFlush]
        results := results }
    | none =>
      let r := printCSVLoop env results.Clusters 1 [Output.csvWrite csvHeader]
      { err := r.1, out := r.2 ++ [Output.csvFlush], results := results }
  else
    let r := printCSVLoop env results.Clusters 0 []
    { err := r.1, out := r.2 ++ [Output.csvFlush], results := results }

/-- Embedding of `func (o *options) outputResults(results *auditResults) error`. -/
def outputResults (env : RenderEnv) (o : options) (results : auditResults) :
    Option PrintResult :=
  if o.output = "text" then printTable env o results
  else if o.output = "json" then some (printJSON env o results)
  else if o.output = "yaml" then some (printYAML env o results)
  else if o.output = "csv" then some (printCSV env o results)
  else
    some
      { err := some ("unsupported output format: " ++ o.output), out := [], results := results }

/-- The renderers' environment with the Go runtime's `sort.Slice` and writers that
never fail. -/
def goRenderEnv : RenderEnv :=
  { sortSlice := fun less x => GoSort.Slice less x
    jsonEncode := fun _ => none
    yamlMarshal := fun _ => .ok ""
    csvWrite := fun _ => none }

/-- A cluster record with the given ID and name, as in the repository tests. -/
def namedCluster (id name : String) : clusterInfo :=
  { ClusterID := id, ClusterName := name, Namespace := "ocm-production-" ++ id,
    AutoscalingEnabled := true, HasOverrideAnnotation := false, CurrentSize := "medium",
    RecommendedSize := "medium" }

/-- Thirteen clusters: `c01` is named `a`, the twelve others are all named `b`. -/
def thirteenClusters : List clusterInfo :=
  [namedCluster "c00" "b", namedCluster "c01" "a", namedCluster "c02" "b",
    namedCluster "c03" "b", namedCluster "c04" "b", namedCluster "c05" "b",
    namedCluster "c06" "b", namedCluster "c07" "b", namedCluster "c08" "b",
    namedCluster "c09" "b", namedCluster "c10" "b", namedCluster "c11" "b",
    namedCluster "c12" "b"]

/-- The report holding `thirteenClusters`. -/
def thirteenReport : auditResults :=
  { Timestamp := 0, ManagementCluster := "test-mc", TotalClusters := 13,
    Clusters := thirteenClusters }

/-- A report of two clusters given in descending order of name. -/
def descendingReport : auditResults :=
  { Timestamp := 0, ManagementCluster := "test-mc", TotalClusters := 2,
    Clusters := [namedCluster "c00" "zeta", namedCluster "c01" "alpha"] }

/-- The rows given to the table printer, in order. -/
def tableRows (out : List Output) : List (List String) :=
  out.filterMap (fun ev => match ev with
    | .addRow row => some row
    | _ => none)

/-- The records given to the CSV writer, in order. -/
def csvRecords (out : List Output) : List (List String) :=
  out.filterMap (fun ev => match ev with
    | .csvWrite record => some record
    | _ => none)

/-- Stability as the spec words it: for every name, the clusters of that name stand
in `sorted` in the same relative order as in `original`. -/
def tiesKeepOrder (original sorted : List clusterInfo) : Prop :=
  ∀ n : String,
    sorted.filter (fun c => decide (c.ClusterName = n)) =
      original.filter (fun c => decide (c.ClusterName = n))

/-- The order in which the Go runtime's `sort.Slice` leaves `thirteenClusters`. -/
def thirteenSorted : List clusterInfo :=
  [namedCluster "c01" "a", namedCluster "c06" "b", namedCluster "c02" "b",
    namedCluster "c03" "b", namedCluster "c04" "b", namedCluster "c05" "b",
    namedCluster "c00" "b", namedCluster "c07" "b", namedCluster "c08" "b",
    namedCluster "c09" "b", namedCluster "c10" "b", namedCluster "c11" "b",
    namedCluster "c12" "b"]

/-- Options asking for the table with its header and no filter. -/
def textOptions : options :=
  { mgmtClusterID := "test-mc", output := "text", showOnly := "", noHeaders := false }

/-- Twelve clusters: `d01` is named `a`, the eleven others are all named `b`. -/
def twelveClusters : List clusterInfo :=
  [namedCluster "d00" "b", namedCluster "d01" "a", namedCluster "d02" "b",
    namedCluster "d03" "b", namedCluster "d04" "b", namedCluster "d05" "b",
    namedCluster "d06" "b", namedCluster "d07" "b", namedCluster "d08" "b",
    namedCluster "d09" "b", namedCluster "d10" "b", namedCluster "d11" "b"]

/-- The report holding `twelveClusters`. -/
def twelveReport : auditResults :=
  { Timestamp := 0, ManagementCluster := "test-mc", TotalClusters := 12,
    Clusters := twelveClusters }

/-- The characters Kubernetes admits in a label value. -/
def isLabelValueChar (c : Char) : Bool :=
  c.isAlphanum || c == '-' || c == '_' || c == '.'

/-- Kubernetes label value syntax, enforced by the API server on every object: at most
63 characters, each alphanumeric or one of `-`, `_`, `.`, and, unless empty, beginning
and ending with an alphanumeric character. -/
def isValidLabelValue (v : String) : Bool :=
  decide (v.data.length ≤ 63) && v.data.all isLabelValueChar &&
    (match v.data.head?, v.data.getLast? with
      | some first, some last => first.isAlphanum && last.isAlphanum
      | _, _ => true)

/-! ## Lemmas on applyFilter -/

theorem ite_append_singleton {α : Type} (b : Bool) (acc : List α) (c : α) :
    (if b = true then acc ++ [c] else acc) = acc ++ (if b = true then [c] else []) := by
  cases b <;> simp

theorem applyFilterStep_eq (o : options) (acc : List clusterInfo) (c : clusterInfo) :
    applyFilterStep o acc c = acc ++ (if bucketPredicate o.showOnly c then [c] else []) := by
  unfold applyFilterStep bucketPredicate safeToRemoveOverride
  by_cases h1 : o.showOnly = "needs-removal"
  · simp only [h1, if_true]
    exact ite_append_singleton _ _ _
  · by_cases h2 : o.showOnly = "ready-for-migration"
    · simp only [h1, h2, if_true, if_false]
      exact ite_append_singleton _ _ _
    · by_cases h3 : o.showOnly = "safe-to-remove-override"
      · simp only [h1, h2, h3, if_true, if_false]
        exact ite_append_singleton _ _ _
      · simp [h1, h2, h3]

theorem foldl_applyFilterStep (o : options) (cs acc : List clusterInfo) :
    cs.foldl (applyFilterStep o) acc = acc ++ cs.filter (bucketPredicate o.showOnly) := by
  induction cs generalizing acc with
  | nil => simp
  | cons c cs ih =>
    rw [List.foldl_cons, ih, applyFilterStep_eq]
    by_cases h : bucketPredicate o.showOnly c = true
    · simp [h, List.filter_cons]
    · simp [h, List.filter_cons]

theorem applyFilter_Clusters (o : options) (r : auditResults) :
    (applyFilter o r).Clusters = r.Clusters.filter (bucketPredicate o.showOnly) := by
  simp [applyFilter, foldl_applyFilterStep]

/-! ## Filter Engine: bucket membership -/

/-- C1: for every report and each of the three buckets, `applyFilter` returns exactly
the records of `r.Clusters` that satisfy the bucket's predicate, unchanged and in
their original order: `needs-removal` keeps those with `HasOverrideAnnotation`,
`ready-for-migration` those with `AutoscalingEnabled == false`, and
`safe-to-remove-override` those satisfying the five-part conjunction. -/
theorem applyFilter_clusters_eq_filter (o : options) (r : auditResults) :
    (applyFilter { o with showOnly := "needs-removal" } r).Clusters =
        r.Clusters.filter (fun c => c.HasOverrideAnnotation == true) ∧
    (applyFilter { o with showOnly := "ready-for-migration" } r).Clusters =
        r.Clusters.filter (fun c => c.AutoscalingEnabled == false) ∧
    (applyFilter { o with showOnly := "safe-to-remove-override" } r).Clusters =
        r.Clusters.filter (fun c =>
          c.AutoscalingEnabled && c.HasOverrideAnnotation && c.RecommendedSize != "" &&
            c.RecommendedSize != "N/A" && c.CurrentSize == c.RecommendedSize) := by
  refine ⟨?_, ?_, ?_⟩
  · rw [applyFilter_Clusters]
    congr 1
    funext c
    simp [bucketPredicate]
  · rw [applyFilter_Clusters]
    congr 1
    funext c
    simp [bucketPredicate]
  · rw [applyFilter_Clusters]
    congr 1

/-- C2: each of the five conjuncts of the `safe-to-remove-override` predicate is
necessary. A record satisfying all five is retained on a one-record report; a record
violating any one conjunct is never in the filtered result of any report; and for
each conjunct there is a record violating that conjunct alone. -/
theorem safeToRemoveOverride_each_conjunct_necessary (o : options) :
    (∀ (ts : Int) (mc : String) (tc : Int) (c : clusterInfo),
      c.AutoscalingEnabled = true → c.HasOverrideAnnotation = true →
      c.RecommendedSize ≠ "" → c.RecommendedSize ≠ "N/A" →
      c.CurrentSize = c.RecommendedSize →
      (applyFilter { o with showOnly := "safe-to-remove-override" }
        { Timestamp := ts, ManagementCluster := mc, TotalClusters := tc,
          Clusters := [c] }).Clusters = [c]) ∧
    (∀ (r : auditResults) (c : clusterInfo),
      (c.AutoscalingEnabled = false ∨ c.HasOverrideAnnotation = false ∨
        c.RecommendedSize = "" ∨ c.RecommendedSize = "N/A" ∨
        c.CurrentSize ≠ c.RecommendedSize) →
      c ∉ (applyFilter { o with showOnly := "safe-to-remove-override" } r).Clusters) ∧
    (∃ c : clusterInfo, c.AutoscalingEnabled = false ∧ c.HasOverrideAnnotation = true ∧
      c.RecommendedSize ≠ "" ∧ c.RecommendedSize ≠ "N/A" ∧
      c.CurrentSize = c.RecommendedSize) ∧
    (∃ c : clusterInfo, c.AutoscalingEnabled = true ∧ c.HasOverrideAnnotation = false ∧
      c.RecommendedSize ≠ "" ∧ c.RecommendedSize ≠ "N/A" ∧
      c.CurrentSize = c.RecommendedSize) ∧
    (∃ c : clusterInfo, c.AutoscalingEnabled = true ∧ c.HasOverrideAnnotation = true ∧
      c.RecommendedSize = "" ∧ c.RecommendedSize ≠ "N/A" ∧
      c.CurrentSize = c.RecommendedSize) ∧
    (∃ c : clusterInfo, c.AutoscalingEnabled = true ∧ c.HasOverrideAnnotation = true ∧
      c.RecommendedSize ≠ "" ∧ c.RecommendedSize = "N/A" ∧
      c.CurrentSize = c.RecommendedSize) ∧
    (∃ c : clusterInfo, c.AutoscalingEnabled = true ∧ c.HasOverrideAnnotation = true ∧
      c.RecommendedSize ≠ "" ∧ c.RecommendedSize ≠ "N/A" ∧
      c.CurrentSize ≠ c.RecommendedSize) := by
  refine ⟨?_, ?_, ?_, ?_, ?_, ?_, ?_⟩
  · intro ts mc tc c h1 h2 h3 h4 h5
    rw [applyFilter_Clusters]
    simp [bucketPredicate, safeToRemoveOverride, h1, h2, h3, h4, h5]
  · intro r c hv hmem
    rw [applyFilter_Clusters] at hmem
    have hp := (List.mem_filter.mp hmem).2
    simp only [bucketPredicate, safeToRemoveOverride, String.reduceEq, if_true, if_false,
      Bool.and_eq_true, bne_iff_ne, ne_eq, beq_iff_eq] at hp
    obtain ⟨⟨⟨⟨h1, h2⟩, h3⟩, h4⟩, h5⟩ := hp
    rcases hv with hv | hv | hv | hv | hv
    · simp [h1] at hv
    · simp [h2] at hv
    · exact h3 hv
    · exact h4 hv
    · exact hv h5
  · exact ⟨⟨"id", "name", "ns", false, true, "medium", "medium"⟩, by decide⟩
  · exact ⟨⟨"id", "name", "ns", true, false, "medium", "medium"⟩, by decide⟩
  · exact ⟨⟨"id", "name", "ns", true, true, "", ""⟩, by decide⟩
  · exact ⟨⟨"id", "name", "ns", true, true, "N/A", "N/A"⟩, by decide⟩
  · exact ⟨⟨"id", "name", "ns", true, true, "large", "medium"⟩, by decide⟩

/-- Witness for C2 at the record of the repository test "safe - autoscaling enabled,
has override, sizes match". -/
theorem safeToRemoveOverride_each_conjunct_necessary_witness :
    (applyFilter
      { mgmtClusterID := "", output := "", showOnly := "safe-to-remove-override",
        noHeaders := false }
      { Timestamp := 0, ManagementCluster := "test-mc", TotalClusters := 1,
        Clusters :=
          [{ ClusterID := "test-cluster", ClusterName := "test",
             Namespace := "ocm-production-test", AutoscalingEnabled := true,
             HasOverrideAnnotation := true, CurrentSize := "medium",
             RecommendedSize := "medium" }] }).Clusters =
      [{ ClusterID := "test-cluster", ClusterName := "test",
         Namespace := "ocm-production-test", AutoscalingEnabled := true,
         HasOverrideAnnotation := true, CurrentSize := "medium",
         RecommendedSize := "medium" }] :=
  (safeToRemoveOverride_each_conjunct_necessary
    { mgmtClusterID := "", output := "", showOnly := "", noHeaders := false }).1
    0 "test-mc" 1 _ rfl rfl (by decide) (by decide) rfl

/-- C3: for every input report (whatever its `TotalClusters`) and every bucket name,
the report returned by `applyFilter` has `TotalClusters` equal to the number of its
clusters, which is the number of input records in the bucket; the input's own
`TotalClusters` plays no part. -/
theorem applyFilter_totalClusters_eq_length (o : options) (r : auditResults) :
    (applyFilter o r).TotalClusters = ((applyFilter o r).Clusters.length : Int) ∧
    (applyFilter o r).TotalClusters =
      ((r.Clusters.filter (bucketPredicate o.showOnly)).length : Int) ∧
    (∀ tc : Int, applyFilter o { r with TotalClusters := tc } = applyFilter o r) := by
  refine ⟨?_, ?_, ?_⟩
  · simp [applyFilter]
  · have hc := applyFilter_Clusters o r
    have ht : (applyFilter o r).TotalClusters = ((applyFilter o r).Clusters.length : Int) := by
      simp [applyFilter]
    rw [ht, hc]
  · intro tc
    rfl

/-! ## Classifier -/

theorem auditNamespace_of_resolved (k : Client) (nsName : String) (hc : HostedCluster)
    (h : getHostedClusterInNamespace k nsName = .ok hc) :
    auditNamespace k nsName = .ok
      { ClusterID := hc.Labels.index labelClusterID
        ClusterName := hc.Name
        Namespace := nsName
        AutoscalingEnabled :=
          (hc.Annotations.commaOk annotationResourceBasedAutoscaling).2 &&
            (hc.Annotations.commaOk annotationResourceBasedAutoscaling).1 == "true"
        HasOverrideAnnotation := (hc.Annotations.commaOk annotationClusterSizeOverride).2
        CurrentSize :=
          if hc.Labels.index labelHostedClusterSize = "" then "N/A"
          else hc.Labels.index labelHostedClusterSize
        RecommendedSize :=
          if hc.Annotations.index annotationRecommendedClusterSize = "" then "N/A"
          else hc.Annotations.index annotationRecommendedClusterSize } := by
  simp [auditNamespace, h]

theorem auditNamespace_of_unresolved (k : Client) (nsName : String) (e : String)
    (h : getHostedClusterInNamespace k nsName = .error e) :
    auditNamespace k nsName = .error e := by
  simp [auditNamespace, h]

theorem sizeOrNA_eq (m : StringMap) (key : String) :
    (if m.index key = "" then "N/A" else m.index key) =
      (match m.lookup key with
        | some v => if v = "" then "N/A" else v
        | none => "N/A") := by
  unfold StringMap.index
  cases m.lookup key <;> simp

theorem sizeOrNA_ne_empty (m : StringMap) (key : String) :
    (if m.index key = "" then "N/A" else m.index key) ≠ "" := by
  split
  · decide
  · assumption

/-- C4: after successful resolution, `auditNamespace` sets `CurrentSize` to the value
of the hosted-cluster-size label when present and non-empty and to `"N/A"` otherwise,
and `RecommendedSize` to the value of the recommended-cluster-size annotation when
present and non-empty and to `"N/A"` otherwise; neither field is ever empty. -/
theorem auditNamespace_sizes (k : Client) (nsName : String) (hc : HostedCluster)
    (h : getHostedClusterInNamespace k nsName = .ok hc) :
    ∃ info : clusterInfo, auditNamespace k nsName = .ok info ∧
      info.CurrentSize =
        (match hc.Labels.lookup labelHostedClusterSize with
          | some v => if v = "" then "N/A" else v
          | none => "N/A") ∧
      info.RecommendedSize =
        (match hc.Annotations.lookup annotationRecommendedClusterSize with
          | some v => if v = "" then "N/A" else v
          | none => "N/A") ∧
      info.CurrentSize ≠ "" ∧ info.RecommendedSize ≠ "" := by
  refine ⟨_, auditNamespace_of_resolved k nsName hc h, ?_, ?_, ?_, ?_⟩
  · exact sizeOrNA_eq _ _
  · exact sizeOrNA_eq _ _
  · exact sizeOrNA_ne_empty _ _
  · exact sizeOrNA_ne_empty _ _

/-- Witness for C4 on the scenario client. -/
theorem auditNamespace_sizes_witness :
    getHostedClusterInNamespace scenarioClient "ocm-production-001" =
        .ok scenarioHostedCluster ∧
      ∃ info : clusterInfo, auditNamespace scenarioClient "ocm-production-001" = .ok info ∧
        info.CurrentSize =
          (match scenarioHostedCluster.Labels.lookup labelHostedClusterSize with
            | some v => if v = "" then "N/A" else v
            | none => "N/A") ∧
        info.RecommendedSize =
          (match scenarioHostedCluster.Annotations.lookup annotationRecommendedClusterSize with
            | some v => if v = "" then "N/A" else v
            | none => "N/A") ∧
        info.CurrentSize ≠ "" ∧ info.RecommendedSize ≠ "" :=
  ⟨by decide, auditNamespace_sizes scenarioClient "ocm-production-001" scenarioHostedCluster
    (by decide)⟩

/-- C5: after successful resolution, the record's `AutoscalingEnabled` is true exactly
when the resource-based-cp-auto-scaling annotation is present with value `"true"`;
any other value and absence give false. -/
theorem auditNamespace_autoscalingEnabled (k : Client) (nsName : String) (hc : HostedCluster)
    (h : getHostedClusterInNamespace k nsName = .ok hc) :
    ∃ info : clusterInfo, auditNamespace k nsName = .ok info ∧
      (info.AutoscalingEnabled = true ↔
        hc.Annotations.lookup annotationResourceBasedAutoscaling = some "true") ∧
      (∀ v, v ≠ "true" →
        hc.Annotations.lookup annotationResourceBasedAutoscaling = some v →
        info.AutoscalingEnabled = false) ∧
      (hc.Annotations.lookup annotationResourceBasedAutoscaling = none →
        info.AutoscalingEnabled = false) := by
  refine ⟨_, auditNamespace_of_resolved k nsName hc h, ?_, ?_, ?_⟩
  · unfold StringMap.commaOk
    cases hc.Annotations.lookup annotationResourceBasedAutoscaling <;> simp
  · intro v hv hl
    simp [StringMap.commaOk, hl, hv]
  · intro hl
    simp [StringMap.commaOk, hl]

/-- Witness for C5 on the scenario client. -/
theorem auditNamespace_autoscalingEnabled_witness :
    getHostedClusterInNamespace scenarioClient "ocm-production-001" =
        .ok scenarioHostedCluster ∧
      ∃ info : clusterInfo, auditNamespace scenarioClient "ocm-production-001" = .ok info ∧
        (info.AutoscalingEnabled = true ↔
          scenarioHostedCluster.Annotations.lookup annotationResourceBasedAutoscaling =
            some "true") ∧
        (∀ v, v ≠ "true" →
          scenarioHostedCluster.Annotations.lookup annotationResourceBasedAutoscaling =
            some v →
          info.AutoscalingEnabled = false) ∧
        (scenarioHostedCluster.Annotations.lookup annotationResourceBasedAutoscaling = none →
          info.AutoscalingEnabled = false) :=
  ⟨by decide, auditNamespace_autoscalingEnabled scenarioClient "ocm-production-001"
    scenarioHostedCluster (by decide)⟩

/-- C6: after successful resolution, the record's `HasOverrideAnnotation` is true
exactly when the cluster-size-override key is present in the annotations, whatever
its value (the empty string included). -/
theorem auditNamespace_hasOverrideAnnotation (k : Client) (nsName : String)
    (hc : HostedCluster) (h : getHostedClusterInNamespace k nsName = .ok hc) :
    ∃ info : clusterInfo, auditNamespace k nsName = .ok info ∧
      (info.HasOverrideAnnotation = true ↔
        ∃ v, hc.Annotations.lookup annotationClusterSizeOverride = some v) ∧
      (hc.Annotations.lookup annotationClusterSizeOverride = some "" →
        info.HasOverrideAnnotation = true) := by
  refine ⟨_, auditNamespace_of_resolved k nsName hc h, ?_, ?_⟩
  · unfold StringMap.commaOk
    cases hc.Annotations.lookup annotationClusterSizeOverride <;> simp
  · intro hl
    simp [StringMap.commaOk, hl]

/-- Witness for C6 on the scenario client, whose override annotation is empty. -/
theorem auditNamespace_hasOverrideAnnotation_witness :
    getHostedClusterInNamespace scenarioClient "ocm-production-001" =
        .ok scenarioHostedCluster ∧
      ∃ info : clusterInfo, auditNamespace scenarioClient "ocm-production-001" = .ok info ∧
        (info.HasOverrideAnnotation = true ↔
          ∃ v, scenarioHostedCluster.Annotations.lookup annotationClusterSizeOverride =
            some v) ∧
        (scenarioHostedCluster.Annotations.lookup annotationClusterSizeOverride = some "" →
          info.HasOverrideAnnotation = true) :=
  ⟨by decide, auditNamespace_hasOverrideAnnotation scenarioClient "ocm-production-001"
    scenarioHostedCluster (by decide)⟩

/-! ## Tenant Resolver -/

/-- C7: when the listing of a namespace succeeds with items `L`,
`getHostedClusterInNamespace` returns the error "no HostedCluster found" when `L` is
empty, the error "found N HostedClusters, expected 1" with `N = len(L)` in decimal
when `L` has more than one item, and returns an item without error exactly when `L`
consists of that single item; it never returns the first of several. -/
theorem getHostedClusterInNamespace_exactly_one (k : Client) (nsName : String)
    (L : List HostedCluster) (h : k.listHostedClusters nsName = .ok L) :
    (L.length = 0 →
      getHostedClusterInNamespace k nsName = .error "no HostedCluster found") ∧
    (L.length > 1 →
      getHostedClusterInNamespace k nsName =
        .error ("found " ++ toString L.length ++ " HostedClusters, expected 1")) ∧
    (∀ hc, getHostedClusterInNamespace k nsName = .ok hc ↔ L = [hc]) ∧
    ((∃ hc, getHostedClusterInNamespace k nsName = .ok hc) ↔ L.length = 1) := by
  have key : ∀ hc, getHostedClusterInNamespace k nsName = .ok hc ↔ L = [hc] := by
    intro hc
    match L, h with
    | [], h => simp [getHostedClusterInNamespace, h]
    | [x], h => simp [getHostedClusterInNamespace, h]
    | x :: y :: rest, h => simp [getHostedClusterInNamespace, h]
  refine ⟨?_, ?_, key, ?_⟩
  · intro h0
    simp [getHostedClusterInNamespace, h, h0]
  · intro h1
    have h0 : L.length ≠ 0 := by omega
    simp [getHostedClusterInNamespace, h, h0, h1]
  · constructor
    · rintro ⟨hc, hok⟩
      rw [(key hc).mp hok]
      rfl
    · intro h1
      obtain ⟨hc, rfl⟩ := List.length_eq_one.mp h1
      exact ⟨hc, (key hc).mpr rfl⟩

/-- Witness for C7: a namespace listing two hosted clusters. -/
theorem getHostedClusterInNamespace_exactly_one_witness :
    getHostedClusterInNamespace
        { listNamespaces := fun _ => .ok []
          listHostedClusters := fun _ =>
            .ok [scenarioHostedCluster, { scenarioHostedCluster with Name := "hc-002" }] }
        "ocm-staging-7" =
      .error "found 2 HostedClusters, expected 1" :=
  (getHostedClusterInNamespace_exactly_one
    { listNamespaces := fun _ => .ok []
      listHostedClusters := fun _ =>
        .ok [scenarioHostedCluster, { scenarioHostedCluster with Name := "hc-002" }] }
    "ocm-staging-7"
    [scenarioHostedCluster, { scenarioHostedCluster with Name := "hc-002" }] rfl).2.1
    (by decide)

/-! ## Audit Orchestrator: collecting the records -/

theorem foldl_auditLoopStep_Clusters (k : Client) (nss : List Namespace)
    (st : AuditLoopState) :
    (nss.foldl (auditLoopStep k) st).Clusters =
      st.Clusters ++ nss.filterMap (auditedRecord k) := by
  induction nss generalizing st with
  | nil => simp
  | cons ns nss ih =>
    rw [List.foldl_cons, ih]
    unfold auditLoopStep auditedRecord
    cases hres : auditNamespace k ns.Name with
    | error e => simp [List.filterMap_cons, hres]
    | ok info => simp [List.filterMap_cons, hres]

theorem buildResults_Clusters (now : Int) (name : String) (k : Client)
    (nss : List Namespace) :
    (buildResults now name k nss).1.Clusters = nss.filterMap (auditedRecord k) := by
  simp [buildResults, foldl_auditLoopStep_Clusters]

theorem buildResults_fst (now : Int) (name : String) (k : Client) (nss : List Namespace) :
    (buildResults now name k nss).1 =
      { Timestamp := now
        ManagementCluster := name
        TotalClusters := ((nss.filterMap (auditedRecord k)).length : Int)
        Clusters := nss.filterMap (auditedRecord k) } := by
  simp [buildResults, foldl_auditLoopStep_Clusters]

/-- C8: the report built by `auditManagementCluster` before filtering holds exactly
the records of the namespaces whose resolution succeeded, in namespace order, with
`TotalClusters` their number. A namespace whose resolution fails yields no record,
leaves the records of the other namespaces as they are, and the audit still ends
without error, handing that report to the renderer when no filter is set. -/
theorem buildResults_exactly_resolved (now : Int) (name : String) (k : Client)
    (nss : List Namespace) :
    (buildResults now name k nss).1.Clusters = nss.filterMap (auditedRecord k) ∧
    (buildResults now name k nss).1.TotalClusters =
      ((nss.filterMap (auditedRecord k)).length : Int) ∧
    (∀ ns : Namespace,
      (∀ hc, getHostedClusterInNamespace k ns.Name = .ok hc →
        ∃ info, auditNamespace k ns.Name = .ok info ∧ auditedRecord k ns = some info) ∧
      (∀ e, getHostedClusterInNamespace k ns.Name = .error e → auditedRecord k ns = none)) ∧
    (∀ (before after : List Namespace) (bad : Namespace) (e : String),
      getHostedClusterInNamespace k bad.Name = .error e →
      (buildResults now name k (before ++ bad :: after)).1 =
        (buildResults now name k (before ++ after)).1) ∧
    (∀ (o : options) (tr : List Event),
      o.showOnly = "" →
      listNamespacesWithRetry k = some { namespaces := nss, err := none, trace := tr } →
      ∃ run, auditManagementCluster o now name k = some run ∧ run.err = none ∧
        run.results = some (buildResults now name k nss).1) := by
  refine ⟨buildResults_Clusters now name k nss, ?_, ?_, ?_, ?_⟩
  · rw [buildResults_fst]
  · intro ns
    constructor
    · intro hc h
      refine ⟨_, auditNamespace_of_resolved k ns.Name hc h, ?_⟩
      simp [auditedRecord, auditNamespace_of_resolved k ns.Name hc h]
    · intro e h
      simp [auditedRecord, auditNamespace_of_unresolved k ns.Name e h]
  · intro before after bad e h
    have hbad : auditedRecord k bad = none := by
      simp [auditedRecord, auditNamespace_of_unresolved k bad.Name e h]
    rw [buildResults_fst, buildResults_fst]
    simp [List.filterMap_append, List.filterMap_cons, hbad]
  · intro o tr ho hretry
    refine ⟨{ err := none, results := some (buildResults now name k nss).1,
              trace := tr ++ (buildResults now name k nss).2 }, ?_, rfl, rfl⟩
    simp [auditManagementCluster, hretry, ho]

/-- Witness for C8: the empty namespace `ocm-staging-2` is dropped wherever it
stands. -/
theorem buildResults_exactly_resolved_witness :
    getHostedClusterInNamespace flakyClient "ocm-staging-2" =
        .error "no HostedCluster found" ∧
      (buildResults 0 "mc" flakyClient
          ([{ Name := "ocm-production-001" }] ++
            { Name := "ocm-staging-2" } :: [{ Name := "ocm-production-001" }])).1 =
        (buildResults 0 "mc" flakyClient
          ([{ Name := "ocm-production-001" }] ++ [{ Name := "ocm-production-001" }])).1 :=
  ⟨by decide,
    (buildResults_exactly_resolved 0 "mc" flakyClient []).2.2.2.1
      [{ Name := "ocm-production-001" }] [{ Name := "ocm-production-001" }]
      { Name := "ocm-staging-2" } "no HostedCluster found" (by decide)⟩

/-! ## Namespace Enumerator: the retry loop -/

theorem fatal_message_eq (err : String) :
    "failed to list namespaces after " ++ toString maxRetries ++
      " attempts (cluster may be unreachable): " ++ err = unreachableError err := by
  unfold unreachableError
  exact congrArg (fun s => s ++ err) (by decide)

theorem retry_first_ok (k : Client) (L : List Namespace)
    (h1 : listOcmNamespaces k 1 = .ok L) :
    listNamespacesWithRetry k =
      some { namespaces := L, err := none, trace := [Event.listCall 1] } := by
  simp [listNamespacesWithRetry, retryLoop, maxRetries, h1]

theorem retry_second_ok (k : Client) (e1 : String) (L : List Namespace)
    (h1 : listOcmNamespaces k 1 = .error e1) (h2 : listOcmNamespaces k 2 = .ok L) :
    listNamespacesWithRetry k =
      some { namespaces := L, err := none,
             trace := [Event.listCall 1, Event.sleep retryDelay, Event.listCall 2] } := by
  simp [listNamespacesWithRetry, retryLoop, maxRetries, h1, h2]

theorem retry_third_ok (k : Client) (e1 e2 : String) (L : List Namespace)
    (h1 : listOcmNamespaces k 1 = .error e1) (h2 : listOcmNamespaces k 2 = .error e2)
    (h3 : listOcmNamespaces k 3 = .ok L) :
    listNamespacesWithRetry k =
      some { namespaces := L, err := none,
             trace := [Event.listCall 1, Event.sleep retryDelay, Event.listCall 2,
               Event.sleep retryDelay, Event.listCall 3] } := by
  simp [listNamespacesWithRetry, retryLoop, maxRetries, h1, h2, h3]

theorem retry_all_fail (k : Client) (e1 e2 e3 : String)
    (h1 : listOcmNamespaces k 1 = .error e1) (h2 : listOcmNamespaces k 2 = .error e2)
    (h3 : listOcmNamespaces k 3 = .error e3) :
    listNamespacesWithRetry k =
      some { namespaces := [], err := some (unreachableError e3),
             trace := [Event.listCall 1, Event.sleep retryDelay, Event.listCall 2,
               Event.sleep retryDelay, Event.listCall 3] } := by
  rw [← fatal_message_eq]
  simp [listNamespacesWithRetry, retryLoop, maxRetries, h1, h2, h3]

theorem auditManagementCluster_err (o : options) (now : Int) (name : String) (k : Client)
    (res : RetryResult) (h : listNamespacesWithRetry k = some res) :
    ∃ run, auditManagementCluster o now name k = some run ∧ run.err = res.err := by
  cases herr : res.err with
  | some e =>
    exact ⟨{ err := some e, results := none, trace := res.trace },
      by simp [auditManagementCluster, h, herr], rfl⟩
  | none =>
    exact ⟨{ err := none
             results := some (if o.showOnly ≠ "" then
               applyFilter o (buildResults now name k res.namespaces).1
               else (buildResults now name k res.namespaces).1)
             trace := res.trace ++ (buildResults now name k res.namespaces).2 },
      by simp [auditManagementCluster, h, herr], rfl⟩

/-- C9: the retry loop of `auditManagementCluster` always ends, after at most 3
listing attempts. It stops at the first successful attempt and takes that attempt's
namespaces; it returns the fatal "cluster may be unreachable" error exactly when
attempts 1, 2 and 3 all fail; and it sleeps for 2 seconds once after each failed
attempt except the third. In particular fail, fail, succeed gives no error, two
delays and the third attempt's namespaces. -/
theorem retry_loop_three_attempts (o : options) (now : Int) (name : String) (k : Client) :
    ∃ res : RetryResult, listNamespacesWithRetry k = some res ∧
      attemptsMade res.trace ≤ 3 ∧
      retryDelay = 2 * 1000000000 ∧
      (∀ L, listOcmNamespaces k 1 = .ok L →
        res = { namespaces := L, err := none, trace := [Event.listCall 1] }) ∧
      (∀ e1 L, listOcmNamespaces k 1 = .error e1 → listOcmNamespaces k 2 = .ok L →
        res = { namespaces := L, err := none,
                trace := [Event.listCall 1, Event.sleep retryDelay, Event.listCall 2] }) ∧
      (∀ e1 e2 L, listOcmNamespaces k 1 = .error e1 → listOcmNamespaces k 2 = .error e2 →
        listOcmNamespaces k 3 = .ok L →
        res = { namespaces := L, err := none,
                trace := [Event.listCall 1, Event.sleep retryDelay, Event.listCall 2,
                  Event.sleep retryDelay, Event.listCall 3] }) ∧
      (∀ e1 e2 e3, listOcmNamespaces k 1 = .error e1 → listOcmNamespaces k 2 = .error e2 →
        listOcmNamespaces k 3 = .error e3 →
        res = { namespaces := [],
                err := some ("failed to list namespaces after 3 attempts " ++
                  "(cluster may be unreachable): " ++ e3),
                trace := [Event.listCall 1, Event.sleep retryDelay, Event.listCall 2,
                  Event.sleep retryDelay, Event.listCall 3] }) ∧
      ((∃ msg, res.err = some msg) ↔
        ((∃ e1, listOcmNamespaces k 1 = .error e1) ∧
          (∃ e2, listOcmNamespaces k 2 = .error e2) ∧
          (∃ e3, listOcmNamespaces k 3 = .error e3))) ∧
      (∃ run, auditManagementCluster o now name k = some run ∧ run.err = res.err) := by
  have hmsg : ∀ e3 : String,
      "failed to list namespaces after 3 attempts " ++ "(cluster may be unreachable): " ++ e3
        = unreachableError e3 := by
    intro e3
    unfold unreachableError
    exact congrArg (fun s => s ++ e3) (by decide)
  cases h1 : listOcmNamespaces k 1 with
  | ok L1 =>
    have hres := retry_first_ok k L1 h1
    refine ⟨_, hres, by simp [attemptsMade], by decide, ?_, ?_, ?_, ?_, ?_,
      auditManagementCluster_err o now name k _ hres⟩
    · intro L hL
      cases hL
      rfl
    · intro e1 L h
      cases h
    · intro e1 e2 L h
      cases h
    · intro e1 e2 e3 h
      cases h
    · simp
  | error e1 =>
    cases h2 : listOcmNamespaces k 2 with
    | ok L2 =>
      have hres := retry_second_ok k e1 L2 h1 h2
      refine ⟨_, hres, by simp [attemptsMade], by decide, ?_, ?_, ?_, ?_, ?_,
        auditManagementCluster_err o now name k _ hres⟩
      · intro L h
        cases h
      · intro e1 L _ hL
        cases hL
        rfl
      · intro e1 e2 L _ h
        cases h
      · intro e1 e2 e3 _ h
        cases h
      · simp
    | error e2 =>
      cases h3 : listOcmNamespaces k 3 with
      | ok L3 =>
        have hres := retry_third_ok k e1 e2 L3 h1 h2 h3
        refine ⟨_, hres, by simp [attemptsMade], by decide, ?_, ?_, ?_, ?_, ?_,
          auditManagementCluster_err o now name k _ hres⟩
        · intro L h
          cases h
        · intro e1 L _ h
          cases h
        · intro e1 e2 L _ _ hL
          cases hL
          rfl
        · intro e1 e2 e3 _ _ h
          cases h
        · simp
      | error e3 =>
        have hres := retry_all_fail k e1 e2 e3 h1 h2 h3
        refine ⟨_, hres, by simp [attemptsMade], by decide, ?_, ?_, ?_, ?_, ?_,
          auditManagementCluster_err o now name k _ hres⟩
        · intro L h
          cases h
        · intro e1 L _ h
          cases h
        · intro e1 e2 L _ _ h
          cases h
        · intro a b c _ _ hc
          cases hc
          rw [hmsg]
        · simp

/-- Witness for C9: on `flakyClient` the listing fails twice and then succeeds; the
loop ends without error after two delays with the third attempt's namespaces. -/
theorem retry_loop_three_attempts_witness :
    listNamespacesWithRetry flakyClient =
      some { namespaces := [{ Name := "ocm-staging-2" }, { Name := "ocm-production-001" }]
             err := none
             trace := [Event.listCall 1, Event.sleep 2000000000, Event.listCall 2,
               Event.sleep 2000000000, Event.listCall 3] } := by
  obtain ⟨res, hres, _, _, _, _, h3, _⟩ :=
    retry_loop_three_attempts
      { mgmtClusterID := "mc", output := "text", showOnly := "", noHeaders := false }
      0 "mc" flakyClient
  rw [hres, h3 "connection refused" "connection refused"
    [{ Name := "ocm-staging-2" }, { Name := "ocm-production-001" }]
    (by decide) (by decide) (by decide)]
  rfl

/-! ## Namespace Enumerator: the name pattern -/

namespace Regex

theorem matchesAll_empty (x : List Char) : matchesAll empty x = false := by
  induction x with
  | nil => rfl
  | cons c cs ih => simpa [matchesAll, deriv] using ih

theorem matchesAll_eps (x : List Char) : matchesAll eps x = true ↔ x = [] := by
  cases x with
  | nil => simp [matchesAll, nullable]
  | cons c cs => simp [matchesAll, deriv, matchesAll_empty]

theorem matchesAll_lit (a : Char) (x : List Char) : matchesAll (lit a) x = true ↔ x = [a] := by
  cases x with
  | nil => simp [matchesAll, nullable]
  | cons c cs =>
    by_cases h : a = c
    · simp [matchesAll, deriv, h, matchesAll_eps]
    · have h2 : ¬ c = a := fun e => h e.symm
      simp [matchesAll, deriv, h, h2, matchesAll_empty]

theorem matchesAll_range (lo hi : Char) (x : List Char) :
    matchesAll (range lo hi) x = true ↔ ∃ c, x = [c] ∧ lo ≤ c ∧ c ≤ hi := by
  cases x with
  | nil => simp [matchesAll, nullable]
  | cons c cs =>
    by_cases h : lo ≤ c ∧ c ≤ hi
    · simp only [matchesAll, deriv, h, and_self, if_true, matchesAll_eps]
      constructor
      · rintro rfl
        exact ⟨c, rfl, h⟩
      · rintro ⟨d, hd, _⟩
        simp only [List.cons.injEq] at hd
        exact hd.2
    · simp only [matchesAll, deriv, h, if_false, matchesAll_empty]
      constructor
      · intro hf
        cases hf
      · rintro ⟨d, hd, hlo, hhi⟩
        cases hd
        exact absurd ⟨hlo, hhi⟩ h

theorem matchesAll_alt (r s : Regex) (x : List Char) :
    matchesAll (alt r s) x = (matchesAll r x || matchesAll s x) := by
  induction x generalizing r s with
  | nil => simp [matchesAll, nullable]
  | cons c cs ih => simp [matchesAll, deriv, ih]

theorem matchesAll_cat (r s : Regex) (x : List Char) :
    matchesAll (cat r s) x = true ↔
      ∃ t u, x = t ++ u ∧ matchesAll r t = true ∧ matchesAll s u = true := by
  induction x generalizing r with
  | nil =>
    simp only [matchesAll, nullable, Bool.and_eq_true]
    constructor
    · rintro ⟨hr, hs⟩
      exact ⟨[], [], rfl, hr, hs⟩
    · rintro ⟨t, u, htu, hr, hs⟩
      have ht : t = [] := (List.append_eq_nil.mp htu.symm).1
      have hu : u = [] := (List.append_eq_nil.mp htu.symm).2
      subst ht hu
      exact ⟨hr, hs⟩
  | cons c cs ih =>
    have step : (matchesAll (cat (deriv r c) s) cs = true ∨
          (nullable r = true ∧ matchesAll s (c :: cs) = true)) ↔
        ∃ t u, c :: cs = t ++ u ∧ matchesAll r t = true ∧ matchesAll s u = true := by
      rw [ih]
      constructor
      · rintro (⟨t, u, htu, hr, hs⟩ | ⟨hr, hs⟩)
        · exact ⟨c :: t, u, by simp [htu], hr, hs⟩
        · exact ⟨[], c :: cs, rfl, hr, hs⟩
      · rintro ⟨t, u, htu, hr, hs⟩
        cases t with
        | nil =>
          right
          simp only [List.nil_append] at htu
          subst htu
          exact ⟨hr, hs⟩
        | cons d t =>
          left
          simp only [List.cons_append, List.cons.injEq] at htu
          obtain ⟨hd, hcs⟩ := htu
          subst hd
          exact ⟨t, u, hcs, hr, hs⟩
    rw [← step]
    by_cases hn : nullable r = true
    · simp [matchesAll, deriv, hn, matchesAll_alt]
    · simp [matchesAll, deriv, hn]

theorem matchesAll_str (l x : List Char) : matchesAll (str l) x = true ↔ x = l := by
  induction l generalizing x with
  | nil => simp [str, matchesAll_eps]
  | cons a l ih =>
    simp only [str, matchesAll_cat, matchesAll_lit, ih]
    constructor
    · rintro ⟨t, u, rfl, rfl, rfl⟩
      rfl
    · rintro rfl
      exact ⟨[a], l, rfl, rfl, rfl⟩

/-- Star of an expression that accepts exactly the one-character texts whose
character satisfies `p`. -/
theorem matchesAll_star_of_class (r : Regex) (p : Char → Prop)
    (hr : ∀ x, matchesAll r x = true ↔ ∃ c, x = [c] ∧ p c) (x : List Char) :
    matchesAll (star r) x = true ↔ ∀ c ∈ x, p c := by
  induction x with
  | nil => simp [matchesAll, nullable]
  | cons c cs ih =>
    have hd : ∀ t, matchesAll (deriv r c) t = true ↔ (t = [] ∧ p c) := by
      intro t
      have := hr (c :: t)
      simp only [matchesAll] at this
      rw [this]
      constructor
      · rintro ⟨d, hd, hp⟩
        simp only [List.cons.injEq] at hd
        obtain ⟨rfl, rfl⟩ := hd
        exact ⟨rfl, hp⟩
      · rintro ⟨rfl, hp⟩
        exact ⟨c, rfl, hp⟩
    rw [show matchesAll (star r) (c :: cs) = matchesAll (cat (deriv r c) (star r)) cs from rfl,
      matchesAll_cat]
    constructor
    · rintro ⟨t, u, htu, ht, hu⟩
      obtain ⟨rfl, hp⟩ := (hd t).mp ht
      simp only [List.nil_append] at htu
      subst htu
      intro d hdm
      rcases List.mem_cons.mp hdm with rfl | hmem
      · exact hp
      · exact (ih.mp hu) d hmem
    · intro hall
      exact ⟨[], cs, rfl, (hd []).mpr ⟨rfl, hall c (by simp)⟩,
        ih.mpr (fun d hmem => hall d (by simp [hmem]))⟩

theorem matchesAll_plus_of_class (r : Regex) (p : Char → Prop)
    (hr : ∀ x, matchesAll r x = true ↔ ∃ c, x = [c] ∧ p c) (x : List Char) :
    matchesAll (plus r) x = true ↔ x ≠ [] ∧ ∀ c ∈ x, p c := by
  simp only [plus, matchesAll_cat, hr, matchesAll_star_of_class r p hr]
  constructor
  · rintro ⟨t, u, rfl, ⟨c, rfl, hp⟩, hu⟩
    refine ⟨by simp, ?_⟩
    intro d hdm
    simp only [List.singleton_append, List.mem_cons] at hdm
    rcases hdm with rfl | hdm
    · exact hp
    · exact hu d hdm
  · rintro ⟨hne, hall⟩
    cases x with
    | nil => exact absurd rfl hne
    | cons c cs =>
      exact ⟨[c], cs, rfl, ⟨c, rfl, hall c (by simp)⟩, fun d hd => hall d (by simp [hd])⟩

end Regex

theorem matchesAll_alnumClass (x : List Char) :
    alnumClass.matchesAll x = true ↔ ∃ c, x = [c] ∧ isAsciiLetterOrDigit c := by
  simp only [alnumClass, Regex.matchesAll_alt, Bool.or_eq_true, Regex.matchesAll_range,
    isAsciiLetterOrDigit]
  constructor
  · rintro (⟨c, rfl, h⟩ | ⟨c, rfl, h⟩ | ⟨c, rfl, h⟩)
    · exact ⟨c, rfl, Or.inl h⟩
    · exact ⟨c, rfl, Or.inr (Or.inl h)⟩
    · exact ⟨c, rfl, Or.inr (Or.inr h)⟩
  · rintro ⟨c, rfl, h | h | h⟩
    · exact Or.inl ⟨c, rfl, h⟩
    · exact Or.inr (Or.inl ⟨c, rfl, h⟩)
    · exact Or.inr (Or.inr ⟨c, rfl, h⟩)

theorem ocmNamespacePatternMatchString_iff (name : String) :
    ocmNamespacePatternMatchString name = true ↔
      ∃ suffix : List Char, suffix ≠ [] ∧ (∀ c ∈ suffix, isAsciiLetterOrDigit c) ∧
        (name.data = "ocm-production-".data ++ suffix ∨
          name.data = "ocm-staging-".data ++ suffix) := by
  unfold ocmNamespacePatternMatchString ocmNamespacePatternBody
  simp only [Regex.matchesAll_cat, Regex.matchesAll_alt, Bool.or_eq_true, Regex.matchesAll_str,
    Regex.matchesAll_lit,
    Regex.matchesAll_plus_of_class alnumClass isAsciiLetterOrDigit matchesAll_alnumClass]
  constructor
  · rintro ⟨t1, u1, h1, rfl, t2, u2, rfl, (rfl | rfl), t3, u3, rfl, rfl, hne, hall⟩
    · exact ⟨u3, hne, hall, Or.inl (by rw [h1]; rfl)⟩
    · exact ⟨u3, hne, hall, Or.inr (by rw [h1]; rfl)⟩
  · rintro ⟨suffix, hne, hall, (h | h)⟩
    · exact ⟨_, _, by rw [h]; rfl, rfl, _, _, rfl, Or.inl rfl, _, _, rfl, rfl, hne, hall⟩
    · exact ⟨_, _, by rw [h]; rfl, rfl, _, _, rfl, Or.inr rfl, _, _, rfl, rfl, hne, hall⟩


theorem foldl_append_if {α : Type} (p : α → Bool) (l acc : List α) :
    l.foldl (fun filtered x => if p x = true then filtered ++ [x] else filtered) acc =
      acc ++ l.filter p := by
  induction l generalizing acc with
  | nil => simp
  | cons x l ih =>
    rw [List.foldl_cons, ih]
    cases hp : p x <;> simp [List.filter_cons, hp]

/-- C10: when the namespace listing succeeds with items `L`, `listOcmNamespaces`
returns exactly the items of `L`, in their order, whose name matches the pattern; and
a name matches exactly when it is `ocm-production-` or `ocm-staging-` followed by one
or more ASCII letters or digits and nothing else. So `ocm-production-`, `ocm-prod-1`,
`xocm-staging-1` and `ocm-staging-a-b` are excluded. -/
theorem listOcmNamespaces_eq_filter (k : Client) (call : Nat) (L : List Namespace)
    (h : k.listNamespaces call = .ok L) :
    listOcmNamespaces k call =
        .ok (L.filter (fun ns => ocmNamespacePatternMatchString ns.Name)) ∧
    (∀ name : String, ocmNamespacePatternMatchString name = true ↔
      ∃ suffix : List Char, suffix ≠ [] ∧ (∀ c ∈ suffix, isAsciiLetterOrDigit c) ∧
        (name.data = "ocm-production-".data ++ suffix ∨
          name.data = "ocm-staging-".data ++ suffix)) ∧
    ocmNamespacePatternMatchString "ocm-production-" = false ∧
    ocmNamespacePatternMatchString "ocm-prod-1" = false ∧
    ocmNamespacePatternMatchString "xocm-staging-1" = false ∧
    ocmNamespacePatternMatchString "ocm-staging-a-b" = false := by
  refine ⟨?_, ocmNamespacePatternMatchString_iff, by decide, by decide, by decide, by decide⟩
  simp only [listOcmNamespaces, h]
  have hfold := foldl_append_if (fun ns : Namespace => ocmNamespacePatternMatchString ns.Name) L []
  simp only [List.nil_append] at hfold
  exact congrArg Except.ok hfold

/-- Witness for C10: the third listing of `flakyClient`. -/
theorem listOcmNamespaces_eq_filter_witness :
    flakyClient.listNamespaces 3 =
        .ok [{ Name := "ocm-staging-2" }, { Name := "kube-system" },
          { Name := "ocm-production-001" }] ∧
      listOcmNamespaces flakyClient 3 =
        .ok [{ Name := "ocm-staging-2" }, { Name := "ocm-production-001" }] :=
  ⟨by decide,
    (listOcmNamespaces_eq_filter flakyClient 3
      [{ Name := "ocm-staging-2" }, { Name := "kube-system" },
        { Name := "ocm-production-001" }] (by decide)).1.trans (by decide)⟩

/-! ## Filter Engine: frame, idempotence, overlap of buckets -/

theorem foldl_applyFilterIter (o : options) (cs : List clusterInfo) (st : ApplyFilterFrame) :
    cs.foldl (applyFilterIter o) st =
      { results := st.results
        filtered :=
          { st.filtered with Clusters := cs.foldl (applyFilterStep o) st.filtered.Clusters } } := by
  induction cs generalizing st with
  | nil => rfl
  | cons c cs ih =>
    rw [List.foldl_cons, ih]
    rfl

theorem applyFilterCall_eq (o : options) (r : auditResults) :
    applyFilterCall o r = (applyFilter o r, r) := by
  simp only [applyFilterCall, foldl_applyFilterIter]
  rfl

/-- C11: for every report and bucket name, the report returned by `applyFilter` has
the Timestamp and ManagementCluster of the input, and the input report (its
clusters, their order, its TotalClusters) is the same after the call as before it. -/
theorem applyFilter_preserves_metadata_and_input (o : options) (r : auditResults) :
    (applyFilterCall o r).1 = applyFilter o r ∧
    (applyFilterCall o r).1.Timestamp = r.Timestamp ∧
    (applyFilterCall o r).1.ManagementCluster = r.ManagementCluster ∧
    (applyFilterCall o r).2 = r ∧
    (applyFilterCall o r).2.Clusters = r.Clusters ∧
    (applyFilterCall o r).2.TotalClusters = r.TotalClusters := by
  rw [applyFilterCall_eq]
  exact ⟨rfl, rfl, rfl, rfl, rfl, rfl⟩

theorem applyFilter_idem (o : options) (r : auditResults) :
    applyFilter o (applyFilter o r) = applyFilter o r := by
  have hc : (applyFilter o (applyFilter o r)).Clusters = (applyFilter o r).Clusters := by
    rw [applyFilter_Clusters, applyFilter_Clusters, List.filter_filter]
    simp
  have h1 : ∀ x : auditResults, (applyFilter o x).TotalClusters =
      ((applyFilter o x).Clusters.length : Int) := fun x => by simp [applyFilter]
  have h2 : ∀ x : auditResults, (applyFilter o x).Timestamp = x.Timestamp :=
    fun x => by simp [applyFilter]
  have h3 : ∀ x : auditResults, (applyFilter o x).ManagementCluster = x.ManagementCluster :=
    fun x => by simp [applyFilter]
  have key : ∀ a b : auditResults, a.Timestamp = b.Timestamp →
      a.ManagementCluster = b.ManagementCluster → a.TotalClusters = b.TotalClusters →
      a.Clusters = b.Clusters → a = b := by
    intro a b e1 e2 e3 e4
    cases a
    cases b
    simp_all
  exact key _ _ (by rw [h2, h2]) (by rw [h3, h3]) (by rw [h1, h1, hc]) hc

/-- C12: filtering is idempotent. For every report and every bucket name, the three
valid ones included, filtering the filtered report again with the same bucket gives
the same report: same clusters in the same order, same TotalClusters, Timestamp and
ManagementCluster. -/
theorem applyFilter_idempotent (o : options) (r : auditResults) :
    applyFilter o (applyFilter o r) = applyFilter o r ∧
    applyFilter { o with showOnly := "needs-removal" }
        (applyFilter { o with showOnly := "needs-removal" } r) =
      applyFilter { o with showOnly := "needs-removal" } r ∧
    applyFilter { o with showOnly := "ready-for-migration" }
        (applyFilter { o with showOnly := "ready-for-migration" } r) =
      applyFilter { o with showOnly := "ready-for-migration" } r ∧
    applyFilter { o with showOnly := "safe-to-remove-override" }
        (applyFilter { o with showOnly := "safe-to-remove-override" } r) =
      applyFilter { o with showOnly := "safe-to-remove-override" } r :=
  ⟨applyFilter_idem _ _, applyFilter_idem _ _, applyFilter_idem _ _, applyFilter_idem _ _⟩

theorem mem_applyFilter_iff (o : options) (r : auditResults) (c : clusterInfo) :
    c ∈ (applyFilter o r).Clusters ↔ c ∈ r.Clusters ∧ bucketPredicate o.showOnly c = true := by
  rw [applyFilter_Clusters, List.mem_filter]

theorem ready_and_safe_disjoint (o : options) (r1 r2 : auditResults) (c : clusterInfo) :
    ¬ (c ∈ (applyFilter { o with showOnly := "ready-for-migration" } r1).Clusters ∧
      c ∈ (applyFilter { o with showOnly := "safe-to-remove-override" } r2).Clusters) := by
  rintro ⟨h1, h2⟩
  rw [mem_applyFilter_iff] at h1 h2
  have p1 := h1.2
  have p2 := h2.2
  simp only [bucketPredicate, safeToRemoveOverride, String.reduceEq, if_true, if_false,
    Bool.and_eq_true, Bool.not_eq_true'] at p1 p2
  rw [p1] at p2
  simp at p2

/-- Counterexample to C18: no record at all is retained under both
`ready-for-migration` and `safe-to-remove-override`, so this pair of distinct buckets
has no common record. -/
theorem ready_for_migration_and_safe_to_remove_share_no_record :
    ¬ ∃ (o : options) (r1 r2 : auditResults) (c : clusterInfo),
      c ∈ (applyFilter { o with showOnly := "ready-for-migration" } r1).Clusters ∧
        c ∈ (applyFilter { o with showOnly := "safe-to-remove-override" } r2).Clusters := by
  rintro ⟨o, r1, r2, c, h⟩
  exact ready_and_safe_disjoint o r1 r2 c h

/-- C18 as amended: `needs-removal` shares a record with `ready-for-migration` and
with `safe-to-remove-override`, while `ready-for-migration` and
`safe-to-remove-override` are mutually exclusive (one needs autoscaling off, the
other on). -/
theorem buckets_overlap_except_ready_and_safe (o : options) :
    (∃ (c : clusterInfo) (r : auditResults),
      c ∈ (applyFilter { o with showOnly := "needs-removal" } r).Clusters ∧
        c ∈ (applyFilter { o with showOnly := "ready-for-migration" } r).Clusters) ∧
    (∃ (c : clusterInfo) (r : auditResults),
      c ∈ (applyFilter { o with showOnly := "needs-removal" } r).Clusters ∧
        c ∈ (applyFilter { o with showOnly := "safe-to-remove-override" } r).Clusters) ∧
    (∀ (c : clusterInfo) (r1 r2 : auditResults),
      ¬ (c ∈ (applyFilter { o with showOnly := "ready-for-migration" } r1).Clusters ∧
        c ∈ (applyFilter { o with showOnly := "safe-to-remove-override" } r2).Clusters)) := by
  refine ⟨?_, ?_, fun c r1 r2 => ready_and_safe_disjoint o r1 r2 c⟩
  · refine ⟨⟨"cluster-001", "test-cluster-001", "ocm-production-001", false, true,
      "medium", "medium"⟩, ⟨0, "test-mc", 1, [⟨"cluster-001", "test-cluster-001",
      "ocm-production-001", false, true, "medium", "medium"⟩]⟩, ?_, ?_⟩
    · rw [mem_applyFilter_iff]
      exact ⟨List.mem_singleton.mpr rfl, by simp [bucketPredicate, safeToRemoveOverride]⟩
    · rw [mem_applyFilter_iff]
      exact ⟨List.mem_singleton.mpr rfl, by simp [bucketPredicate, safeToRemoveOverride]⟩
  · refine ⟨⟨"cluster-002", "test-cluster-002", "ocm-production-002", true, true,
      "large", "large"⟩, ⟨0, "test-mc", 1, [⟨"cluster-002", "test-cluster-002",
      "ocm-production-002", true, true, "large", "large"⟩]⟩, ?_, ?_⟩
    · rw [mem_applyFilter_iff]
      exact ⟨List.mem_singleton.mpr rfl, by simp [bucketPredicate, safeToRemoveOverride]⟩
    · rw [mem_applyFilter_iff]
      exact ⟨List.mem_singleton.mpr rfl, by simp [bucketPredicate, safeToRemoveOverride]⟩

/-! ## Classifier: the sentinel -/

theorem sizeOrNA_eq_NA_iff (m : StringMap) (key : String) :
    (if m.index key = "" then "N/A" else m.index key) = "N/A" ↔
      (m.lookup key = none ∨ m.lookup key = some "" ∨ m.lookup key = some "N/A") := by
  unfold StringMap.index
  cases hl : m.lookup key with
  | none => simp
  | some v =>
    by_cases hv : v = ""
    · simp [hv]
    · simp [hv]

/-- Counterexample to C19: a hosted cluster whose recommended-cluster-size annotation
is present with the non-empty value `N/A` is classified with RecommendedSize `N/A`,
so RecommendedSize `N/A` does not imply that the annotation is absent or empty. -/
theorem sentinel_equals_literal_annotation_value :
    getHostedClusterInNamespace literalNAClient "ocm-production-na" =
        .ok literalNAHostedCluster ∧
      literalNAHostedCluster.Annotations.lookup annotationRecommendedClusterSize =
        some "N/A" ∧
      ∃ info : clusterInfo, auditNamespace literalNAClient "ocm-production-na" = .ok info ∧
        info.RecommendedSize = "N/A" ∧
        ¬ (info.RecommendedSize = "N/A" ↔
          (literalNAHostedCluster.Annotations.lookup annotationRecommendedClusterSize = none ∨
            literalNAHostedCluster.Annotations.lookup annotationRecommendedClusterSize =
              some "")) := by
  refine ⟨by decide, by decide, _, auditNamespace_of_resolved literalNAClient
    "ocm-production-na" literalNAHostedCluster (by decide), by decide, by decide⟩

/-- C19 as amended: after successful resolution of a tenant resource whose
hosted-cluster-size label, if present, obeys Kubernetes label value syntax (so is
never the text `N/A`), CurrentSize is `N/A` exactly when the label is absent or
empty; and RecommendedSize is `N/A` exactly when the recommended-cluster-size
annotation is absent, empty, or itself the text `N/A`. -/
theorem auditNamespace_sentinel_iff (k : Client) (nsName : String) (hc : HostedCluster)
    (h : getHostedClusterInNamespace k nsName = .ok hc)
    (hlabel : ∀ v, hc.Labels.lookup labelHostedClusterSize = some v →
      isValidLabelValue v = true) :
    ∃ info : clusterInfo, auditNamespace k nsName = .ok info ∧
      (info.CurrentSize = "N/A" ↔
        (hc.Labels.lookup labelHostedClusterSize = none ∨
          hc.Labels.lookup labelHostedClusterSize = some "")) ∧
      (info.RecommendedSize = "N/A" ↔
        (hc.Annotations.lookup annotationRecommendedClusterSize = none ∨
          hc.Annotations.lookup annotationRecommendedClusterSize = some "" ∨
          hc.Annotations.lookup annotationRecommendedClusterSize = some "N/A")) := by
  refine ⟨_, auditNamespace_of_resolved k nsName hc h, ?_, sizeOrNA_eq_NA_iff _ _⟩
  have hiff := sizeOrNA_eq_NA_iff hc.Labels labelHostedClusterSize
  constructor
  · intro hna
    rcases hiff.mp hna with h1 | h1 | h1
    · exact Or.inl h1
    · exact Or.inr h1
    · have hv := hlabel "N/A" h1
      exact absurd hv (by decide)
  · intro hor
    rcases hor with h1 | h1
    · exact hiff.mpr (Or.inl h1)
    · exact hiff.mpr (Or.inr (Or.inl h1))

/-- Witness for the amended C19 on the hosted cluster whose label is `medium` and whose
annotation is the literal `N/A`. -/
theorem auditNamespace_sentinel_iff_witness :
    getHostedClusterInNamespace literalNAClient "ocm-production-na" =
        .ok literalNAHostedCluster ∧
      literalNAHostedCluster.Labels.lookup labelHostedClusterSize = some "medium" ∧
      isValidLabelValue "medium" = true ∧
      ∃ info : clusterInfo, auditNamespace literalNAClient "ocm-production-na" = .ok info ∧
        (info.CurrentSize = "N/A" ↔
          (literalNAHostedCluster.Labels.lookup labelHostedClusterSize = none ∨
            literalNAHostedCluster.Labels.lookup labelHostedClusterSize = some "")) ∧
        (info.RecommendedSize = "N/A" ↔
          (literalNAHostedCluster.Annotations.lookup annotationRecommendedClusterSize = none ∨
            literalNAHostedCluster.Annotations.lookup annotationRecommendedClusterSize =
              some "" ∨
            literalNAHostedCluster.Annotations.lookup annotationRecommendedClusterSize =
              some "N/A")) :=
  ⟨by decide, by decide, by decide,
    auditNamespace_sentinel_iff literalNAClient "ocm-production-na" literalNAHostedCluster
      (by decide)
      (fun v hv => by
        have hm : v = "medium" := (Option.some.inj hv).symm
        rw [hm]
        decide)⟩

/-! ## cad: choice of the CAD cluster -/

/-- C20: for every environment string, `getCADClusterConfig` returns the stage CAD
cluster ID with namespace `configuration-anomaly-detection-stage` exactly when the
environment is `stage`, and otherwise (empty, `production`, anything else) the
production CAD cluster ID with namespace
`configuration-anomaly-detection-production`. -/
theorem getCADClusterConfig_stage_iff (o : cadRunOptions) :
    (getCADClusterConfig o =
        ("2f9ghpikkv446iidcv7b92em2hgk13q9", "configuration-anomaly-detection-stage") ↔
      o.environment = "stage") ∧
    (getCADClusterConfig o =
        ("2fbi9mjhqpobh20ot5d7e5eeq3a8gfhs", "configuration-anomaly-detection-production") ↔
      o.environment ≠ "stage") ∧
    getCADClusterConfig { o with environment := "" } =
      (cadClusterIDProd, "configuration-anomaly-detection-production") ∧
    getCADClusterConfig { o with environment := "production" } =
      (cadClusterIDProd, "configuration-anomaly-detection-production") ∧
    getCADClusterConfig { o with environment := "unknown" } =
      (cadClusterIDProd, "configuration-anomaly-detection-production") ∧
    getCADClusterConfig { o with environment := "stage" } =
      (cadClusterIDStage, "configuration-anomaly-detection-stage") := by
  refine ⟨?_, ?_, by simp [getCADClusterConfig], by simp [getCADClusterConfig],
    by simp [getCADClusterConfig], by simp [getCADClusterConfig]⟩
  · by_cases h : o.environment = "stage"
    · simp [getCADClusterConfig, h, cadClusterIDStage]
    · simp [getCADClusterConfig, h, cadClusterIDProd]
  · by_cases h : o.environment = "stage"
    · simp [getCADClusterConfig, h, cadClusterIDStage]
    · simp [getCADClusterConfig, h, cadClusterIDProd]

/-! ## options.run: validation -/

theorem validOutputs_index (x : String) :
    boolMapIndex [("text", true), ("json", true), ("yaml", true), ("csv", true)] x = true ↔
      x ∈ ["text", "json", "yaml", "csv"] := by
  by_cases h1 : x = "text"
  · simp [boolMapIndex, List.lookup, h1]
  · by_cases h2 : x = "json"
    · simp [boolMapIndex, List.lookup, h2]
    · by_cases h3 : x = "yaml"
      · simp [boolMapIndex, List.lookup, h3]
      · by_cases h4 : x = "csv"
        · simp [boolMapIndex, List.lookup, h4]
        · have e1 : (x == "text") = false := beq_eq_false_iff_ne.mpr h1
          have e2 : (x == "json") = false := beq_eq_false_iff_ne.mpr h2
          have e3 : (x == "yaml") = false := beq_eq_false_iff_ne.mpr h3
          have e4 : (x == "csv") = false := beq_eq_false_iff_ne.mpr h4
          simp [boolMapIndex, List.lookup, h1, h2, h3, h4, e1, e2, e3, e4]

theorem validFilters_index (x : String) :
    boolMapIndex [("needs-removal", true), ("ready-for-migration", true),
        ("safe-to-remove-override", true)] x = true ↔
      x ∈ ["needs-removal", "ready-for-migration", "safe-to-remove-override"] := by
  by_cases h1 : x = "needs-removal"
  · simp [boolMapIndex, List.lookup, h1]
  · by_cases h2 : x = "ready-for-migration"
    · simp [boolMapIndex, List.lookup, h2]
    · by_cases h3 : x = "safe-to-remove-override"
      · simp [boolMapIndex, List.lookup, h3]
      · have e1 : (x == "needs-removal") = false := beq_eq_false_iff_ne.mpr h1
        have e2 : (x == "ready-for-migration") = false := beq_eq_false_iff_ne.mpr h2
        have e3 : (x == "safe-to-remove-override") = false := beq_eq_false_iff_ne.mpr h3
        simp [boolMapIndex, List.lookup, h1, h2, h3, e1, e2, e3]

theorem run_of_bad_output (o : options) (cc : Except String Unit) (au : Option String)
    (h : o.output ∉ ["text", "json", "yaml", "csv"]) :
    run o cc au =
      { err := some ("invalid output format '" ++ o.output ++
          "'. Valid options: text, json, yaml, csv")
        trace := [] } := by
  have hb : boolMapIndex [("text", true), ("json", true), ("yaml", true), ("csv", true)]
      o.output = false := by
    rw [← Bool.not_eq_true, validOutputs_index]
    exact h
  simp [run, hb]

theorem run_of_bad_showOnly (o : options) (cc : Except String Unit) (au : Option String)
    (h1 : o.output ∈ ["text", "json", "yaml", "csv"]) (h2 : o.showOnly ≠ "")
    (h3 : o.showOnly ∉ ["needs-removal", "ready-for-migration", "safe-to-remove-override"]) :
    run o cc au =
      { err := some ("invalid show-only filter '" ++ o.showOnly ++
          "'. Valid options: needs-removal, ready-for-migration, safe-to-remove-override")
        trace := [] } := by
  have hb := (validOutputs_index o.output).mpr h1
  have hf : boolMapIndex [("needs-removal", true), ("ready-for-migration", true),
      ("safe-to-remove-override", true)] o.showOnly = false := by
    rw [← Bool.not_eq_true, validFilters_index]
    exact h3
  simp [run, hb, hf, h2]

theorem run_of_valid (o : options) (cc : Except String Unit) (au : Option String)
    (h1 : o.output ∈ ["text", "json", "yaml", "csv"])
    (h2 : o.showOnly = "" ∨
      o.showOnly ∈ ["needs-removal", "ready-for-migration", "safe-to-remove-override"]) :
    run o cc au =
      (match cc with
        | .error err =>
          { err := some ("failed to create OCM connection: " ++ err)
            trace := [RunEvent.createConnection] }
        | .ok _ =>
          { err := au
            trace := [RunEvent.createConnection, RunEvent.auditManagementCluster,
              RunEvent.closeConnection] }) := by
  have hb := (validOutputs_index o.output).mpr h1
  rcases h2 with h2 | h2
  · simp [run, hb, h2]
  · have hf := (validFilters_index o.showOnly).mpr h2
    simp [run, hb, hf]

/-- C13: `run` rejects the options before any connection is created exactly when
`output` is not one of `text`, `json`, `yaml`, `csv` (case-sensitive) or `showOnly`
is non-empty and not one of the three bucket names; an empty `showOnly` is valid.
The error names the offending value in single quotes followed by the valid options,
and the output format is reported first when both are invalid. -/
theorem run_rejects_iff_invalid (o : options) (cc : Except String Unit)
    (au : Option String) :
    ((run o cc au).trace = [] ↔
      (o.output ∉ ["text", "json", "yaml", "csv"] ∨
        (o.showOnly ≠ "" ∧
          o.showOnly ∉ ["needs-removal", "ready-for-migration",
            "safe-to-remove-override"]))) ∧
    ((run o cc au).trace = [] → ∃ msg, (run o cc au).err = some msg) ∧
    (o.output ∉ ["text", "json", "yaml", "csv"] →
      run o cc au =
        { err := some ("invalid output format '" ++ o.output ++
            "'. Valid options: text, json, yaml, csv")
          trace := [] }) ∧
    (o.output ∈ ["text", "json", "yaml", "csv"] → o.showOnly ≠ "" →
      o.showOnly ∉ ["needs-removal", "ready-for-migration", "safe-to-remove-override"] →
      run o cc au =
        { err := some ("invalid show-only filter '" ++ o.showOnly ++
            "'. Valid options: needs-removal, ready-for-migration, " ++
            "safe-to-remove-override")
          trace := [] }) ∧
    (o.output ∈ ["text", "json", "yaml", "csv"] →
      (o.showOnly = "" ∨
        o.showOnly ∈ ["needs-removal", "ready-for-migration",
          "safe-to-remove-override"]) →
      (run o cc au).trace.head? = some RunEvent.createConnection) := by
  have hvalid : o.output ∈ ["text", "json", "yaml", "csv"] →
      (o.showOnly = "" ∨
        o.showOnly ∈ ["needs-removal", "ready-for-migration",
          "safe-to-remove-override"]) →
      (run o cc au).trace.head? = some RunEvent.createConnection := by
    intro h1 h2
    rw [run_of_valid o cc au h1 h2]
    cases cc <;> rfl
  have hmsg : "invalid show-only filter '" ++ o.showOnly ++
      "'. Valid options: needs-removal, ready-for-migration, " ++ "safe-to-remove-override" =
      "invalid show-only filter '" ++ o.showOnly ++
      "'. Valid options: needs-removal, ready-for-migration, safe-to-remove-override" := by
    rw [String.append_assoc ("invalid show-only filter '" ++ o.showOnly)]
    rfl
  by_cases h1 : o.output ∈ ["text", "json", "yaml", "csv"]
  · by_cases h2 : o.showOnly = ""
    · have ht := hvalid h1 (Or.inl h2)
      refine ⟨?_, ?_, fun h => absurd h1 h, fun _ h => absurd h2 h, hvalid⟩
      · constructor
        · intro he
          rw [he] at ht
          cases ht
        · rintro (h | ⟨h, _⟩)
          · exact absurd h1 h
          · exact absurd h2 h
      · intro he
        rw [he] at ht
        cases ht
    · by_cases h3 : o.showOnly ∈
          ["needs-removal", "ready-for-migration", "safe-to-remove-override"]
      · have ht := hvalid h1 (Or.inr h3)
        refine ⟨?_, ?_, fun h => absurd h1 h, fun _ _ h => absurd h3 h, hvalid⟩
        · constructor
          · intro he
            rw [he] at ht
            cases ht
          · rintro (h | ⟨_, h⟩)
            · exact absurd h1 h
            · exact absurd h3 h
        · intro he
          rw [he] at ht
          cases ht
      · have hr := run_of_bad_showOnly o cc au h1 h2 h3
        refine ⟨?_, ?_, fun h => absurd h1 h, fun _ _ _ => ?_, hvalid⟩
        · rw [hr]
          exact ⟨fun _ => Or.inr ⟨h2, h3⟩, fun _ => rfl⟩
        · intro _
          rw [hr]
          exact ⟨_, rfl⟩
        · rw [hr, hmsg]
  · have hr := run_of_bad_output o cc au h1
    refine ⟨?_, ?_, fun _ => hr, fun h => absurd h h1, hvalid⟩
    · rw [hr]
      exact ⟨fun _ => Or.inl h1, fun _ => rfl⟩
    · intro _
      rw [hr]
      exact ⟨_, rfl⟩

/-- Witness for C13: `JSON` in upper case is rejected, and the output format is
reported although the filter is invalid too. -/
theorem run_rejects_iff_invalid_witness :
    run { mgmtClusterID := "mc", output := "JSON", showOnly := "invalid-filter",
          noHeaders := false } (.ok ()) none =
      { err := some "invalid output format 'JSON'. Valid options: text, json, yaml, csv"
        trace := [] } :=
  (run_rejects_iff_invalid
    { mgmtClusterID := "mc", output := "JSON", showOnly := "invalid-filter",
      noHeaders := false } (.ok ()) none).2.2.1 (by decide)


/-! ## Result Renderer: the table -/

theorem stringLess_iff_lt : ∀ a b : List Char, stringLess a b = true ↔ a < b
  | _, [] => by
    constructor
    · intro h
      simp [stringLess] at h
    · intro h
      cases h
  | [], y :: ys => by
    constructor
    · intro _
      exact List.Lex.nil
    · intro _
      simp [stringLess]
  | x :: xs, y :: ys => by
    have ih := stringLess_iff_lt xs ys
    have hxy : x < y ↔ x.toNat < y.toNat := Iff.rfl
    have hyx : y < x ↔ y.toNat < x.toNat := Iff.rfl
    unfold stringLess
    by_cases h1 : x.toNat < y.toNat
    · simp only [h1, if_true, true_iff]
      exact List.Lex.rel (hxy.mpr h1)
    · by_cases h2 : y.toNat < x.toNat
      · simp only [h1, h2, if_true, if_false, Bool.false_eq_true, false_iff]
        intro hlt
        cases hlt with
        | rel h => exact h1 (hxy.mp h)
        | cons _ => exact absurd h2 (Nat.lt_irrefl _)
      · simp only [h1, h2, if_false]
        rw [ih]
        have hxeq : x = y :=
          le_antisymm (not_lt.mp (fun h => h2 (hyx.mp h))) (not_lt.mp (fun h => h1 (hxy.mp h)))
        subst hxeq
        constructor
        · intro h
          exact List.Lex.cons h
        · intro hlt
          cases hlt with
          | rel h => exact absurd (hxy.mp h) h1
          | cons h => exact h

theorem lessByClusterName_iff (a b : clusterInfo) :
    lessByClusterName a b = true ↔ a.ClusterName < b.ClusterName := by
  unfold lessByClusterName
  rw [stringLess_iff_lt, String.lt_iff_toList_lt]
  rfl

theorem lessByClusterName_false_iff (a b : clusterInfo) :
    lessByClusterName b a = false ↔ a.ClusterName ≤ b.ClusterName := by
  rw [← Bool.not_eq_true, lessByClusterName_iff]
  exact not_lt

theorem foldl_append_map {α β : Type} (f : α → β) (l : List α) (acc : List β) :
    l.foldl (fun out c => out ++ [f c]) acc = acc ++ l.map f := by
  induction l generalizing acc with
  | nil => simp
  | cons c l ih => simp [List.foldl_cons, ih]

theorem printTable_of_empty (env : RenderEnv) (o : options) (r : auditResults)
    (h : r.Clusters = []) :
    printTable env o r =
      some
        { err := none
          out :=
            [Output.print ("\n=== Management Cluster: " ++ r.ManagementCluster ++ " ===\n"),
              Output.timestampLine r.Timestamp,
              Output.print ("Total Hosted Clusters: " ++ toString r.TotalClusters ++ "\n\n"),
              Output.print "No hosted clusters found\n"]
          results := r } := by
  simp [printTable, h]

theorem printTable_of_sorted (env : RenderEnv) (o : options) (r : auditResults)
    (sorted : List clusterInfo) (hne : r.Clusters ≠ [])
    (hs : env.sortSlice lessByClusterName r.Clusters = some sorted) :
    printTable env o r =
      some
        { err := none
          out :=
            [Output.print ("\n=== Management Cluster: " ++ r.ManagementCluster ++ " ===\n"),
              Output.timestampLine r.Timestamp,
              Output.print ("Total Hosted Clusters: " ++ toString r.TotalClusters ++ "\n\n")] ++
            (if o.noHeaders then [] else [Output.addRow tableHeader]) ++
            sorted.map (fun c => Output.addRow (tableRow c)) ++
            [Output.flush, Output.print "\n"]
          results := { r with Clusters := sorted } } := by
  have hlen : r.Clusters.length ≠ 0 := fun h => hne (List.length_eq_zero.mp h)
  simp only [printTable, hlen, if_false, hs]
  rw [foldl_append_map (fun c => Output.addRow (tableRow c))]
  cases o.noHeaders <;> simp

theorem tableRows_of_sorted (o : options) (r : auditResults) (sorted : List clusterInfo) :
    tableRows
        ([Output.print ("\n=== Management Cluster: " ++ r.ManagementCluster ++ " ===\n"),
            Output.timestampLine r.Timestamp,
            Output.print ("Total Hosted Clusters: " ++ toString r.TotalClusters ++ "\n\n")] ++
          (if o.noHeaders then [] else [Output.addRow tableHeader]) ++
          sorted.map (fun c => Output.addRow (tableRow c)) ++
          [Output.flush, Output.print "\n"]) =
      (if o.noHeaders then [] else [tableHeader]) ++ sorted.map tableRow := by
  have hmap : ∀ l : List clusterInfo,
      List.filterMap (fun ev => match ev with
        | Output.addRow row => some row
        | _ => none) (l.map (fun c => Output.addRow (tableRow c))) = l.map tableRow := by
    intro l
    induction l with
    | nil => rfl
    | cons c l ih => simp [List.filterMap_cons, ih]
  unfold tableRows
  cases o.noHeaders <;> simp [List.filterMap_append, List.filterMap_cons, hmap]

/-- The rows `printTable` emits follow the order in which `sort.Slice` leaves the
clusters. -/
theorem printTable_rows_of_sortSlice (env : RenderEnv) (o : options)
    (r : auditResults) (sorted : List clusterInfo) (hne : r.Clusters ≠ [])
    (hs : env.sortSlice lessByClusterName r.Clusters = some sorted)
    (hsorted : sorted.Pairwise (fun a b => lessByClusterName b a = false)) :
    ∃ res : PrintResult, printTable env o r = some res ∧ res.err = none ∧
      tableRows res.out = (if o.noHeaders then [] else [tableHeader]) ++ sorted.map tableRow ∧
      sorted.Pairwise (fun a b => a.ClusterName ≤ b.ClusterName) ∧
      sorted.Chain' (fun a b => a.ClusterName ≤ b.ClusterName) ∧
      (sorted.map tableRow).Chain' (fun row1 row2 => row1.getD 1 "" ≤ row2.getD 1 "") := by
  have hpw : sorted.Pairwise (fun a b => a.ClusterName ≤ b.ClusterName) :=
    hsorted.imp (fun {a b} h => (lessByClusterName_false_iff a b).mp h)
  have hchain : sorted.Chain' (fun a b => a.ClusterName ≤ b.ClusterName) :=
    List.Pairwise.chain' hpw
  refine ⟨_, printTable_of_sorted env o r sorted hne hs, rfl, tableRows_of_sorted o r sorted,
    hpw, hchain, ?_⟩
  rw [List.chain'_map]
  refine hchain.imp ?_
  intro a b hab
  simpa [tableRow] using hab

/-- Counterexample to C15: on the report of thirteen clusters, `c00` stands before
`c06` and both are named `b`, yet the row of `c06` is emitted before the row of
`c00`: the clusters named `b` do not keep their relative order. -/
theorem printTable_reorders_equal_names :
    ∃ res : PrintResult, printTable goRenderEnv textOptions thirteenReport = some res ∧
      tableRows res.out = [tableHeader] ++ thirteenSorted.map tableRow ∧
      res.results.Clusters = thirteenSorted ∧
      thirteenReport.Clusters.filter (fun c => decide (c.ClusterName = "b")) ≠
        thirteenSorted.filter (fun c => decide (c.ClusterName = "b")) ∧
      ¬ tiesKeepOrder thirteenReport.Clusters thirteenSorted := by
  have hs : goRenderEnv.sortSlice lessByClusterName thirteenReport.Clusters =
      some thirteenSorted := by decide
  have hne : thirteenReport.Clusters ≠ [] := by decide
  have hneq : thirteenReport.Clusters.filter (fun c => decide (c.ClusterName = "b")) ≠
      thirteenSorted.filter (fun c => decide (c.ClusterName = "b")) := by decide
  refine ⟨_, printTable_of_sorted goRenderEnv textOptions thirteenReport thirteenSorted hne hs,
    ?_, rfl, hneq, ?_⟩
  · exact tableRows_of_sorted textOptions thirteenReport thirteenSorted
  · intro h
    exact hneq (h "b").symm

/-! ## `sort.Slice` on short slices: insertion sort keeps ties in order -/

namespace GoSort

theorem lessAt_cons_succ {α : Type} (less : α → α → Bool) (d : α) (rest : List α)
    (i j : Nat) : lessAt less (d :: rest) (i + 1) (j + 1) = lessAt less rest i j := by
  simp [lessAt]

theorem swapAt_cons_succ {α : Type} (d : α) (rest : List α) (i j : Nat) :
    swapAt (d :: rest) (i + 1) (j + 1) = d :: swapAt rest i j := by
  unfold swapAt
  simp only [List.getElem?_cons_succ]
  cases rest[i]? with
  | none => rfl
  | some x =>
    cases rest[j]? with
    | none => rfl
    | some y => simp

/-- An adjacent swap made because `Less(j+1, j)` holds keeps every filtered sublist
whose predicate never holds for both of two elements related by `less`. -/
theorem filter_swapAt_adjacent {α : Type} (less : α → α → Bool) (p : α → Bool)
    (hp : ∀ x y, less x y = true → ¬ (p x = true ∧ p y = true)) :
    ∀ (j : Nat) (data : List α), lessAt less data (j + 1) j = true →
      (swapAt data (j + 1) j).filter p = data.filter p
  | _, [], _ => by simp [swapAt]
  | 0, [_], h => by simp [lessAt] at h
  | 0, y :: x :: post, h => by
    have hxy : less x y = true := by simpa [lessAt] using h
    have hnot := hp x y hxy
    have hsw : swapAt (y :: x :: post) 1 0 = x :: y :: post := by simp [swapAt]
    rw [hsw]
    cases hpx : p x <;> cases hpy : p y
    · simp [List.filter_cons, hpx, hpy]
    · simp [List.filter_cons, hpx, hpy]
    · simp [List.filter_cons, hpx, hpy]
    · exact absurd ⟨hpx, hpy⟩ hnot
  | j + 1, d :: rest, h => by
    rw [lessAt_cons_succ] at h
    rw [swapAt_cons_succ, List.filter_cons, List.filter_cons,
      filter_swapAt_adjacent less p hp j rest h]

theorem filter_insertionSortInner {α : Type} (less : α → α → Bool) (p : α → Bool)
    (hp : ∀ x y, less x y = true → ¬ (p x = true ∧ p y = true)) (a : Nat) :
    ∀ (j : Nat) (data : List α), (insertionSortInner less a j data).filter p = data.filter p
  | 0, data => by simp [insertionSortInner]
  | j + 1, data => by
    unfold insertionSortInner
    split
    · next hc =>
      have hless : lessAt less data (j + 1) j = true := by
        simp only [Bool.and_eq_true] at hc
        exact hc.2
      rw [filter_insertionSortInner less p hp a j, filter_swapAt_adjacent less p hp j data hless]
    · rfl

theorem filter_insertionSort_func {α : Type} (less : α → α → Bool) (p : α → Bool)
    (hp : ∀ x y, less x y = true → ¬ (p x = true ∧ p y = true)) (data : List α) (a b : Nat) :
    (insertionSort_func less data a b).filter p = data.filter p := by
  unfold insertionSort_func
  generalize List.range' (a + 1) (b - (a + 1)) = is
  induction is generalizing data with
  | nil => rfl
  | cons i is ih =>
    rw [List.foldl_cons, ih, filter_insertionSortInner less p hp a i data]

theorem Slice_of_short {α : Type} (less : α → α → Bool) (x : List α) (h : x.length ≤ 12) :
    Slice less x = some (insertionSort_func less x 0 x.length) := by
  simp [Slice, pdqsortLoop, h]

end GoSort

theorem stringLess_irrefl : ∀ a : List Char, stringLess a a = false
  | [] => rfl
  | x :: xs => by
    simp [stringLess, stringLess_irrefl xs]

theorem lessByClusterName_names_differ (n : String) (x y : clusterInfo)
    (h : lessByClusterName x y = true) :
    ¬ (decide (x.ClusterName = n) = true ∧ decide (y.ClusterName = n) = true) := by
  rintro ⟨hx, hy⟩
  have ex : x.ClusterName = n := of_decide_eq_true hx
  have ey : y.ClusterName = n := of_decide_eq_true hy
  unfold lessByClusterName at h
  rw [ex, ey, stringLess_irrefl] at h
  cases h

/-- C15 as amended: for every report of at most 12 clusters, where the Go runtime's
`sort.Slice` runs an insertion sort, `printTable` emits its rows with clusters of
equal name in the relative order of the report. (For longer reports the order of
equal names may change.) -/
theorem printTable_keeps_ties_up_to_twelve (o : options) (r : auditResults)
    (hne : r.Clusters ≠ []) (hlen : r.Clusters.length ≤ 12) :
    ∃ (res : PrintResult) (sorted : List clusterInfo),
      printTable goRenderEnv o r = some res ∧
      goRenderEnv.sortSlice lessByClusterName r.Clusters = some sorted ∧
      tableRows res.out = (if o.noHeaders then [] else [tableHeader]) ++ sorted.map tableRow ∧
      tiesKeepOrder r.Clusters sorted ∧
      (∀ n : String,
        (sorted.filter (fun c => decide (c.ClusterName = n))).map tableRow =
          (r.Clusters.filter (fun c => decide (c.ClusterName = n))).map tableRow) := by
  have hs : goRenderEnv.sortSlice lessByClusterName r.Clusters =
      some (GoSort.insertionSort_func lessByClusterName r.Clusters 0 r.Clusters.length) :=
    GoSort.Slice_of_short lessByClusterName r.Clusters hlen
  have hties : tiesKeepOrder r.Clusters
      (GoSort.insertionSort_func lessByClusterName r.Clusters 0 r.Clusters.length) := by
    intro n
    exact GoSort.filter_insertionSort_func lessByClusterName _
      (lessByClusterName_names_differ n) r.Clusters 0 r.Clusters.length
  refine ⟨_, _, printTable_of_sorted goRenderEnv o r _ hne hs, hs,
    tableRows_of_sorted o r _, hties, ?_⟩
  intro n
  rw [hties n]

/-- Witness for the amended C15: the report of twelve clusters, eleven of them named
`b`. The cluster named `a` moves to the front and the eleven named `b` keep the
order of the report. -/
theorem printTable_keeps_ties_up_to_twelve_witness :
    twelveReport.Clusters ≠ [] ∧ twelveReport.Clusters.length ≤ 12 ∧
      ∃ (res : PrintResult) (sorted : List clusterInfo),
        printTable goRenderEnv textOptions twelveReport = some res ∧
        goRenderEnv.sortSlice lessByClusterName twelveReport.Clusters = some sorted ∧
        sorted =
          [namedCluster "d01" "a", namedCluster "d00" "b", namedCluster "d02" "b",
            namedCluster "d03" "b", namedCluster "d04" "b", namedCluster "d05" "b",
            namedCluster "d06" "b", namedCluster "d07" "b", namedCluster "d08" "b",
            namedCluster "d09" "b", namedCluster "d10" "b", namedCluster "d11" "b"] ∧
        tiesKeepOrder twelveReport.Clusters sorted ∧
        sorted.filter (fun c => decide (c.ClusterName = "b")) =
          twelveReport.Clusters.filter (fun c => decide (c.ClusterName = "b")) :=
  match printTable_keeps_ties_up_to_twelve textOptions twelveReport (by decide)
      (by decide) with
  | ⟨res, sorted, h1, h2, _, h4, _⟩ =>
    ⟨by decide, by decide, res, sorted, h1, h2,
      Option.some.inj (h2.symm.trans (by decide)), h4, h4 "b"⟩

/-! ## Result Renderer: what the renderers leave of the report -/

theorem printCSV_results (env : RenderEnv) (o : options) (r : auditResults) :
    (printCSV env o r).results = r := by
  unfold printCSV
  cases o.noHeaders
  · cases env.csvWrite 0 <;> rfl
  · rfl

theorem printYAML_results (env : RenderEnv) (o : options) (r : auditResults) :
    (printYAML env o r).results = r := by
  unfold printYAML
  cases env.yamlMarshal r <;> rfl

/-- Counterexample to C16: `printTable` called on a report whose two clusters stand
in descending order of name leaves the report with its clusters in ascending order;
the Clusters sequence is not the same after the call as before it. -/
theorem printTable_reorders_report_in_place :
    ∃ res : PrintResult, printTable goRenderEnv textOptions descendingReport = some res ∧
      descendingReport.Clusters = [namedCluster "c00" "zeta", namedCluster "c01" "alpha"] ∧
      res.results.Clusters = [namedCluster "c01" "alpha", namedCluster "c00" "zeta"] ∧
      res.results.Clusters ≠ descendingReport.Clusters := by
  have hs : goRenderEnv.sortSlice lessByClusterName descendingReport.Clusters =
      some [namedCluster "c01" "alpha", namedCluster "c00" "zeta"] := by decide
  exact ⟨_, printTable_of_sorted goRenderEnv textOptions descendingReport _ (by decide) hs,
    rfl, rfl, by decide⟩

/-- C16 as amended: `printJSON`, `printYAML` and `printCSV` leave the report as it was.
`printTable` leaves Timestamp, ManagementCluster and TotalClusters as they were and
leaves a report without clusters untouched, but it sorts the Clusters of a non-empty
report in place: after the call they are what `sort.Slice` made of them (the same
records when `sort.Slice` permutes), in the order of the emitted rows. -/
theorem renderers_effect_on_report (env : RenderEnv) (o : options) (r : auditResults) :
    (printJSON env o r).results = r ∧
    (printYAML env o r).results = r ∧
    (printCSV env o r).results = r ∧
    (∀ res : PrintResult, printTable env o r = some res →
      res.results.Timestamp = r.Timestamp ∧
      res.results.ManagementCluster = r.ManagementCluster ∧
      res.results.TotalClusters = r.TotalClusters ∧
      (r.Clusters = [] → res.results = r) ∧
      (r.Clusters ≠ [] →
        env.sortSlice lessByClusterName r.Clusters = some res.results.Clusters ∧
        tableRows res.out =
          (if o.noHeaders then [] else [tableHeader]) ++ res.results.Clusters.map tableRow ∧
        ((∀ sorted, env.sortSlice lessByClusterName r.Clusters = some sorted →
            sorted.Perm r.Clusters) →
          res.results.Clusters.Perm r.Clusters))) := by
  refine ⟨rfl, printYAML_results env o r, printCSV_results env o r, ?_⟩
  intro res hres
  by_cases hc : r.Clusters = []
  · rw [printTable_of_empty env o r hc] at hres
    cases hres
    exact ⟨rfl, rfl, rfl, fun _ => rfl, fun h => absurd hc h⟩
  · cases hs : env.sortSlice lessByClusterName r.Clusters with
    | none =>
      have hlen : r.Clusters.length ≠ 0 := fun h => hc (List.length_eq_zero.mp h)
      simp [printTable, hlen, hs] at hres
    | some sorted =>
      rw [printTable_of_sorted env o r sorted hc hs] at hres
      cases hres
      exact ⟨rfl, rfl, rfl, fun h => absurd h hc,
        fun _ => ⟨rfl, tableRows_of_sorted o r sorted, fun hp => hp sorted rfl⟩⟩

/-- Witness for the amended C16 on the two-cluster report. -/
theorem renderers_effect_on_report_witness :
    printTable goRenderEnv textOptions descendingReport =
        some
          { err := none
            out :=
              [Output.print "\n=== Management Cluster: test-mc ===\n", Output.timestampLine 0,
                Output.print "Total Hosted Clusters: 2\n\n", Output.addRow tableHeader,
                Output.addRow (tableRow (namedCluster "c01" "alpha")),
                Output.addRow (tableRow (namedCluster "c00" "zeta")), Output.flush,
                Output.print "\n"]
            results :=
              { descendingReport with
                Clusters := [namedCluster "c01" "alpha", namedCluster "c00" "zeta"] } } ∧
      goRenderEnv.sortSlice lessByClusterName descendingReport.Clusters =
        some [namedCluster "c01" "alpha", namedCluster "c00" "zeta"] :=
  ⟨by decide,
    ((renderers_effect_on_report goRenderEnv textOptions descendingReport).2.2.2
      { err := none
        out :=
          [Output.print "\n=== Management Cluster: test-mc ===\n", Output.timestampLine 0,
            Output.print "Total Hosted Clusters: 2\n\n", Output.addRow tableHeader,
            Output.addRow (tableRow (namedCluster "c01" "alpha")),
            Output.addRow (tableRow (namedCluster "c00" "zeta")), Output.flush,
            Output.print "\n"]
        results :=
          { descendingReport with
            Clusters := [namedCluster "c01" "alpha", namedCluster "c00" "zeta"] } }
      (by decide)).2.2.2.2 (by decide) |>.1⟩

/-! ## Result Renderer: CSV -/

theorem printCSVLoop_of_no_error (env : RenderEnv) (hw : ∀ n, env.csvWrite n = none) :
    ∀ (l : List clusterInfo) (n : Nat) (out : List Output),
      printCSVLoop env l n out = (none, out ++ l.map (fun c => Output.csvWrite (csvRecord c)))
  | [], _, out => by simp [printCSVLoop]
  | c :: rest, n, out => by
    simp [printCSVLoop, hw n, printCSVLoop_of_no_error env hw rest]

theorem printCSVLoop_prefix (env : RenderEnv) :
    ∀ (l : List clusterInfo) (n : Nat) (out : List Output),
      ∃ k, (printCSVLoop env l n out).2 =
        out ++ (l.take k).map (fun c => Output.csvWrite (csvRecord c))
  | [], _, out => ⟨0, by simp [printCSVLoop]⟩
  | c :: rest, n, out => by
    unfold printCSVLoop
    cases env.csvWrite n with
    | some err => exact ⟨1, by simp⟩
    | none =>
      obtain ⟨k, hk⟩ := printCSVLoop_prefix env rest (n + 1) (out ++ [Output.csvWrite (csvRecord c)])
      exact ⟨k + 1, by simp [hk]⟩

theorem csvRecords_map (l : List clusterInfo) :
    csvRecords (l.map (fun c => Output.csvWrite (csvRecord c))) = l.map csvRecord := by
  unfold csvRecords
  induction l with
  | nil => rfl
  | cons c l ih => simp [List.filterMap_cons, ih]

theorem csvRecords_append (a b : List Output) :
    csvRecords (a ++ b) = csvRecords a ++ csvRecords b := by
  simp [csvRecords, List.filterMap_append]

/-- C17: for every report, when no write to the CSV writer fails, the records
`printCSV` hands to the writer are: unless `noHeaders` is set, first the header
`cluster_id, cluster_name, namespace, autoscaling_enabled, has_override,
current_size, recommended_size`; then one record per cluster in the report's order,
with the seven fields ClusterID, ClusterName, Namespace, AutoscalingEnabled,
HasOverrideAnnotation, CurrentSize, RecommendedSize and the booleans written as
`true` / `false`. With `noHeaders` only the header is missing. Whatever the writer
does, the records handed to it are a leading part of that list. -/
theorem printCSV_records (env : RenderEnv) (o : options) (r : auditResults)
    (hw : ∀ n, env.csvWrite n = none) :
    (printCSV env o r).err = none ∧
    csvRecords (printCSV env o r).out =
      (if o.noHeaders then []
        else [["cluster_id", "cluster_name", "namespace", "autoscaling_enabled",
          "has_override", "current_size", "recommended_size"]]) ++
      r.Clusters.map (fun c =>
        [c.ClusterID, c.ClusterName, c.Namespace,
          if c.AutoscalingEnabled then "true" else "false",
          if c.HasOverrideAnnotation then "true" else "false",
          c.CurrentSize, c.RecommendedSize]) ∧
    csvRecords (printCSV env { o with noHeaders := true } r).out =
      r.Clusters.map (fun c =>
        [c.ClusterID, c.ClusterName, c.Namespace,
          if c.AutoscalingEnabled then "true" else "false",
          if c.HasOverrideAnnotation then "true" else "false",
          c.CurrentSize, c.RecommendedSize]) ∧
    (∀ env2 : RenderEnv, ∃ k,
      csvRecords (printCSV env2 o r).out =
        ((if o.noHeaders then [] else [csvHeader]) ++ r.Clusters.map csvRecord).take k) := by
  have hrec : (fun c : clusterInfo =>
      [c.ClusterID, c.ClusterName, c.Namespace,
        if c.AutoscalingEnabled then "true" else "false",
        if c.HasOverrideAnnotation then "true" else "false",
        c.CurrentSize, c.RecommendedSize]) = csvRecord := by
    funext c
    simp [csvRecord]
  rw [hrec]
  have hflush : csvRecords [Output.csvFlush] = [] := rfl
  have hhead : csvRecords [Output.csvWrite csvHeader] = [csvHeader] := rfl
  have hnil : csvRecords [] = [] := rfl
  have hout : ∀ o2 : options, (printCSV env o2 r).out =
      (if o2.noHeaders then [] else [Output.csvWrite csvHeader]) ++
        r.Clusters.map (fun c => Output.csvWrite (csvRecord c)) ++ [Output.csvFlush] := by
    intro o2
    unfold printCSV
    cases o2.noHeaders <;> simp [hw 0, printCSVLoop_of_no_error env hw]
  refine ⟨?_, ?_, ?_, ?_⟩
  · unfold printCSV
    cases o.noHeaders <;> simp [hw 0, printCSVLoop_of_no_error env hw]
  · rw [hout o, csvRecords_append, csvRecords_append, csvRecords_map, hflush]
    cases o.noHeaders
    · simp only [Bool.false_eq_true, if_false, hhead, List.append_nil]
      rfl
    · simp only [if_true, hnil, List.append_nil]
  · rw [hout, csvRecords_append, csvRecords_append, csvRecords_map, hflush]
    simp only [if_true, hnil, List.append_nil, List.nil_append]
  · intro env2
    unfold printCSV
    cases hno : o.noHeaders
    · cases hw0 : env2.csvWrite 0 with
      | some err =>
        refine ⟨1, ?_⟩
        simp only [Bool.not_false, if_true, Bool.false_eq_true, if_false]
        rfl
      | none =>
        obtain ⟨k, hk⟩ := printCSVLoop_prefix env2 r.Clusters 1 [Output.csvWrite csvHeader]
        refine ⟨k + 1, ?_⟩
        simp only [Bool.not_false, if_true, Bool.false_eq_true, if_false, hk]
        rw [csvRecords_append, csvRecords_append, csvRecords_map, hflush, hhead,
          List.append_nil, List.map_take]
        rfl
    · obtain ⟨k, hk⟩ := printCSVLoop_prefix env2 r.Clusters 0 []
      refine ⟨k, ?_⟩
      simp only [Bool.not_true, Bool.false_eq_true, if_false, if_true, hk]
      rw [csvRecords_append, csvRecords_append, csvRecords_map, hflush, hnil,
        List.append_nil, List.nil_append, List.nil_append, List.map_take]

/-- Witness for C17: the two-cluster report written with its header. -/
theorem printCSV_records_witness :
    csvRecords (printCSV goRenderEnv textOptions descendingReport).out =
      [["cluster_id", "cluster_name", "namespace", "autoscaling_enabled", "has_override",
          "current_size", "recommended_size"],
        ["c00", "zeta", "ocm-production-c00", "true", "false", "medium", "medium"],
        ["c01", "alpha", "ocm-production-c01", "true", "false", "medium", "medium"]] :=
  (printCSV_records goRenderEnv textOptions descendingReport (fun _ => rfl)).2.1.trans
    (by decide)

/-! ## `sort.Slice` sorts

The transcribed algorithm is shown to return, for every slice and every strict weak
ordering, a sorted permutation of the slice. Positions are compared with `lessAt`;
`SwapsIn a b d e` records that `e` arises from `d` by exchanges inside a range. -/

namespace GoSort

/-! ### Exchanging two positions -/

theorem swapAt_of_lt {α : Type} (d : List α) (i j : Nat) (hi : i < d.length)
    (hj : j < d.length) : swapAt d i j = (d.set i d[j]).set j d[i] := by
  simp [swapAt, List.getElem?_eq_getElem hi, List.getElem?_eq_getElem hj]

theorem length_swapAt {α : Type} (d : List α) (i j : Nat) :
    (swapAt d i j).length = d.length := by
  unfold swapAt
  cases d[i]? with
  | none => rfl
  | some x =>
    cases d[j]? with
    | none => rfl
    | some y => simp

theorem getElem?_swapAt {α : Type} (d : List α) (i j k : Nat) (hi : i < d.length)
    (hj : j < d.length) : (swapAt d i j)[k]? = d[tr i j k]? := by
  rw [swapAt_of_lt d i j hi hj]
  unfold tr
  by_cases hkj : k = j
  · subst hkj
    by_cases hki : k = i
    · subst hki
      simp [List.getElem?_set, hi]
    · have hik : ¬ i = k := fun h => hki h.symm
      simp [List.getElem?_set, hj, hki, hik, List.getElem?_eq_getElem hi]
  · have hjk : ¬ j = k := fun h => hkj h.symm
    by_cases hki : k = i
    · subst hki
      simp [List.getElem?_set, hi, hjk, List.getElem?_eq_getElem hj]
    · have hik : ¬ i = k := fun h => hki h.symm
      simp [List.getElem?_set, hkj, hki, hjk, hik]

theorem lessAt_swapAt {α : Type} (less : α → α → Bool) (d : List α) (i j p q : Nat)
    (hi : i < d.length) (hj : j < d.length) :
    lessAt less (swapAt d i j) p q = lessAt less d (tr i j p) (tr i j q) := by
  unfold lessAt
  rw [getElem?_swapAt d i j p hi hj, getElem?_swapAt d i j q hi hj]

theorem tr_left (i j : Nat) : tr i j i = j := by simp [tr]

theorem tr_right (i j : Nat) : tr i j j = i := by
  unfold tr
  split
  · next h => exact h
  · simp

theorem tr_of_ne (i j p : Nat) (h1 : p ≠ i) (h2 : p ≠ j) : tr i j p = p := by
  simp [tr, h1, h2]

theorem tr_mem (a b i j p : Nat) (hai : a ≤ i) (hib : i < b) (haj : a ≤ j) (hjb : j < b)
    (hap : a ≤ p) (hpb : p < b) : a ≤ tr i j p ∧ tr i j p < b := by
  unfold tr
  split
  · exact ⟨haj, hjb⟩
  · split
    · exact ⟨hai, hib⟩
    · exact ⟨hap, hpb⟩

theorem tr_of_not_mem (a b i j p : Nat) (hai : a ≤ i) (hib : i < b) (haj : a ≤ j)
    (hjb : j < b) (hp : p < a ∨ b ≤ p) : tr i j p = p := by
  apply tr_of_ne <;> omega

theorem perm_cons_set {α : Type} (x y : α) :
    ∀ (rest : List α) (j : Nat), rest[j]? = some y → (y :: rest.set j x).Perm (x :: rest)
  | [], _, h => by simp at h
  | r :: rs, 0, h => by
    have hr : r = y := by simpa using h
    subst hr
    exact List.Perm.swap _ _ _
  | r :: rs, j + 1, h => by
    have h2 : rs[j]? = some y := by simpa using h
    have ih := perm_cons_set x y rs j h2
    have e1 : List.Perm (y :: r :: rs.set j x) (r :: y :: rs.set j x) := List.Perm.swap _ _ _
    have e2 : List.Perm (r :: y :: rs.set j x) (r :: x :: rs) := List.Perm.cons r ih
    have e3 : List.Perm (r :: x :: rs) (x :: r :: rs) := List.Perm.swap _ _ _
    exact (e1.trans e2).trans e3

theorem swapAt_perm {α : Type} : ∀ (d : List α) (i j : Nat), (swapAt d i j).Perm d
  | [], i, j => by simp [swapAt]
  | x :: rest, 0, 0 => by simp [swapAt]
  | x :: rest, 0, j + 1 => by
    unfold swapAt
    simp only [List.getElem?_cons_zero, List.getElem?_cons_succ]
    cases h : rest[j]? with
    | none => exact List.Perm.refl _
    | some y =>
      simp only [List.set_cons_zero, List.set_cons_succ]
      exact perm_cons_set x y rest j h
  | x :: rest, i + 1, 0 => by
    unfold swapAt
    simp only [List.getElem?_cons_zero, List.getElem?_cons_succ]
    cases h : rest[i]? with
    | none => exact List.Perm.refl _
    | some y =>
      simp only [List.set_cons_zero, List.set_cons_succ]
      exact perm_cons_set x y rest i h
  | x :: rest, i + 1, j + 1 => by
    have hc : swapAt (x :: rest) (i + 1) (j + 1) = x :: swapAt rest i j := by
      unfold swapAt
      simp only [List.getElem?_cons_succ]
      cases rest[i]? with
      | none => rfl
      | some a =>
        cases rest[j]? with
        | none => rfl
        | some b => simp
    rw [hc]
    exact List.Perm.cons x (swapAt_perm rest i j)

/-! ### The order on positions -/

theorem lessAt_eq {α : Type} (less : α → α → Bool) (d : List α) (i j : Nat)
    (hi : i < d.length) (hj : j < d.length) : lessAt less d i j = less d[i] d[j] := by
  simp [lessAt, List.getElem?_eq_getElem hi, List.getElem?_eq_getElem hj]

theorem lessAt_lt_length {α : Type} (less : α → α → Bool) (d : List α) (i j : Nat)
    (h : lessAt less d i j = true) : i < d.length ∧ j < d.length := by
  unfold lessAt at h
  by_cases hi : i < d.length
  · by_cases hj : j < d.length
    · exact ⟨hi, hj⟩
    · rw [List.getElem?_eq_none (Nat.le_of_not_lt hj)] at h
      cases hx : d[i]? <;> simp [hx] at h
  · rw [List.getElem?_eq_none (Nat.le_of_not_lt hi)] at h
    simp at h

theorem lessAt_irrefl {α : Type} {less : α → α → Bool} (ho : StrictWeakOrder less)
    (d : List α) (i : Nat) : lessAt less d i i = false := by
  by_cases hi : i < d.length
  · rw [lessAt_eq less d i i hi hi]
    exact ho.irrefl _
  · simp [lessAt, List.getElem?_eq_none (Nat.le_of_not_lt hi)]

theorem lessAt_trans {α : Type} {less : α → α → Bool} (ho : StrictWeakOrder less)
    (d : List α) (i j k : Nat) (h1 : lessAt less d i j = true)
    (h2 : lessAt less d j k = true) : lessAt less d i k = true := by
  obtain ⟨hi, hj⟩ := lessAt_lt_length less d i j h1
  obtain ⟨_, hk⟩ := lessAt_lt_length less d j k h2
  rw [lessAt_eq less d _ _ hi hj] at h1
  rw [lessAt_eq less d _ _ hj hk] at h2
  rw [lessAt_eq less d _ _ hi hk]
  exact ho.trans _ _ _ h1 h2

/-- `d[i] ≤ d[j]` and `d[j] ≤ d[k]` give `d[i] ≤ d[k]`, for `j` inside the slice. -/
theorem lessAt_ntrans {α : Type} {less : α → α → Bool} (ho : StrictWeakOrder less)
    (d : List α) (i j k : Nat) (hj : j < d.length) (h1 : lessAt less d j i = false)
    (h2 : lessAt less d k j = false) : lessAt less d k i = false := by
  by_cases hi : i < d.length
  · by_cases hk : k < d.length
    · rw [lessAt_eq less d _ _ hj hi] at h1
      rw [lessAt_eq less d _ _ hk hj] at h2
      rw [lessAt_eq less d _ _ hk hi]
      exact ho.ntrans _ _ _ h1 h2
    · simp [lessAt, List.getElem?_eq_none (Nat.le_of_not_lt hk)]
  · unfold lessAt
    rw [List.getElem?_eq_none (Nat.le_of_not_lt hi)]
    cases d[k]? <;> rfl

theorem lessAt_asymm {α : Type} {less : α → α → Bool} (ho : StrictWeakOrder less)
    (d : List α) (i j : Nat) (h : lessAt less d i j = true) : lessAt less d j i = false := by
  cases hji : lessAt less d j i with
  | false => rfl
  | true =>
    have := lessAt_trans ho d i j i h hji
    rw [lessAt_irrefl ho] at this
    cases this

/-- `d[i] < d[j]` and `d[j] ≤ d[k]` give `d[i] < d[k]`. -/
theorem lessAt_of_lt_of_le {α : Type} {less : α → α → Bool} (ho : StrictWeakOrder less)
    (d : List α) (i j k : Nat) (hk : k < d.length) (h1 : lessAt less d i j = true)
    (h2 : lessAt less d k j = false) : lessAt less d i k = true := by
  cases hik : lessAt less d i k with
  | true => rfl
  | false =>
    have := lessAt_ntrans ho d j k i hk h2 hik
    rw [h1] at this
    cases this

/-- `d[i] ≤ d[j]` and `d[j] < d[k]` give `d[i] < d[k]`. -/
theorem lessAt_of_le_of_lt {α : Type} {less : α → α → Bool} (ho : StrictWeakOrder less)
    (d : List α) (i j k : Nat) (hi : i < d.length) (h1 : lessAt less d j i = false)
    (h2 : lessAt less d j k = true) : lessAt less d i k = true := by
  cases hik : lessAt less d i k with
  | true => rfl
  | false =>
    have := lessAt_ntrans ho d k i j hi hik h1
    rw [h2] at this
    cases this

/-! ### Sequences of exchanges inside a range -/

theorem SwapsIn.trans {α : Type} {a b : Nat} {d e f : List α} (h1 : SwapsIn a b d e)
    (h2 : SwapsIn a b e f) : SwapsIn a b d f := by
  induction h1 with
  | refl d => exact h2
  | step d e i j hai hib haj hjb hb _ ih => exact SwapsIn.step d f i j hai hib haj hjb hb (ih h2)

theorem SwapsIn.length_eq {α : Type} {a b : Nat} {d e : List α} (h : SwapsIn a b d e) :
    e.length = d.length := by
  induction h with
  | refl d => rfl
  | step d e i j _ _ _ _ _ _ ih => rw [ih, length_swapAt]

theorem SwapsIn.swap {α : Type} {a b : Nat} (d : List α) (i j : Nat) (hai : a ≤ i)
    (hib : i < b) (haj : a ≤ j) (hjb : j < b) (hb : b ≤ d.length) :
    SwapsIn a b d (swapAt d i j) :=
  SwapsIn.step d _ i j hai hib haj hjb hb (SwapsIn.refl _)

theorem SwapsIn.mono {α : Type} {a b a2 b2 : Nat} {d e : List α} (h : SwapsIn a b d e)
    (ha : a2 ≤ a) (hb : b ≤ b2) (hlen : b2 ≤ d.length) : SwapsIn a2 b2 d e := by
  induction h with
  | refl d => exact SwapsIn.refl d
  | step d e i j hai hib haj hjb hbl _ ih =>
    exact SwapsIn.step d e i j (by omega) (by omega) (by omega) (by omega) hlen
      (ih (by rw [length_swapAt]; exact hlen))

theorem SwapsIn.perm {α : Type} {a b : Nat} {d e : List α} (h : SwapsIn a b d e) :
    e.Perm d := by
  induction h with
  | refl d => exact List.Perm.refl d
  | step d e i j _ _ _ _ _ _ ih => exact ih.trans (swapAt_perm d i j)

theorem SwapsIn.getElem?_outside {α : Type} {a b : Nat} {d e : List α} (h : SwapsIn a b d e)
    (k : Nat) (hk : k < a ∨ b ≤ k) : e[k]? = d[k]? := by
  induction h with
  | refl d => rfl
  | step d e i j hai hib haj hjb hb _ ih =>
    rw [ih, getElem?_swapAt d i j k (by omega) (by omega),
      tr_of_not_mem a b i j k hai hib haj hjb hk]

/-- A comparison between two positions outside the range is not affected. -/
theorem SwapsIn.lessAt_outside {α : Type} (less : α → α → Bool) {a b : Nat} {d e : List α}
    (h : SwapsIn a b d e) (p q : Nat) (hp : p < a ∨ b ≤ p) (hq : q < a ∨ b ≤ q) :
    lessAt less e p q = lessAt less d p q := by
  unfold lessAt
  rw [h.getElem?_outside p hp, h.getElem?_outside q hq]

/-- A property of all positions of the range compared with a fixed position outside
it survives. -/
theorem SwapsIn.forall_lessAt_left {α : Type} (less : α → α → Bool) {a b : Nat}
    {d e : List α} (h : SwapsIn a b d e) (m : Nat) (hm : m < a ∨ b ≤ m) (v : Bool)
    (hall : ∀ k, a ≤ k → k < b → lessAt less d k m = v) :
    ∀ k, a ≤ k → k < b → lessAt less e k m = v := by
  induction h with
  | refl d => exact hall
  | step d e i j hai hib haj hjb hb _ ih =>
    apply ih
    intro k hak hkb
    rw [lessAt_swapAt less d i j k m (by omega) (by omega),
      tr_of_not_mem a b i j m hai hib haj hjb hm]
    have := tr_mem a b i j k hai hib haj hjb hak hkb
    exact hall _ this.1 this.2

theorem SwapsIn.forall_lessAt_right {α : Type} (less : α → α → Bool) {a b : Nat}
    {d e : List α} (h : SwapsIn a b d e) (m : Nat) (hm : m < a ∨ b ≤ m) (v : Bool)
    (hall : ∀ k, a ≤ k → k < b → lessAt less d m k = v) :
    ∀ k, a ≤ k → k < b → lessAt less e m k = v := by
  induction h with
  | refl d => exact hall
  | step d e i j hai hib haj hjb hb _ ih =>
    apply ih
    intro k hak hkb
    rw [lessAt_swapAt less d i j m k (by omega) (by omega),
      tr_of_not_mem a b i j m hai hib haj hjb hm]
    have := tr_mem a b i j k hai hib haj hjb hak hkb
    exact hall _ this.1 this.2

/-- Sortedness of a range disjoint from the range of the exchanges survives. -/
theorem SwapsIn.sortedOn_outside {α : Type} (less : α → α → Bool) {a b : Nat}
    {d e : List α} (h : SwapsIn a b d e) (a2 b2 : Nat) (hdis : b2 ≤ a ∨ b ≤ a2)
    (hs : SortedOn less a2 b2 d) : SortedOn less a2 b2 e := by
  intro i j hi hij hj
  rw [h.lessAt_outside less j i (by omega) (by omega)]
  exact hs i j hi hij hj

/-! ### Insertion sort -/

/-- The inner loop of insertion sort started at `j`: when the range up to `i` is sorted
apart from position `j`, whose element is less than all to its right, the loop leaves
the range sorted. -/
theorem insertionSortInner_spec {α : Type} {less : α → α → Bool} (ho : StrictWeakOrder less)
    (a i : Nat) :
    ∀ (j : Nat) (d : List α), a ≤ j → j ≤ i → i < d.length →
      (∀ p q, a ≤ p → p < q → q ≤ i → p ≠ j → q ≠ j → lessAt less d q p = false) →
      (∀ q, j < q → q ≤ i → lessAt less d j q = true) →
      SwapsIn a (i + 1) d (insertionSortInner less a j d) ∧
        SortedOn less a (i + 1) (insertionSortInner less a j d)
  | 0, d, ha, _, _, h1, h2 => by
    refine ⟨SwapsIn.refl d, ?_⟩
    intro p q hp hpq hq
    by_cases hp0 : p = 0
    · subst hp0
      exact lessAt_asymm ho d 0 q (h2 q hpq (by omega))
    · exact h1 p q hp hpq (by omega) hp0 (by omega)
  | j + 1, d, ha, hji, hi, h1, h2 => by
    unfold insertionSortInner
    by_cases hc : (decide (j + 1 > a) && lessAt less d (j + 1) j) = true
    · rw [if_pos hc]
      simp only [Bool.and_eq_true, decide_eq_true_eq] at hc
      obtain ⟨hja, hlt⟩ := hc
      have hlen : (swapAt d (j + 1) j).length = d.length := length_swapAt d _ _
      have key : ∀ x, x ≠ j → x ≠ j + 1 → tr (j + 1) j x = x :=
        fun x e1 e2 => tr_of_ne _ _ _ e2 e1
      have ih := insertionSortInner_spec ho a i j (swapAt d (j + 1) j) (by omega) (by omega)
        (by omega)
        (by
          intro p q hp hpq hq hpj hqj
          rw [lessAt_swapAt less d (j + 1) j q p (by omega) (by omega)]
          by_cases hq1 : q = j + 1
          · subst hq1
            rw [tr_left, key p hpj (by omega)]
            exact h1 p j hp (by omega) (by omega) (by omega) (by omega)
          · by_cases hp1 : p = j + 1
            · subst hp1
              rw [tr_left, key q hqj hq1]
              exact h1 j q (by omega) (by omega) hq (by omega) hq1
            · rw [key q hqj hq1, key p hpj hp1]
              exact h1 p q hp hpq hq hp1 hq1)
        (by
          intro q hjq hq
          rw [lessAt_swapAt less d (j + 1) j j q (by omega) (by omega), tr_right]
          by_cases hq1 : q = j + 1
          · subst hq1
            rw [tr_left]
            exact hlt
          · rw [key q (by omega) hq1]
            exact h2 q (by omega) hq)
      exact ⟨SwapsIn.step d _ (j + 1) j (by omega) (by omega) (by omega) (by omega) (by omega)
        ih.1, ih.2⟩
    · rw [if_neg hc]
      refine ⟨SwapsIn.refl d, ?_⟩
      simp only [Bool.and_eq_true, decide_eq_true_eq, not_and, Bool.not_eq_true] at hc
      intro p q hp hpq hq
      by_cases hp1 : p = j + 1
      · subst hp1
        exact lessAt_asymm ho d _ q (h2 q hpq (by omega))
      · by_cases hq1 : q = j + 1
        · subst hq1
          have hja : j + 1 > a := by omega
          have hnl := hc hja
          by_cases hpj : p = j
          · subst hpj
            exact hnl
          · have hle : lessAt less d j p = false :=
              h1 p j hp (by omega) (by omega) hp1 (by omega)
            exact lessAt_ntrans ho d p j (j + 1) (by omega) hle hnl
        · exact h1 p q hp hpq (by omega) hp1 hq1

theorem insertionSort_fold_spec {α : Type} {less : α → α → Bool} (ho : StrictWeakOrder less)
    (a : Nat) :
    ∀ (n i0 : Nat) (d : List α), a + 1 ≤ i0 → i0 + n ≤ d.length → SortedOn less a i0 d →
      SwapsIn a (i0 + n) d
          ((List.range' i0 n).foldl (fun d i => insertionSortInner less a i d) d) ∧
        SortedOn less a (i0 + n)
          ((List.range' i0 n).foldl (fun d i => insertionSortInner less a i d) d)
  | 0, i0, d, _, _, hs => ⟨SwapsIn.refl d, hs⟩
  | n + 1, i0, d, ha, hlen, hs => by
    have hinner := insertionSortInner_spec ho a i0 i0 d (by omega) (Nat.le_refl _) (by omega)
      (fun p q hp hpq hq _ hqi => hs p q hp hpq (by omega))
      (fun q hq1 hq2 => absurd hq1 (by omega))
    have hl1 := hinner.1.length_eq
    have ih := insertionSort_fold_spec ho a n (i0 + 1) (insertionSortInner less a i0 d)
      (by omega) (by omega) hinner.2
    have e : i0 + 1 + n = i0 + (n + 1) := by omega
    rw [e] at ih
    simp only [List.range', List.foldl_cons]
    exact ⟨(hinner.1.mono (Nat.le_refl _) (by omega) (by omega)).trans ih.1, ih.2⟩

theorem insertionSort_func_spec {α : Type} {less : α → α → Bool} (ho : StrictWeakOrder less)
    (d : List α) (a b : Nat) (hab : a ≤ b) (hb : b ≤ d.length) :
    SwapsIn a b d (insertionSort_func less d a b) ∧
      SortedOn less a b (insertionSort_func less d a b) := by
  unfold insertionSort_func
  by_cases hlt : a + 1 ≤ b
  · have h := insertionSort_fold_spec ho a (b - (a + 1)) (a + 1) d (Nat.le_refl _) (by omega)
      (fun i j hi hij hj => absurd hij (by omega))
    have e : a + 1 + (b - (a + 1)) = b := by omega
    rw [e] at h
    exact h
  · have e : b - (a + 1) = 0 := by omega
    rw [e]
    exact ⟨SwapsIn.refl d, fun i j hi hij hj => absurd hij (by omega)⟩

/-! ### Heap sort -/

theorem tr_eq_left (i j p : Nat) (h : p = i) : tr i j p = j := by
  subst h
  exact tr_left _ _

theorem tr_eq_right (i j p : Nat) (h : p = j) : tr i j p = i := by
  subst h
  exact tr_right _ _

/-- Sifting down from `root`: if every node from `lo` on except `root` dominates its
children, and the parent of `root` dominates the children of `root`, then afterwards
every node from `lo` on dominates its children. -/
theorem siftDown_func_spec {α : Type} {less : α → α → Bool} (ho : StrictWeakOrder less)
    (hi first lo : Nat) :
    ∀ (fuel root : Nat) (d : List α), hi - root < fuel → first + hi ≤ d.length → lo ≤ root →
      (∀ k c, lo ≤ k → k ≠ root → (c = 2 * k + 1 ∨ c = 2 * k + 2) → c < hi →
        lessAt less d (first + k) (first + c) = false) →
      (∀ k c, lo ≤ k → (root = 2 * k + 1 ∨ root = 2 * k + 2) →
        (c = 2 * root + 1 ∨ c = 2 * root + 2) → c < hi →
        lessAt less d (first + k) (first + c) = false) →
      SwapsIn (first + lo) (first + hi) d (siftDown_func less hi first fuel root d) ∧
        (∀ k c, lo ≤ k → (c = 2 * k + 1 ∨ c = 2 * k + 2) → c < hi →
          lessAt less (siftDown_func less hi first fuel root d) (first + k) (first + c) = false)
  | 0, root, d, hf, _, _, _, _ => absurd hf (by omega)
  | fuel + 1, root, d, hf, hlen, hlo, h1, h2 => by
    unfold siftDown_func
    simp only []
    by_cases hc1 : 2 * root + 1 ≥ hi
    · rw [if_pos hc1]
      refine ⟨SwapsIn.refl d, ?_⟩
      intro k c hk hkc hc
      by_cases hkr : k = root
      · subst hkr
        omega
      · exact h1 k c hk hkr hkc hc
    · rw [if_neg hc1]
      have hc1lt : 2 * root + 1 < hi := by omega
      -- the chosen child
      generalize hcdef : (if (decide (2 * root + 1 + 1 < hi) &&
          lessAt less d (first + (2 * root + 1)) (first + (2 * root + 1) + 1)) = true
          then 2 * root + 1 + 1 else 2 * root + 1) = c
      have hcprop : (c = 2 * root + 1 ∨ c = 2 * root + 2) ∧ c < hi ∧
          (∀ o, (o = 2 * root + 1 ∨ o = 2 * root + 2) → o < hi →
            lessAt less d (first + c) (first + o) = false) := by
        by_cases hcond : (decide (2 * root + 1 + 1 < hi) &&
            lessAt less d (first + (2 * root + 1)) (first + (2 * root + 1) + 1)) = true
        · rw [if_pos hcond] at hcdef
          simp only [Bool.and_eq_true, decide_eq_true_eq] at hcond
          subst hcdef
          refine ⟨Or.inr rfl, hcond.1, ?_⟩
          intro o ho1 ho2
          rcases ho1 with e | e
          · subst e
            exact lessAt_asymm ho d _ _ hcond.2
          · subst e
            exact lessAt_irrefl ho d _
        · rw [if_neg hcond] at hcdef
          subst hcdef
          refine ⟨Or.inl rfl, hc1lt, ?_⟩
          intro o ho1 ho2
          rcases ho1 with e | e
          · subst e
            exact lessAt_irrefl ho d _
          · subst e
            simp only [Bool.and_eq_true, decide_eq_true_eq, not_and, Bool.not_eq_true] at hcond
            exact hcond (by omega)
      obtain ⟨hcchild, hclt, hcmax⟩ := hcprop
      by_cases hstop : (!lessAt less d (first + root) (first + c)) = true
      · rw [if_pos hstop]
        simp only [Bool.not_eq_true', ] at hstop
        refine ⟨SwapsIn.refl d, ?_⟩
        intro k o hk hko hoLt
        by_cases hkr : k = root
        · subst hkr
          exact lessAt_ntrans ho d (first + o) (first + c) (first + k) (by omega)
            (hcmax o hko hoLt) hstop
        · exact h1 k o hk hkr hko hoLt
      · rw [if_neg hstop]
        simp only [Bool.not_eq_true', Bool.not_eq_false] at hstop
        have hir : first + root < d.length := by omega
        have hic : first + c < d.length := by omega
        have ih := siftDown_func_spec ho hi first lo fuel c
          (swapAt d (first + root) (first + c)) (by omega)
          (by rw [length_swapAt]; exact hlen) (by omega)
          (by
            intro k o hk hkc hko hoLt
            rw [lessAt_swapAt less d _ _ _ _ hir hic]
            by_cases hkr : k = root
            · subst hkr
              rw [tr_eq_left _ _ _ rfl]
              by_cases hoc : o = c
              · subst hoc
                rw [tr_eq_right _ _ _ rfl]
                exact lessAt_asymm ho d _ _ hstop
              · rw [tr_of_ne _ _ _ (by omega) (by omega)]
                exact hcmax o hko hoLt
            · rw [tr_of_ne _ _ (first + k) (by omega) (by omega)]
              by_cases hor : o = root
              · subst hor
                rw [tr_eq_left _ _ _ rfl]
                exact h2 k c hk hko hcchild hclt
              · rw [tr_of_ne _ _ (first + o) (by omega) (by omega)]
                exact h1 k o hk hkr hko hoLt)
          (by
            intro k o hk hkc hko hoLt
            have hkr : k = root := by omega
            subst hkr
            rw [lessAt_swapAt less d _ _ _ _ hir hic, tr_eq_left _ _ _ rfl,
              tr_of_ne _ _ (first + o) (by omega) (by omega)]
            exact h1 c o (by omega) (by omega) hko hoLt)
        exact ⟨SwapsIn.step d _ (first + root) (first + c) (by omega) (by omega) (by omega)
          (by omega) hlen ih.1, ih.2⟩

/-- In a heap the root dominates every node. -/
theorem heap_root_max {α : Type} {less : α → α → Bool} (ho : StrictWeakOrder less)
    (d : List α) (first n : Nat) (hlen : first + n ≤ d.length)
    (hheap : ∀ k c, (c = 2 * k + 1 ∨ c = 2 * k + 2) → c < n →
      lessAt less d (first + k) (first + c) = false) :
    ∀ k, k < n → lessAt less d first (first + k) = false := by
  intro k
  induction k using Nat.strong_induction_on with
  | _ k ih =>
    intro hk
    by_cases hk0 : k = 0
    · subst hk0
      exact lessAt_irrefl ho d _
    · have hpar : k = 2 * ((k - 1) / 2) + 1 ∨ k = 2 * ((k - 1) / 2) + 2 := by omega
      have h1 := hheap ((k - 1) / 2) k hpar hk
      have h2 := ih ((k - 1) / 2) (by omega) (by omega)
      exact lessAt_ntrans ho d (first + k) (first + (k - 1) / 2) first (by omega) h1 h2

theorem heapBuild_spec {α : Type} {less : α → α → Bool} (ho : StrictWeakOrder less)
    (hi first : Nat) :
    ∀ (n : Nat) (d : List α), first + hi ≤ d.length →
      (∀ k c, n ≤ k → (c = 2 * k + 1 ∨ c = 2 * k + 2) → c < hi →
        lessAt less d (first + k) (first + c) = false) →
      SwapsIn first (first + hi) d
          ((List.range n).reverse.foldl (fun d i => siftDown_func less hi first (hi + 1) i d) d) ∧
        (∀ k c, (c = 2 * k + 1 ∨ c = 2 * k + 2) → c < hi →
          lessAt less
            ((List.range n).reverse.foldl
              (fun d i => siftDown_func less hi first (hi + 1) i d) d)
            (first + k) (first + c) = false)
  | 0, d, _, h => ⟨SwapsIn.refl d, fun k c hkc hc => h k c (Nat.zero_le _) hkc hc⟩
  | n + 1, d, hlen, h => by
    rw [List.range_succ, List.reverse_append, List.reverse_singleton, List.singleton_append,
      List.foldl_cons]
    have hs := siftDown_func_spec ho hi first n (hi + 1) n d (by omega) hlen (Nat.le_refl _)
      (fun k c hk hkn hkc hc => h k c (by omega) hkc hc)
      (fun k c hk hkr _ _ => absurd hkr (by omega))
    have ih := heapBuild_spec ho hi first n (siftDown_func less hi first (hi + 1) n d)
      (by rw [hs.1.length_eq]; exact hlen) hs.2
    exact ⟨(hs.1.mono (by omega) (Nat.le_refl _) hlen).trans ih.1, ih.2⟩

theorem heapExtract_spec {α : Type} {less : α → α → Bool} (ho : StrictWeakOrder less)
    (hi first : Nat) :
    ∀ (n : Nat) (d : List α), n ≤ hi → first + hi ≤ d.length →
      (∀ k c, (c = 2 * k + 1 ∨ c = 2 * k + 2) → c < n →
        lessAt less d (first + k) (first + c) = false) →
      SortedOn less (first + n) (first + hi) d →
      (∀ k m, k < n → n ≤ m → m < hi → lessAt less d (first + m) (first + k) = false) →
      SwapsIn first (first + hi) d
          ((List.range n).reverse.foldl
            (fun d i => siftDown_func less i first (hi + 1) 0 (swapAt d first (first + i))) d) ∧
        SortedOn less first (first + hi)
          ((List.range n).reverse.foldl
            (fun d i => siftDown_func less i first (hi + 1) 0 (swapAt d first (first + i))) d)
  | 0, d, _, _, _, hs, _ => ⟨SwapsIn.refl d, hs⟩
  | n + 1, d, hn, hlen, hheap, hs, hcross => by
    rw [List.range_succ, List.reverse_append, List.reverse_singleton, List.singleton_append,
      List.foldl_cons]
    have hmax := heap_root_max ho d first (n + 1) (by omega) hheap
    have hi0 : first < d.length := by omega
    have hin : first + n < d.length := by omega
    have hl1 : (swapAt d first (first + n)).length = d.length := length_swapAt _ _ _
    -- after the exchange
    have hs1 : SortedOn less (first + n) (first + hi) (swapAt d first (first + n)) := by
      intro p q hp hpq hq
      rw [lessAt_swapAt less d _ _ _ _ hi0 hin, tr_of_ne _ _ q (by omega) (by omega)]
      by_cases hpn : p = first + n
      · rw [tr_eq_right _ _ _ hpn]
        have := hcross 0 (q - first) (by omega) (by omega) (by omega)
        rw [show first + (q - first) = q by omega, Nat.add_zero] at this
        exact this
      · rw [tr_of_ne _ _ p (by omega) hpn]
        exact hs p q (by omega) hpq hq
    have hcross1 : ∀ k m, k < n → n ≤ m → m < hi →
        lessAt less (swapAt d first (first + n)) (first + m) (first + k) = false := by
      intro k m hk hm1 hm2
      rw [lessAt_swapAt less d _ _ _ _ hi0 hin]
      by_cases hmn : m = n
      · subst hmn
        rw [tr_eq_right _ _ _ rfl]
        by_cases hk0 : k = 0
        · subst hk0
          rw [tr_eq_left first _ (first + 0) (Nat.add_zero _)]
          exact hmax m (by omega)
        · rw [tr_of_ne _ _ (first + k) (by omega) (by omega)]
          exact hmax k (by omega)
      · rw [tr_of_ne _ _ (first + m) (by omega) (by omega)]
        by_cases hk0 : k = 0
        · subst hk0
          rw [tr_eq_left first _ (first + 0) (Nat.add_zero _)]
          exact hcross n m (by omega) (by omega) hm2
        · rw [tr_of_ne _ _ (first + k) (by omega) (by omega)]
          exact hcross k m (by omega) (by omega) hm2
    have hsift := siftDown_func_spec ho n first 0 (hi + 1) 0 (swapAt d first (first + n))
      (by omega) (by omega) (Nat.le_refl _)
      (by
        intro k c _ hk0 hkc hc
        rw [lessAt_swapAt less d _ _ _ _ hi0 hin, tr_of_ne _ _ (first + k) (by omega) (by omega),
          tr_of_ne _ _ (first + c) (by omega) (by omega)]
        exact hheap k c hkc (by omega))
      (fun k c _ hkr _ _ => absurd hkr (by omega))
    have hsw : SwapsIn first (first + n) (swapAt d first (first + n))
        (siftDown_func less n first (hi + 1) 0 (swapAt d first (first + n))) := by
      have := hsift.1
      rwa [Nat.add_zero] at this
    have hl2 := hsw.length_eq
    have ih := heapExtract_spec ho hi first n
      (siftDown_func less n first (hi + 1) 0 (swapAt d first (first + n))) (by omega)
      (by omega) (fun k c hkc hc => hsift.2 k c (Nat.zero_le _) hkc hc)
      (hsw.sortedOn_outside less (first + n) (first + hi) (Or.inr (Nat.le_refl _)) hs1)
      (by
        intro k m hk hm1 hm2
        exact hsw.forall_lessAt_right less (first + m) (by omega) false
          (fun k2 hk1 hk2 => by
            have := hcross1 (k2 - first) m (by omega) hm1 hm2
            rwa [show first + (k2 - first) = k2 by omega] at this)
          (first + k) (by omega) (by omega))
    refine ⟨?_, ih.2⟩
    exact SwapsIn.step d _ first (first + n) (Nat.le_refl _) (by omega) (by omega) (by omega)
      hlen ((hsw.mono (Nat.le_refl _) (by omega) (by omega)).trans ih.1)

theorem heapSort_func_spec {α : Type} {less : α → α → Bool} (ho : StrictWeakOrder less)
    (d : List α) (a b : Nat) (hab : a ≤ b) (hb : b ≤ d.length) :
    SwapsIn a b d (heapSort_func less d a b) ∧ SortedOn less a b (heapSort_func less d a b) := by
  unfold heapSort_func
  simp only []
  have e : a + (b - a) = b := by omega
  have hbuild := heapBuild_spec ho (b - a) a ((b - a - 1) / 2 + 1) d (by omega)
    (fun k c hk hkc hc => absurd hc (by omega))
  have hl := hbuild.1.length_eq
  have hext := heapExtract_spec ho (b - a) a (b - a) _ (Nat.le_refl _) (by omega)
    (fun k c hkc hc => hbuild.2 k c hkc hc)
    (fun i j hi hij hj => absurd hj (by omega))
    (fun k m hk hm1 hm2 => absurd hm2 (by omega))
  rw [e] at hbuild hext
  exact ⟨hbuild.1.trans hext.1, hext.2⟩

/-! ### The scanning loops -/

theorem scanUp_spec (cond : Nat → Bool) (j : Nat) :
    ∀ (fuel i : Nat), j + 1 - i ≤ fuel →
      i ≤ scanUp cond j fuel i ∧ (i ≤ j + 1 → scanUp cond j fuel i ≤ j + 1) ∧
        (∀ k, i ≤ k → k < scanUp cond j fuel i → cond k = true) ∧
        (scanUp cond j fuel i ≤ j → cond (scanUp cond j fuel i) = false)
  | 0, i, hf => by
    simp only [scanUp]
    exact ⟨Nat.le_refl _, fun h => h, fun k h1 h2 => absurd h2 (by omega),
      fun h => absurd h (by omega)⟩
  | fuel + 1, i, hf => by
    unfold scanUp
    by_cases hc : (decide (i ≤ j) && cond i) = true
    · rw [if_pos hc]
      simp only [Bool.and_eq_true, decide_eq_true_eq] at hc
      have ih := scanUp_spec cond j fuel (i + 1) (by omega)
      refine ⟨by omega, fun _ => ih.2.1 (by omega), ?_, ih.2.2.2⟩
      intro k hk1 hk2
      by_cases hki : k = i
      · subst hki
        exact hc.2
      · exact ih.2.2.1 k (by omega) hk2
    · rw [if_neg hc]
      simp only [Bool.and_eq_true, decide_eq_true_eq, not_and, Bool.not_eq_true] at hc
      exact ⟨Nat.le_refl _, fun h => h, fun k h1 h2 => absurd h2 (by omega), hc⟩

theorem scanDown_spec (cond : Nat → Bool) (i : Nat) (hi : 1 ≤ i) :
    ∀ (j : Nat),
      scanDown cond i j ≤ j ∧ (i ≤ j + 1 → i ≤ scanDown cond i j + 1) ∧
        (∀ k, scanDown cond i j < k → k ≤ j → cond k = true) ∧
        (i ≤ scanDown cond i j → cond (scanDown cond i j) = false)
  | 0 => by
    simp only [scanDown]
    exact ⟨Nat.le_refl _, fun h => h, fun k h1 h2 => absurd h2 (by omega),
      fun h => absurd h (by omega)⟩
  | j + 1 => by
    unfold scanDown
    by_cases hc : (decide (i ≤ j + 1) && cond (j + 1)) = true
    · rw [if_pos hc]
      simp only [Bool.and_eq_true, decide_eq_true_eq] at hc
      have ih := scanDown_spec cond i hi j
      refine ⟨by omega, fun _ => ih.2.1 (by omega), ?_, ih.2.2.2⟩
      intro k hk1 hk2
      by_cases hkj : k = j + 1
      · subst hkj
        exact hc.2
      · exact ih.2.2.1 k hk1 (by omega)
    · rw [if_neg hc]
      simp only [Bool.and_eq_true, decide_eq_true_eq, not_and, Bool.not_eq_true] at hc
      exact ⟨Nat.le_refl _, fun h => h, fun k h1 h2 => absurd h2 (by omega), hc⟩

/-! ### Partition around the pivot -/

theorem partitionLoop_spec {α : Type} (less : α → α → Bool) (a b : Nat) :
    ∀ (fuel : Nat) (d : List α) (i j : Nat), j + 1 - i < fuel → a + 1 ≤ i → i ≤ j + 1 →
      j < b → b ≤ d.length →
      (∀ k, a + 1 ≤ k → k < i → lessAt less d k a = true) →
      (∀ k, j < k → k < b → lessAt less d k a = false) →
      SwapsIn (a + 1) b d (partitionLoop less a fuel d i j).1 ∧
        a ≤ (partitionLoop less a fuel d i j).2 ∧ (partitionLoop less a fuel d i j).2 < b ∧
        (∀ k, a + 1 ≤ k → k ≤ (partitionLoop less a fuel d i j).2 →
          lessAt less (partitionLoop less a fuel d i j).1 k a = true) ∧
        (∀ k, (partitionLoop less a fuel d i j).2 < k → k < b →
          lessAt less (partitionLoop less a fuel d i j).1 k a = false)
  | 0, d, i, j, hf, _, _, _, _, _, _ => absurd hf (by omega)
  | fuel + 1, d, i, j, hf, hai, hij, hjb, hlen, hL, hR => by
    unfold partitionLoop
    simp only []
    have hup := scanUp_spec (fun i => lessAt less d i a) j (j + 1) i (by omega)
    generalize scanUp (fun i => lessAt less d i a) j (j + 1) i = i2 at hup ⊢
    obtain ⟨hu1, hu2, hu3, hu4⟩ := hup
    have hu2 := hu2 hij
    have hdown := scanDown_spec (fun j => !lessAt less d j a) i2 (by omega) j
    generalize scanDown (fun j => !lessAt less d j a) i2 j = j2 at hdown ⊢
    obtain ⟨hd1, hd2, hd3, hd4⟩ := hdown
    have hd2 := hd2 hu2
    have hL2 : ∀ k, a + 1 ≤ k → k < i2 → lessAt less d k a = true := by
      intro k hk1 hk2
      by_cases hki : k < i
      · exact hL k hk1 hki
      · exact hu3 k (by omega) hk2
    have hR2 : ∀ k, j2 < k → k < b → lessAt less d k a = false := by
      intro k hk1 hk2
      by_cases hkj : j < k
      · exact hR k hkj hk2
      · have := hd3 k hk1 (by omega)
        simpa using this
    by_cases hex : i2 > j2
    · rw [if_pos hex]
      exact ⟨SwapsIn.refl d, by omega, by omega, fun k hk1 hk2 => hL2 k hk1 (by omega), hR2⟩
    · rw [if_neg hex]
      have hi2 : lessAt less d i2 a = false := hu4 (by omega)
      have hj2 : lessAt less d j2 a = true := by
        have := hd4 (by omega)
        simpa using this
      have hne : i2 ≠ j2 := by
        intro e
        rw [e, hj2] at hi2
        cases hi2
      have hli : i2 < d.length := by omega
      have hlj : j2 < d.length := by omega
      have ih := partitionLoop_spec less a b fuel (swapAt d i2 j2) (i2 + 1) (j2 - 1) (by omega)
        (by omega) (by omega) (by omega) (by rw [length_swapAt]; exact hlen)
        (by
          intro k hk1 hk2
          rw [lessAt_swapAt less d _ _ _ _ hli hlj, tr_of_ne _ _ a (by omega) (by omega)]
          by_cases hk : k = i2
          · rw [tr_eq_left _ _ _ hk]
            exact hj2
          · rw [tr_of_ne _ _ k hk (by omega)]
            exact hL2 k hk1 (by omega))
        (by
          intro k hk1 hk2
          rw [lessAt_swapAt less d _ _ _ _ hli hlj, tr_of_ne _ _ a (by omega) (by omega)]
          by_cases hk : k = j2
          · rw [tr_eq_right _ _ _ hk]
            exact hi2
          · rw [tr_of_ne _ _ k (by omega) hk]
            exact hR2 k (by omega) hk2)
      exact ⟨SwapsIn.step d _ i2 j2 (by omega) (by omega) (by omega) (by omega) hlen ih.1,
        ih.2⟩

theorem partition_func_eq {α : Type} (less : α → α → Bool) (d : List α) (a b pivot : Nat) :
    (partition_func less d a b pivot).1 =
        swapAt (partitionLoop less a (b + 2) (swapAt d a pivot) (a + 1) (b - 1)).1
          (partitionLoop less a (b + 2) (swapAt d a pivot) (a + 1) (b - 1)).2 a ∧
      (partition_func less d a b pivot).2.1 =
        (partitionLoop less a (b + 2) (swapAt d a pivot) (a + 1) (b - 1)).2 := by
  unfold partition_func
  rw [show b + 2 = (b + 1) + 1 from rfl]
  conv => rhs; unfold partitionLoop
  conv => lhs; rhs; unfold partitionLoop
  simp only []
  split <;> exact ⟨rfl, rfl⟩

theorem partition_func_spec {α : Type} {less : α → α → Bool} (_ho : StrictWeakOrder less)
    (d : List α) (a b pivot : Nat) (hap : a ≤ pivot) (hpb : pivot < b) (hlen : b ≤ d.length) :
    SwapsIn a b d (partition_func less d a b pivot).1 ∧
      a ≤ (partition_func less d a b pivot).2.1 ∧ (partition_func less d a b pivot).2.1 < b ∧
      (∀ k, a ≤ k → k < (partition_func less d a b pivot).2.1 →
        lessAt less (partition_func less d a b pivot).1 k
          (partition_func less d a b pivot).2.1 = true) ∧
      (∀ k, (partition_func less d a b pivot).2.1 < k → k < b →
        lessAt less (partition_func less d a b pivot).1 k
          (partition_func less d a b pivot).2.1 = false) := by
  obtain ⟨e1, e2⟩ := partition_func_eq less d a b pivot
  rw [e1, e2]
  have hl0 : (swapAt d a pivot).length = d.length := length_swapAt _ _ _
  have hloop := partitionLoop_spec less a b (b + 2) (swapAt d a pivot) (a + 1) (b - 1)
    (by omega) (Nat.le_refl _) (by omega) (by omega) (by omega)
    (fun k h1 h2 => absurd h2 (by omega)) (fun k h1 h2 => absurd h2 (by omega))
  generalize partitionLoop less a (b + 2) (swapAt d a pivot) (a + 1) (b - 1) = r at hloop ⊢
  obtain ⟨hsw, hm1, hm2, hL, hR⟩ := hloop
  have hl1 := hsw.length_eq
  have hla : a < r.1.length := by omega
  have hlm : r.2 < r.1.length := by omega
  refine ⟨?_, hm1, hm2, ?_, ?_⟩
  · refine SwapsIn.step d _ a pivot (Nat.le_refl _) (by omega) hap hpb hlen ?_
    refine (hsw.mono (by omega) (Nat.le_refl _) (by omega)).trans ?_
    exact SwapsIn.swap _ _ _ hm1 hm2 (Nat.le_refl _) (by omega) (by omega)
  · intro k hk1 hk2
    rw [lessAt_swapAt less r.1 _ _ _ _ hlm hla, tr_eq_left _ _ _ rfl]
    by_cases hka : k = a
    · rw [tr_eq_right _ _ _ hka]
      exact hL r.2 (by omega) (Nat.le_refl _)
    · rw [tr_of_ne _ _ k (by omega) hka]
      exact hL k (by omega) (by omega)
  · intro k hk1 hk2
    rw [lessAt_swapAt less r.1 _ _ _ _ hlm hla, tr_eq_left _ _ _ rfl,
      tr_of_ne _ _ k (by omega) (by omega)]
    exact hR k hk1 hk2

/-! ### Partition into elements equal to and greater than the pivot -/

theorem partitionEqualLoop_spec {α : Type} (less : α → α → Bool) (a b : Nat) :
    ∀ (fuel : Nat) (d : List α) (i j : Nat), j + 1 - i < fuel → a + 1 ≤ i → i ≤ j + 1 →
      j < b → b ≤ d.length →
      (∀ k, a + 1 ≤ k → k < i → lessAt less d a k = false) →
      (∀ k, j < k → k < b → lessAt less d a k = true) →
      SwapsIn (a + 1) b d (partitionEqualLoop less a fuel d i j).1 ∧
        a + 1 ≤ (partitionEqualLoop less a fuel d i j).2 ∧
        (partitionEqualLoop less a fuel d i j).2 ≤ b ∧
        (∀ k, a + 1 ≤ k → k < (partitionEqualLoop less a fuel d i j).2 →
          lessAt less (partitionEqualLoop less a fuel d i j).1 a k = false) ∧
        (∀ k, (partitionEqualLoop less a fuel d i j).2 ≤ k → k < b →
          lessAt less (partitionEqualLoop less a fuel d i j).1 a k = true)
  | 0, d, i, j, hf, _, _, _, _, _, _ => absurd hf (by omega)
  | fuel + 1, d, i, j, hf, hai, hij, hjb, hlen, hL, hR => by
    unfold partitionEqualLoop
    simp only []
    have hup := scanUp_spec (fun i => !lessAt less d a i) j (j + 1) i (by omega)
    generalize scanUp (fun i => !lessAt less d a i) j (j + 1) i = i2 at hup ⊢
    obtain ⟨hu1, hu2, hu3, hu4⟩ := hup
    have hu2 := hu2 hij
    have hdown := scanDown_spec (fun j => lessAt less d a j) i2 (by omega) j
    generalize scanDown (fun j => lessAt less d a j) i2 j = j2 at hdown ⊢
    obtain ⟨hd1, hd2, hd3, hd4⟩ := hdown
    have hd2 := hd2 hu2
    have hL2 : ∀ k, a + 1 ≤ k → k < i2 → lessAt less d a k = false := by
      intro k hk1 hk2
      by_cases hki : k < i
      · exact hL k hk1 hki
      · have := hu3 k (by omega) hk2
        simpa using this
    have hR2 : ∀ k, j2 < k → k < b → lessAt less d a k = true := by
      intro k hk1 hk2
      by_cases hkj : j < k
      · exact hR k hkj hk2
      · exact hd3 k hk1 (by omega)
    by_cases hex : i2 > j2
    · rw [if_pos hex]
      exact ⟨SwapsIn.refl d, by omega, by omega, hL2, fun k hk1 hk2 => hR2 k (by omega) hk2⟩
    · rw [if_neg hex]
      have hi2 : lessAt less d a i2 = true := by
        have := hu4 (by omega)
        simpa using this
      have hj2 : lessAt less d a j2 = false := hd4 (by omega)
      have hne : i2 ≠ j2 := by
        intro e
        rw [e, hj2] at hi2
        cases hi2
      have hli : i2 < d.length := by omega
      have hlj : j2 < d.length := by omega
      have ih := partitionEqualLoop_spec less a b fuel (swapAt d i2 j2) (i2 + 1) (j2 - 1)
        (by omega) (by omega) (by omega) (by omega) (by rw [length_swapAt]; exact hlen)
        (by
          intro k hk1 hk2
          rw [lessAt_swapAt less d _ _ _ _ hli hlj, tr_of_ne _ _ a (by omega) (by omega)]
          by_cases hk : k = i2
          · rw [tr_eq_left _ _ _ hk]
            exact hj2
          · rw [tr_of_ne _ _ k hk (by omega)]
            exact hL2 k hk1 (by omega))
        (by
          intro k hk1 hk2
          rw [lessAt_swapAt less d _ _ _ _ hli hlj, tr_of_ne _ _ a (by omega) (by omega)]
          by_cases hk : k = j2
          · rw [tr_eq_right _ _ _ hk]
            exact hi2
          · rw [tr_of_ne _ _ k (by omega) hk]
            exact hR2 k (by omega) hk2)
      exact ⟨SwapsIn.step d _ i2 j2 (by omega) (by omega) (by omega) (by omega) hlen ih.1,
        ih.2⟩

theorem partitionEqual_func_spec {α : Type} {less : α → α → Bool}
    (ho : StrictWeakOrder less) (d : List α) (a b pivot : Nat) (hap : a ≤ pivot)
    (hpb : pivot < b) (hlen : b ≤ d.length)
    (hge : ∀ k, a ≤ k → k < b → lessAt less d k pivot = false) :
    SwapsIn a b d (partitionEqual_func less d a b pivot).1 ∧
      a + 1 ≤ (partitionEqual_func less d a b pivot).2 ∧
      (partitionEqual_func less d a b pivot).2 ≤ b ∧
      (∀ k, a ≤ k → k < (partitionEqual_func less d a b pivot).2 →
        lessAt less (partitionEqual_func less d a b pivot).1 a k = false) ∧
      (∀ k, (partitionEqual_func less d a b pivot).2 ≤ k → k < b →
        lessAt less (partitionEqual_func less d a b pivot).1 a k = true) ∧
      (∀ k, a ≤ k → k < b →
        lessAt less (partitionEqual_func less d a b pivot).1 k a = false) := by
  unfold partitionEqual_func
  simp only []
  have hl0 : (swapAt d a pivot).length = d.length := length_swapAt _ _ _
  have hla : a < d.length := by omega
  have hlp : pivot < d.length := by omega
  have hloop := partitionEqualLoop_spec less a b (b + 1) (swapAt d a pivot) (a + 1) (b - 1)
    (by omega) (Nat.le_refl _) (by omega) (by omega) (by omega)
    (fun k h1 h2 => absurd h2 (by omega)) (fun k h1 h2 => absurd h2 (by omega))
  generalize partitionEqualLoop less a (b + 1) (swapAt d a pivot) (a + 1) (b - 1) = r
    at hloop ⊢
  obtain ⟨hsw, hm1, hm2, hL, hR⟩ := hloop
  have hge0 : ∀ k, a + 1 ≤ k → k < b → lessAt less (swapAt d a pivot) k a = false := by
    intro k hk1 hk2
    rw [lessAt_swapAt less d _ _ _ _ hla hlp, tr_eq_left _ _ _ rfl]
    have := tr_mem a b a pivot k (Nat.le_refl _) (by omega) hap hpb (by omega) hk2
    exact hge _ this.1 this.2
  have hge1 := hsw.forall_lessAt_left less a (by omega) false hge0
  refine ⟨?_, hm1, hm2, ?_, hR, ?_⟩
  · exact SwapsIn.step d _ a pivot (Nat.le_refl _) (by omega) hap hpb hlen
      (hsw.mono (by omega) (Nat.le_refl _) (by omega))
  · intro k hk1 hk2
    by_cases hka : k = a
    · subst hka
      exact lessAt_irrefl ho _ _
    · exact hL k (by omega) hk2
  · intro k hk1 hk2
    by_cases hka : k = a
    · subst hka
      exact lessAt_irrefl ho _ _
    · exact hge1 k (by omega) hk2

/-! ### Choice of the pivot -/

theorem order2_func_fst {α : Type} (less : α → α → Bool) (d : List α) (a b s : Nat) :
    ((order2_func less d a b s).1 = a ∧ (order2_func less d a b s).2.1 = b) ∨
      ((order2_func less d a b s).1 = b ∧ (order2_func less d a b s).2.1 = a) := by
  unfold order2_func
  split
  · exact Or.inr ⟨rfl, rfl⟩
  · exact Or.inl ⟨rfl, rfl⟩

theorem median_func_mem {α : Type} (less : α → α → Bool) (d : List α) (a b c s : Nat) :
    (median_func less d a b c s).1 = a ∨ (median_func less d a b c s).1 = b ∨
      (median_func less d a b c s).1 = c := by
  unfold median_func
  simp only []
  have h1 := order2_func_fst less d a b s
  generalize order2_func less d a b s = r1 at h1 ⊢
  have h2 := order2_func_fst less d r1.2.1 c r1.2.2
  generalize order2_func less d r1.2.1 c r1.2.2 = r2 at h2 ⊢
  have h3 := order2_func_fst less d r1.1 r2.1 r2.2.2
  generalize order2_func less d r1.1 r2.1 r2.2.2 = r3 at h3 ⊢
  rcases h1 with ⟨e1, e2⟩ | ⟨e1, e2⟩ <;> rcases h2 with ⟨e3, e4⟩ | ⟨e3, e4⟩ <;>
    rcases h3 with ⟨e5, e6⟩ | ⟨e5, e6⟩ <;> simp_all

theorem choosePivot_func_mem {α : Type} (less : α → α → Bool) (d : List α) (a b : Nat)
    (hl : 8 ≤ b - a) :
    a ≤ (choosePivot_func less d a b).1 ∧ (choosePivot_func less d a b).1 < b := by
  have hfst : ∀ (p : Nat) (s : Nat),
      (if s = 0 then (p, sortedHint.increasingHint)
        else if s = 4 * 3 then (p, sortedHint.decreasingHint)
        else (p, sortedHint.unknownHint)).1 = p := by
    intro p s
    split
    · rfl
    · split <;> rfl
  unfold choosePivot_func
  simp only []
  rw [hfst]
  rw [if_pos hl]
  by_cases h50 : b - a ≥ 50
  · rw [if_pos h50]
    have hi := median_func_mem less d (a + (b - a) / 4 * 1 - 1) (a + (b - a) / 4 * 1)
      (a + (b - a) / 4 * 1 + 1) 0
    have hi2 : medianAdjacent_func less d (a + (b - a) / 4 * 1) 0 =
        median_func less d (a + (b - a) / 4 * 1 - 1) (a + (b - a) / 4 * 1)
          (a + (b - a) / 4 * 1 + 1) 0 := rfl
    rw [← hi2] at hi
    generalize medianAdjacent_func less d (a + (b - a) / 4 * 1) 0 = ri at hi ⊢
    have hj := median_func_mem less d (a + (b - a) / 4 * 2 - 1) (a + (b - a) / 4 * 2)
      (a + (b - a) / 4 * 2 + 1) ri.2
    have hj2 : medianAdjacent_func less d (a + (b - a) / 4 * 2) ri.2 =
        median_func less d (a + (b - a) / 4 * 2 - 1) (a + (b - a) / 4 * 2)
          (a + (b - a) / 4 * 2 + 1) ri.2 := rfl
    rw [← hj2] at hj
    generalize medianAdjacent_func less d (a + (b - a) / 4 * 2) ri.2 = rj at hj ⊢
    have hk := median_func_mem less d (a + (b - a) / 4 * 3 - 1) (a + (b - a) / 4 * 3)
      (a + (b - a) / 4 * 3 + 1) rj.2
    have hk2 : medianAdjacent_func less d (a + (b - a) / 4 * 3) rj.2 =
        median_func less d (a + (b - a) / 4 * 3 - 1) (a + (b - a) / 4 * 3)
          (a + (b - a) / 4 * 3 + 1) rj.2 := rfl
    rw [← hk2] at hk
    generalize medianAdjacent_func less d (a + (b - a) / 4 * 3) rj.2 = rk at hk ⊢
    have hm := median_func_mem less d ri.1 rj.1 rk.1 rk.2
    generalize median_func less d ri.1 rj.1 rk.1 rk.2 = rm at hm ⊢
    omega
  · rw [if_neg h50]
    have hm := median_func_mem less d (a + (b - a) / 4 * 1) (a + (b - a) / 4 * 2)
      (a + (b - a) / 4 * 3) 0
    generalize median_func less d (a + (b - a) / 4 * 1) (a + (b - a) / 4 * 2)
      (a + (b - a) / 4 * 3) 0 = rm at hm ⊢
    omega

/-! ### Reversal and pattern breaking -/

theorem reverseRangeLoop_spec {α : Type} (a b : Nat) :
    ∀ (fuel i j : Nat) (d : List α), a ≤ i → j < b → b ≤ d.length →
      SwapsIn a b d (reverseRangeLoop fuel i j d)
  | 0, _, _, d, _, _, _ => SwapsIn.refl d
  | fuel + 1, i, j, d, hi, hj, hlen => by
    unfold reverseRangeLoop
    split
    · next hij =>
      exact SwapsIn.step d _ i j hi (by omega) (by omega) hj hlen
        (reverseRangeLoop_spec a b fuel (i + 1) (j - 1) _ (by omega) (by omega)
          (by rw [length_swapAt]; exact hlen))
    · exact SwapsIn.refl d

theorem reverseRange_func_spec {α : Type} (d : List α) (a b : Nat) (hab : a < b)
    (hlen : b ≤ d.length) : SwapsIn a b d (reverseRange_func d a b) := by
  unfold reverseRange_func
  exact reverseRangeLoop_spec a b b a (b - 1) d (Nat.le_refl _) (by omega) hlen

theorem filter_pow_le_length (l : Nat) :
    ∀ n : Nat, ((List.range n).filter (fun k => decide (2 ^ k ≤ l))).length ≤ n ∧
      (1 ≤ ((List.range n).filter (fun k => decide (2 ^ k ≤ l))).length →
        2 ^ (((List.range n).filter (fun k => decide (2 ^ k ≤ l))).length - 1) ≤ l)
  | 0 => by simp
  | n + 1 => by
    have ih := filter_pow_le_length l n
    rw [List.range_succ, List.filter_append]
    by_cases hn : 2 ^ n ≤ l
    · have e : List.filter (fun k => decide (2 ^ k ≤ l)) [n] = [n] := by simp [hn]
      rw [e, List.length_append, List.length_singleton]
      refine ⟨by omega, fun _ => ?_⟩
      rw [Nat.add_sub_cancel]
      exact Nat.le_trans (Nat.pow_le_pow_right (by omega) ih.1) hn
    · have e : List.filter (fun k => decide (2 ^ k ≤ l)) [n] = [] := by simp [hn]
      rw [e, List.append_nil]
      exact ⟨by omega, ih.2⟩

theorem nextPowerOfTwo_le (l : Nat) (hl : 1 ≤ l) : nextPowerOfTwo l ≤ 2 * l := by
  unfold nextPowerOfTwo bitsLen
  have h := filter_pow_le_length l 64
  generalize ((List.range 64).filter (fun k => decide (2 ^ k ≤ l))).length = m at h ⊢
  by_cases hm : m = 0
  · subst hm
    simp
    omega
  · have h2 := h.2 (by omega)
    have e : m = (m - 1) + 1 := by omega
    rw [e, Nat.pow_succ]
    omega

theorem breakPatternsLoop_spec {α : Type} (a b length modulus idx : Nat) (hl : 1 ≤ length)
    (hm : modulus ≤ 2 * length) (hm1 : 1 ≤ modulus) (hidx : a ≤ idx) (hidx2 : idx + 2 < b)
    (hab : a + length = b) :
    ∀ (steps i random : Nat) (d : List α), i + steps ≤ 3 → b ≤ d.length →
      SwapsIn a b d (breakPatternsLoop a length modulus idx steps i random d)
  | 0, _, _, d, _, _ => SwapsIn.refl d
  | steps + 1, i, random, d, his, hlen => by
    unfold breakPatternsLoop
    simp only []
    have hand : xorshiftNext random &&& (modulus - 1) ≤ modulus - 1 := Nat.and_le_right
    generalize xorshiftNext random &&& (modulus - 1) = other at hand ⊢
    have hother : (if other ≥ length then other - length else other) < length := by
      split <;> omega
    generalize (if other ≥ length then other - length else other) = other2 at hother ⊢
    exact SwapsIn.step d _ (idx + i) (a + other2) (by omega) (by omega) (by omega) (by omega)
      hlen (breakPatternsLoop_spec a b length modulus idx hl hm hm1 hidx hidx2 hab steps
        (i + 1) _ _ (by omega) (by rw [length_swapAt]; exact hlen))

theorem breakPatterns_func_spec {α : Type} (d : List α) (a b : Nat) (hab : a ≤ b)
    (hlen : b ≤ d.length) : SwapsIn a b d (breakPatterns_func d a b) := by
  unfold breakPatterns_func
  simp only []
  split
  · next h8 =>
    have hp := nextPowerOfTwo_le (b - a) (by omega)
    have hp1 : 1 ≤ nextPowerOfTwo (b - a) := Nat.one_le_two_pow
    exact breakPatternsLoop_spec a b (b - a) (nextPowerOfTwo (b - a))
      (a + (b - a) / 4 * 2 - 1) (by omega) hp hp1 (by omega) (by omega) (by omega) 3 0 _ d
      (by omega) hlen
  · exact SwapsIn.refl d

/-! ### Partial insertion sort -/

theorem shiftSmaller_eq {α : Type} (less : α → α → Bool) :
    ∀ (j : Nat) (d : List α), shiftSmaller less j d = insertionSortInner less 0 j d
  | 0, d => rfl
  | j + 1, d => by
    unfold shiftSmaller insertionSortInner
    cases h : lessAt less d (j + 1) j
    · simp
    · simp [shiftSmaller_eq less j]

/-- Below an element that is not less than its left neighbour outside the range, the
inner loop of insertion sort stops at the lower end of the range by itself. -/
theorem insertionSortInner_zero_eq {α : Type} (less : α → α → Bool) (a : Nat) :
    ∀ (j : Nat) (d : List α), a ≤ j → j < d.length →
      (0 < a → lessAt less d j (a - 1) = false) →
      insertionSortInner less 0 j d = insertionSortInner less a j d
  | 0, d, _, _, _ => by
    unfold insertionSortInner
    rfl
  | j + 1, d, ha, hj, hlow => by
    unfold insertionSortInner
    by_cases hja : j + 1 > a
    · have e1 : decide (j + 1 > 0) = true := by simp
      have e2 : decide (j + 1 > a) = true := by simp [hja]
      rw [e1, e2]
      by_cases hl : lessAt less d (j + 1) j = true
      · simp only [hl, Bool.and_self, if_true]
        refine insertionSortInner_zero_eq less a j _ (by omega)
          (by rw [length_swapAt]; omega) ?_
        intro ha0
        rw [lessAt_swapAt less d _ _ _ _ (by omega) (by omega), tr_eq_right _ _ _ rfl,
          tr_of_ne _ _ (a - 1) (by omega) (by omega)]
        exact hlow ha0
      · simp [hl]
    · have hja2 : j + 1 = a := by omega
      have hl := hlow (by omega)
      have e : a - 1 = j := by omega
      rw [e] at hl
      simp [hl, hja]

theorem shiftGreater_spec {α : Type} (less : α → α → Bool) (lo b : Nat) :
    ∀ (fuel j : Nat) (d : List α), lo + 1 ≤ j → b ≤ d.length →
      SwapsIn lo b d (shiftGreater less b fuel j d)
  | 0, _, d, _, _ => SwapsIn.refl d
  | fuel + 1, j, d, hj, hlen => by
    unfold shiftGreater
    split
    · next hjb =>
      split
      · exact SwapsIn.refl d
      · exact SwapsIn.step d _ j (j - 1) (by omega) hjb (by omega) (by omega) hlen
          (shiftGreater_spec less lo b fuel (j + 1) _ (by omega)
            (by rw [length_swapAt]; exact hlen))
    · exact SwapsIn.refl d

theorem sortedOn_extend {α : Type} {less : α → α → Bool} (ho : StrictWeakOrder less)
    (d : List α) (a i : Nat) (hai : a + 1 ≤ i) (hlen : i < d.length)
    (hs : SortedOn less a i d) (hstep : lessAt less d i (i - 1) = false) :
    SortedOn less a (i + 1) d := by
  intro p q hp hpq hq
  by_cases hqi : q = i
  · subst hqi
    by_cases hpi : p = q - 1
    · subst hpi
      exact hstep
    · have h1 := hs p (q - 1) hp (by omega) (by omega)
      exact lessAt_ntrans ho d p (q - 1) q (by omega) h1 hstep
  · exact hs p q hp hpq (by omega)

theorem sortedOn_of_scan {α : Type} {less : α → α → Bool} (ho : StrictWeakOrder less)
    (d : List α) (a i : Nat) (hai : a + 1 ≤ i) (hs : SortedOn less a i d) :
    ∀ (n : Nat), i + n ≤ d.length →
      (∀ k, i ≤ k → k < i + n → lessAt less d k (k - 1) = false) →
      SortedOn less a (i + n) d
  | 0, _, _ => hs
  | n + 1, hlen, hstep => by
    have ih := sortedOn_of_scan ho d a i hai hs n (by omega)
      (fun k h1 h2 => hstep k h1 (by omega))
    exact sortedOn_extend ho d a (i + n) (by omega) (by omega) ih
      (hstep (i + n) (by omega) (by omega))

theorem partialInsertionSortLoop_spec {α : Type} {less : α → α → Bool}
    (ho : StrictWeakOrder less) (a b : Nat) (hab : a < b) :
    ∀ (steps i : Nat) (d : List α), a + 1 ≤ i → i ≤ b → b ≤ d.length →
      SortedOn less a i d →
      (0 < a → ∀ k, a ≤ k → k < b → lessAt less d k (a - 1) = false) →
      SwapsIn a b d (partialInsertionSortLoop less a b steps i d).1 ∧
        ((partialInsertionSortLoop less a b steps i d).2 = true →
          SortedOn less a b (partialInsertionSortLoop less a b steps i d).1)
  | 0, i, d, _, _, _, _, _ => by
    unfold partialInsertionSortLoop
    exact ⟨SwapsIn.refl d, fun h => by cases h⟩
  | steps + 1, i, d, hai, hib, hlen, hs, hlow => by
    unfold partialInsertionSortLoop
    simp only []
    have hup := scanUp_spec (fun i => !lessAt less d i (i - 1)) (b - 1) b i (by omega)
    generalize scanUp (fun i => !lessAt less d i (i - 1)) (b - 1) b i = i2 at hup ⊢
    obtain ⟨hu1, hu2, hu3, hu4⟩ := hup
    have hu2 : i2 ≤ b := by
      have := hu2 (by omega)
      omega
    have hs2 : SortedOn less a i2 d := by
      have := sortedOn_of_scan ho d a i hai hs (i2 - i) (by omega)
        (fun k h1 h2 => by
          have := hu3 k h1 (by omega)
          simpa using this)
      rwa [show i + (i2 - i) = i2 by omega] at this
    by_cases hdone : i2 = b
    · rw [if_pos hdone]
      subst hdone
      exact ⟨SwapsIn.refl d, fun _ => hs2⟩
    · rw [if_neg hdone]
      by_cases hshort : b - a < 50
      · rw [if_pos hshort]
        exact ⟨SwapsIn.refl d, fun h => by cases h⟩
      · rw [if_neg hshort]
        have hdesc : lessAt less d i2 (i2 - 1) = true := by
          have := hu4 (by omega)
          simpa using this
        have hli : i2 < d.length := by omega
        have hli1 : i2 - 1 < d.length := by omega
        -- the exchange
        have hsw1 : SwapsIn a b d (swapAt d i2 (i2 - 1)) :=
          SwapsIn.swap d i2 (i2 - 1) (by omega) (by omega) (by omega) (by omega) hlen
        have hl1 : (swapAt d i2 (i2 - 1)).length = d.length := length_swapAt _ _ _
        have hs1 : SortedOn less a (i2 - 1) (swapAt d i2 (i2 - 1)) := by
          intro p q hp hpq hq
          rw [lessAt_swapAt less d _ _ _ _ hli hli1, tr_of_ne _ _ q (by omega) (by omega),
            tr_of_ne _ _ p (by omega) (by omega)]
          exact hs2 p q hp hpq (by omega)
        -- shifting the smaller element to the left
        have hsm : SwapsIn a i2 (swapAt d i2 (i2 - 1))
              (if i2 - a ≥ 2 then shiftSmaller less (i2 - 1) (swapAt d i2 (i2 - 1))
                else swapAt d i2 (i2 - 1)) ∧
            SortedOn less a i2
              (if i2 - a ≥ 2 then shiftSmaller less (i2 - 1) (swapAt d i2 (i2 - 1))
                else swapAt d i2 (i2 - 1)) := by
          by_cases h2 : i2 - a ≥ 2
          · rw [if_pos h2, shiftSmaller_eq,
              insertionSortInner_zero_eq less a (i2 - 1) _ (by omega) (by omega)
                (by
                  intro ha0
                  rw [lessAt_swapAt less d _ _ _ _ hli hli1, tr_eq_right _ _ _ rfl,
                    tr_of_ne _ _ (a - 1) (by omega) (by omega)]
                  exact hlow ha0 i2 (by omega) (by omega))]
            have hin := insertionSortInner_spec ho a (i2 - 1) (i2 - 1)
              (swapAt d i2 (i2 - 1)) (by omega) (Nat.le_refl _) (by omega)
              (fun p q hp hpq hq _ hqj => hs1 p q hp hpq (by omega))
              (fun q h1 h2 => absurd h1 (by omega))
            rw [show i2 - 1 + 1 = i2 by omega] at hin
            exact hin
          · rw [if_neg h2]
            exact ⟨SwapsIn.refl _, fun p q hp hpq hq => absurd hpq (by omega)⟩
        generalize (if i2 - a ≥ 2 then shiftSmaller less (i2 - 1) (swapAt d i2 (i2 - 1))
          else swapAt d i2 (i2 - 1)) = d2 at hsm ⊢
        obtain ⟨hsw2, hs2b⟩ := hsm
        have hl2 : d2.length = d.length := by rw [hsw2.length_eq, hl1]
        -- shifting the greater element to the right
        have hgr : SwapsIn i2 b d2
            (if b - i2 ≥ 2 then shiftGreater less b b (i2 + 1) d2 else d2) := by
          by_cases h2 : b - i2 ≥ 2
          · rw [if_pos h2]
            exact shiftGreater_spec less i2 b b (i2 + 1) d2 (Nat.le_refl _) (by omega)
          · rw [if_neg h2]
            exact SwapsIn.refl _
        generalize (if b - i2 ≥ 2 then shiftGreater less b b (i2 + 1) d2 else d2) = d3
          at hgr ⊢
        have hl3 : d3.length = d.length := by rw [hgr.length_eq, hl2]
        have hall : SwapsIn a b d d3 :=
          (hsw1.trans (hsw2.mono (Nat.le_refl _) (by omega) (by omega))).trans
            (hgr.mono (by omega) (Nat.le_refl _) (by omega))
        have ih := partialInsertionSortLoop_spec ho a b hab steps i2 d3 (by omega) hu2
          (by omega)
          (hgr.sortedOn_outside less a i2 (Or.inl (Nat.le_refl _)) hs2b)
          (fun ha0 => hall.forall_lessAt_left less (a - 1) (by omega) false (hlow ha0))
        exact ⟨hall.trans ih.1, ih.2⟩

theorem partialInsertionSort_func_spec {α : Type} {less : α → α → Bool}
    (ho : StrictWeakOrder less) (d : List α) (a b : Nat) (hab : a < b) (hlen : b ≤ d.length)
    (hlow : 0 < a → ∀ k, a ≤ k → k < b → lessAt less d k (a - 1) = false) :
    SwapsIn a b d (partialInsertionSort_func less d a b).1 ∧
      ((partialInsertionSort_func less d a b).2 = true →
        SortedOn less a b (partialInsertionSort_func less d a b).1) := by
  unfold partialInsertionSort_func
  exact partialInsertionSortLoop_spec ho a b hab 5 (a + 1) d (Nat.le_refl _) (by omega) hlen
    (fun p q hp hpq hq => absurd hpq (by omega)) hlow

/-! ### Pattern-defeating quicksort -/

theorem sortedOn_of_partition {α : Type} {less : α → α → Bool} (ho : StrictWeakOrder less)
    (e : List α) (a b mid : Nat) (hlen : b ≤ e.length)
    (hl : SortedOn less a mid e) (hr : SortedOn less (mid + 1) b e)
    (hL : ∀ k, a ≤ k → k < mid → lessAt less e k mid = true)
    (hR : ∀ k, mid < k → k < b → lessAt less e k mid = false) : SortedOn less a b e := by
  intro p q hp hpq hq
  by_cases hqm : q < mid
  · exact hl p q hp hpq hqm
  · by_cases hpm : mid < p
    · exact hr p q (by omega) hpq hq
    · by_cases hq2 : q = mid
      · subst hq2
        exact lessAt_asymm ho e p q (hL p hp (by omega))
      · by_cases hp2 : p = mid
        · subst hp2
          exact hR q (by omega) hq
        · have h1 := hL p hp (by omega)
          have h2 := hR q (by omega) hq
          exact lessAt_asymm ho e p q (lessAt_of_lt_of_le ho e p mid q (by omega) h1 h2)

theorem cross_of_partitionEqual {α : Type} {less : α → α → Bool} (ho : StrictWeakOrder less)
    (e : List α) (a b mid : Nat)
    (hL : ∀ k, a ≤ k → k < mid → lessAt less e a k = false)
    (hR : ∀ k, mid ≤ k → k < b → lessAt less e a k = true) :
    ∀ p q, a ≤ p → p < mid → mid ≤ q → q < b → lessAt less e q p = false := by
  intro p q hp1 hp2 hq1 hq2
  cases h : lessAt less e q p with
  | false => rfl
  | true =>
    have := lessAt_trans ho e a q p (hR q hq1 hq2) h
    rw [hL p hp1 hp2] at this
    cases this

theorem pdqsortLoop_spec {α : Type} {less : α → α → Bool} (ho : StrictWeakOrder less) :
    ∀ (fuel : Nat) (d : List α) (a b limit : Nat) (wb wp : Bool), b - a < fuel → a ≤ b →
      b ≤ d.length →
      (0 < a → ∀ k, a ≤ k → k < b → lessAt less d k (a - 1) = false) →
      ∃ e, pdqsortLoop less fuel d a b limit wb wp = some e ∧ SwapsIn a b d e ∧
        SortedOn less a b e
  | 0, _, _, _, _, _, _, hf, _, _, _ => absurd hf (by omega)
  | fuel + 1, d, a, b, limit, wb, wp, hf, hab, hlen, hlow => by
    unfold pdqsortLoop
    simp only []
    by_cases h12 : b - a ≤ 12
    · rw [if_pos h12]
      exact ⟨_, rfl, insertionSort_func_spec ho d a b hab hlen⟩
    · rw [if_neg h12]
      by_cases hlim : limit = 0
      · rw [if_pos hlim]
        exact ⟨_, rfl, heapSort_func_spec ho d a b hab hlen⟩
      · rw [if_neg hlim]
        have hlow0 := hlow
        -- breaking patterns
        have hbp : SwapsIn a b d (if (!wb) = true then breakPatterns_func d a b else d) := by
          split
          · exact breakPatterns_func_spec d a b hab hlen
          · exact SwapsIn.refl d
        generalize (if (!wb) = true then breakPatterns_func d a b else d) = d1 at hbp ⊢
        generalize (if (!wb) = true then limit - 1 else limit) = limit1
        have hl1 : d1.length = d.length := hbp.length_eq
        -- the pivot
        have hcp := choosePivot_func_mem less d1 a b (by omega)
        generalize choosePivot_func less d1 a b = cp at hcp ⊢
        have hrev : SwapsIn a b d1
            (if cp.2 = sortedHint.decreasingHint then reverseRange_func d1 a b else d1) := by
          split
          · exact reverseRange_func_spec d1 a b (by omega) (by omega)
          · exact SwapsIn.refl d1
        generalize (if cp.2 = sortedHint.decreasingHint then reverseRange_func d1 a b else d1)
          = d2 at hrev ⊢
        have hl2 : d2.length = d.length := by rw [hrev.length_eq, hl1]
        have hpiv : a ≤ (if cp.2 = sortedHint.decreasingHint then b - 1 - (cp.1 - a) else cp.1) ∧
            (if cp.2 = sortedHint.decreasingHint then b - 1 - (cp.1 - a) else cp.1) < b := by
          split <;> omega
        generalize (if cp.2 = sortedHint.decreasingHint then b - 1 - (cp.1 - a) else cp.1)
          = pivot at hpiv ⊢
        generalize (wb && wp &&
          decide ((if cp.2 = sortedHint.decreasingHint then sortedHint.increasingHint
            else cp.2) = sortedHint.increasingHint)) = c
        have hsw2 : SwapsIn a b d d2 := hbp.trans hrev
        have hlow2 : 0 < a → ∀ k, a ≤ k → k < b → lessAt less d2 k (a - 1) = false :=
          fun ha0 => hsw2.forall_lessAt_left less (a - 1) (by omega) false (hlow ha0)
        -- partial insertion sort
        have hpis : SwapsIn a b d2
              (if c = true then partialInsertionSort_func less d2 a b else (d2, false)).1 ∧
            ((if c = true then partialInsertionSort_func less d2 a b else (d2, false)).2 = true →
              SortedOn less a b
                (if c = true then partialInsertionSort_func less d2 a b else (d2, false)).1) := by
          split
          · exact partialInsertionSort_func_spec ho d2 a b (by omega) (by omega) hlow2
          · exact ⟨SwapsIn.refl d2, fun h => by cases h⟩
        generalize (if c = true then partialInsertionSort_func less d2 a b else (d2, false))
          = pis at hpis ⊢
        obtain ⟨hsw3a, hsorted3⟩ := hpis
        have hsw3 : SwapsIn a b d pis.1 := hsw2.trans hsw3a
        have hl3 : pis.1.length = d.length := hsw3.length_eq
        have hlow3 : 0 < a → ∀ k, a ≤ k → k < b → lessAt less pis.1 k (a - 1) = false :=
          fun ha0 => hsw3.forall_lessAt_left less (a - 1) (by omega) false (hlow ha0)
        by_cases hdone : pis.2 = true
        · rw [if_pos hdone]
          exact ⟨_, rfl, hsw3, hsorted3 hdone⟩
        · rw [if_neg hdone]
          by_cases heq : (decide (a > 0) && !lessAt less pis.1 (a - 1) pivot) = true
          · rw [if_pos heq]
            simp only [Bool.and_eq_true, decide_eq_true_eq, Bool.not_eq_true'] at heq
            obtain ⟨ha0, hnl⟩ := heq
            have hpe := partitionEqual_func_spec ho pis.1 a b pivot hpiv.1 hpiv.2 (by omega)
              (fun k hk1 hk2 =>
                lessAt_ntrans ho pis.1 pivot (a - 1) k (by omega) hnl (hlow3 ha0 k hk1 hk2))
            generalize partitionEqual_func less pis.1 a b pivot = pe at hpe ⊢
            obtain ⟨hsw4, hm1, hm2, hL, hR, hG⟩ := hpe
            have hl4 : pe.1.length = d.length := by rw [hsw4.length_eq, hl3]
            have hcross := cross_of_partitionEqual ho pe.1 a b pe.2 hL hR
            obtain ⟨e, he1, he2, he3⟩ := pdqsortLoop_spec ho fuel pe.1 pe.2 b limit1 wb wp
              (by omega) hm2 (by omega)
              (fun _ k hk1 hk2 => hcross (pe.2 - 1) k (by omega) (by omega) hk1 hk2)
            refine ⟨e, he1, hsw3.trans (hsw4.trans (he2.mono (by omega) (Nat.le_refl _)
              (by omega))), ?_⟩
            have hleft : SortedOn less a pe.2 pe.1 := by
              intro p q hp hpq hq
              exact lessAt_ntrans ho pe.1 p a q (by omega) (hL p hp (by omega))
                (hG q (by omega) (by omega))
            have hleft2 := he2.sortedOn_outside less a pe.2 (Or.inl (Nat.le_refl _)) hleft
            intro p q hp hpq hq
            by_cases hqm : q < pe.2
            · exact hleft2 p q hp hpq hqm
            · by_cases hpm : pe.2 ≤ p
              · exact he3 p q hpm hpq hq
              · exact he2.forall_lessAt_left less p (by omega) false
                  (fun k hk1 hk2 => hcross p k hp (by omega) hk1 hk2) q (by omega) hq
          · rw [if_neg heq]
            have hpt := partition_func_spec ho pis.1 a b pivot hpiv.1 hpiv.2 (by omega)
            generalize partition_func less pis.1 a b pivot = pt at hpt ⊢
            obtain ⟨hsw4, hm1, hm2, hL, hR⟩ := hpt
            have hsw4d : SwapsIn a b d pt.1 := hsw3.trans hsw4
            have hl4 : pt.1.length = d.length := hsw4d.length_eq
            have hlow4 : 0 < a → ∀ k, a ≤ k → k < b → lessAt less pt.1 k (a - 1) = false :=
              fun ha0 => hsw4d.forall_lessAt_left less (a - 1) (by omega) false (hlow ha0)
            by_cases hside : pt.2.1 - a < b - pt.2.1
            · rw [if_pos hside]
              obtain ⟨e5, he1, he2, he3⟩ := pdqsortLoop_spec ho fuel pt.1 a pt.2.1 limit1 true true
                (by omega) hm1 (by omega)
                (fun ha0 k hk1 hk2 => hlow4 ha0 k hk1 (by omega))
              rw [he1]
              simp only []
              have hl5 : e5.length = d.length := by rw [he2.length_eq, hl4]
              have hR5 : ∀ k, pt.2.1 < k → k < b → lessAt less e5 k pt.2.1 = false := by
                intro k hk1 hk2
                rw [he2.lessAt_outside less k pt.2.1 (by omega) (by omega)]
                exact hR k hk1 hk2
              have hL5 := he2.forall_lessAt_left less pt.2.1 (by omega) true hL
              obtain ⟨e6, hf1, hf2, hf3⟩ := pdqsortLoop_spec ho fuel e5 (pt.2.1 + 1) b limit1
                (decide (pt.2.1 - a ≥ (b - a) / 8)) pt.2.2 (by omega) (by omega) (by omega)
                (fun _ k hk1 hk2 => by
                  rw [Nat.add_sub_cancel]
                  exact hR5 k (by omega) hk2)
              refine ⟨e6, hf1, hsw4d.trans ((he2.mono (Nat.le_refl _) (by omega) (by omega)).trans
                (hf2.mono (by omega) (Nat.le_refl _) (by omega))), ?_⟩
              have hl6 : e6.length = d.length := by rw [hf2.length_eq, hl5]
              refine sortedOn_of_partition ho e6 a b pt.2.1 (by omega)
                (hf2.sortedOn_outside less a pt.2.1 (Or.inl (by omega)) he3) hf3 ?_ ?_
              · intro k hk1 hk2
                rw [hf2.lessAt_outside less k pt.2.1 (by omega) (by omega)]
                exact hL5 k hk1 hk2
              · intro k hk1 hk2
                exact hf2.forall_lessAt_left less pt.2.1 (by omega) false
                  (fun k hk1 hk2 => hR5 k (by omega) hk2) k (by omega) hk2
            · rw [if_neg hside]
              obtain ⟨e5, he1, he2, he3⟩ := pdqsortLoop_spec ho fuel pt.1 (pt.2.1 + 1) b limit1
                true true (by omega) (by omega) (by omega)
                (fun _ k hk1 hk2 => by
                  rw [Nat.add_sub_cancel]
                  exact hR k (by omega) hk2)
              rw [he1]
              simp only []
              have hl5 : e5.length = d.length := by rw [he2.length_eq, hl4]
              have hL5 : ∀ k, a ≤ k → k < pt.2.1 → lessAt less e5 k pt.2.1 = true := by
                intro k hk1 hk2
                rw [he2.lessAt_outside less k pt.2.1 (by omega) (by omega)]
                exact hL k hk1 hk2
              have hR5 : ∀ k, pt.2.1 < k → k < b → lessAt less e5 k pt.2.1 = false := by
                intro k hk1 hk2
                exact he2.forall_lessAt_left less pt.2.1 (by omega) false
                  (fun k hk1 hk2 => hR k (by omega) hk2) k (by omega) hk2
              obtain ⟨e6, hf1, hf2, hf3⟩ := pdqsortLoop_spec ho fuel e5 a pt.2.1 limit1
                (decide (b - pt.2.1 ≥ (b - a) / 8)) pt.2.2 (by omega) hm1 (by omega)
                (fun ha0 k hk1 hk2 => by
                  rw [he2.lessAt_outside less k (a - 1) (by omega) (by omega)]
                  exact hlow4 ha0 k hk1 (by omega))
              refine ⟨e6, hf1, hsw4d.trans ((he2.mono (by omega) (Nat.le_refl _)
                (by omega)).trans (hf2.mono (Nat.le_refl _) (by omega) (by omega))), ?_⟩
              have hl6 : e6.length = d.length := by rw [hf2.length_eq, hl5]
              refine sortedOn_of_partition ho e6 a b pt.2.1 (by omega) hf3
                (hf2.sortedOn_outside less (pt.2.1 + 1) b (Or.inr (by omega)) he3) ?_ ?_
              · exact hf2.forall_lessAt_left less pt.2.1 (by omega) true hL5
              · intro k hk1 hk2
                rw [hf2.lessAt_outside less k pt.2.1 (by omega) (by omega)]
                exact hR5 k hk1 hk2

/-- `sort.Slice` returns for every slice, and leaves a permutation of it in which no
later element is less than an earlier one. -/
theorem Slice_spec {α : Type} {less : α → α → Bool} (ho : StrictWeakOrder less) (x : List α) :
    ∃ e, Slice less x = some e ∧ e.Perm x ∧ SortedOn less 0 x.length e := by
  obtain ⟨e, h1, h2, h3⟩ := pdqsortLoop_spec ho (x.length + 1) x 0 x.length
    (bitsLen x.length) true true (by omega) (Nat.zero_le _) (Nat.le_refl _)
    (fun h => absurd h (by omega))
  exact ⟨e, h1, h2.perm, h3⟩

theorem pairwise_of_sortedOn {α : Type} (less : α → α → Bool) (e : List α)
    (h : SortedOn less 0 e.length e) : e.Pairwise (fun x y => less y x = false) := by
  rw [List.pairwise_iff_getElem]
  intro i j hi hj hij
  have := h i j (Nat.zero_le _) hij hj
  rwa [lessAt_eq less e j i hj hi] at this

/-- The contract of `sort.Slice` for the transcribed algorithm: for a strict weak
ordering it returns, with a permutation of the slice that is sorted. -/
theorem Slice_sorts {α : Type} {less : α → α → Bool} (ho : StrictWeakOrder less) (x : List α) :
    ∃ e, Slice less x = some e ∧ e.Perm x ∧ e.Pairwise (fun x y => less y x = false) := by
  obtain ⟨e, h1, h2, h3⟩ := Slice_spec ho x
  refine ⟨e, h1, h2, pairwise_of_sortedOn less e ?_⟩
  rw [h2.length_eq]
  exact h3

end GoSort

/-! ## Result Renderer: the table is sorted -/

theorem lessByClusterName_strictWeakOrder : GoSort.StrictWeakOrder lessByClusterName where
  irrefl := by
    intro x
    rw [← Bool.not_eq_true, lessByClusterName_iff]
    exact lt_irrefl _
  trans := by
    intro x y z h1 h2
    rw [lessByClusterName_iff] at h1 h2 ⊢
    exact lt_trans h1 h2
  ntrans := by
    intro x y z h1 h2
    rw [lessByClusterName_false_iff] at h1 h2 ⊢
    exact le_trans h1 h2

/-- C14: for every non-empty report, whatever the order of its clusters, `printTable`
(with the Go runtime's `sort.Slice`) returns, and the rows it emits after the
optional header are the rows of a permutation of the report's clusters in ascending
order of ClusterName: names never decrease from one row to the next and no cluster
is lost or duplicated. -/
theorem printTable_rows_sorted_permutation (o : options) (r : auditResults)
    (hne : r.Clusters ≠ []) :
    ∃ (res : PrintResult) (sorted : List clusterInfo),
      printTable goRenderEnv o r = some res ∧ res.err = none ∧
      goRenderEnv.sortSlice lessByClusterName r.Clusters = some sorted ∧
      tableRows res.out = (if o.noHeaders then [] else [tableHeader]) ++ sorted.map tableRow ∧
      sorted.Perm r.Clusters ∧
      sorted.Pairwise (fun a b => a.ClusterName ≤ b.ClusterName) ∧
      sorted.Chain' (fun a b => a.ClusterName ≤ b.ClusterName) ∧
      (sorted.map tableRow).Chain' (fun row1 row2 => row1.getD 1 "" ≤ row2.getD 1 "") := by
  obtain ⟨sorted, hs, hperm, hsorted⟩ :=
    GoSort.Slice_sorts lessByClusterName_strictWeakOrder r.Clusters
  have hs2 : goRenderEnv.sortSlice lessByClusterName r.Clusters = some sorted := hs
  obtain ⟨res, h1, h2, h3, h4, h5, h6⟩ :=
    printTable_rows_of_sortSlice goRenderEnv o r sorted hne hs2 hsorted
  exact ⟨res, sorted, h1, h2, hs2, h3, hperm, h4, h5, h6⟩

/-- Witness for C14: the report of thirteen clusters; the sorted order is the one
computed for it, `thirteenSorted`. -/
theorem printTable_rows_sorted_permutation_witness :
    thirteenReport.Clusters ≠ [] ∧
      ∃ (res : PrintResult) (sorted : List clusterInfo),
        printTable goRenderEnv textOptions thirteenReport = some res ∧
        sorted = thirteenSorted ∧
        tableRows res.out = [tableHeader] ++ sorted.map tableRow ∧
        sorted.Perm thirteenReport.Clusters ∧
        sorted.Pairwise (fun a b => a.ClusterName ≤ b.ClusterName) :=
  match printTable_rows_sorted_permutation textOptions thirteenReport (by decide) with
  | ⟨res, sorted, h1, _, h3, h4, h5, h6, _⟩ =>
    ⟨by decide, res, sorted, h1, Option.some.inj (h3.symm.trans (by decide)), h4, h5, h6⟩

end GetCpAutoscalingStatus
